import Mathlib

/-!
# QnA evaluation chaincodes: Questions, Students, Evaluators, Answers

A shallow embedding of the four Hyperledger Fabric chaincodes of the repository
(`Questions.go`, `Students.go`, `Evauators.go`, `Answers.go`) and theorems about
the submission and endorsement workflows.

Modelling conventions.

* A chaincode ledger is an association list from keys to JSON documents;
  `GetState` is a lookup that never errors, `PutState` rejects the empty key.
* `encoding/json` is modelled on structured documents (`Doc`): a record is
  encoded field by field under its struct tags and decoded by tag lookup. Keys
  are compared exactly; strings are sequences of Unicode characters, so an
  argument that is not valid UTF-8 is outside the model.
* Go `int` values are integers; every Go addition is wrapped into the 64-bit
  range by `wrapInt`.
* Cross-chaincode calls run on the callee's ledger and the caller continues on
  the resulting world; no transaction rollback is modelled.
* `time.Now()` and the `bcrypt` primitives are external: they are supplied by
  an environment `Env`.
* A handler of the leaf stores returns its response together with the new
  ledger. A handler of the Answer store can also end in a Go run-time panic
  (`Outcome.panicked`), and returns the world it leaves behind.
-/

namespace QnA

/-! ## JSON documents and byte payloads -/

/-- Scalar JSON value inside a nested object. -/
inductive JAtom where
  | str (s : String)
  | num (n : Int)
  deriving DecidableEq, Repr

/-- Flat JSON object: field name and scalar value, in order. -/
abbrev JObj := List (String × JAtom)

/-- Element of a JSON array. -/
inductive JElem where
  | str (s : String)
  | num (n : Int)
  | obj (o : JObj)
  deriving DecidableEq, Repr

/-- Value of a top-level field of a stored document. -/
inductive JVal where
  | str (s : String)
  | num (n : Int)
  | arr (xs : List JElem)
  deriving DecidableEq, Repr

/-- Stored JSON document: a JSON object, field name and value, in order. -/
abbrev Doc := List (String × JVal)

/-- Byte slices as they travel through the shim: `nil`, an encoded JSON object,
or other text (query buffers, error payloads). -/
inductive Bytes where
  | nil
  | json (d : Doc)
  | text (s : String)
  deriving DecidableEq, Repr

/-- Value bound to `name` in a JSON object; as in `encoding/json`, a later
occurrence of a repeated key overrides an earlier one. -/
def fieldOf {α : Type} (name : String) : List (String × α) → Option α
  | [] => none
  | (k, v) :: rest =>
    match fieldOf name rest with
    | some v' => some v'
    | none => if k = name then some v else none

/-- Decode a top-level string field: absent leaves the zero value. -/
def strField (d : Doc) (name : String) : Except String String :=
  match fieldOf name d with
  | none => .ok ""
  | some (.str s) => .ok s
  | some _ => .error ("json: cannot unmarshal into Go struct field " ++ name ++ " of type string")

/-- Decode a top-level int field: absent leaves the zero value. -/
def numField (d : Doc) (name : String) : Except String Int :=
  match fieldOf name d with
  | none => .ok 0
  | some (.num n) => .ok n
  | some _ => .error ("json: cannot unmarshal into Go struct field " ++ name ++ " of type int")

/-- Decode the elements of a JSON array into a `[]string`. -/
def decodeStrings : List JElem → Except String (List String)
  | [] => .ok []
  | .str s :: rest =>
    match decodeStrings rest with
    | .ok ss => .ok (s :: ss)
    | .error e => .error e
  | _ :: _ => .error "json: cannot unmarshal into Go value of type string"

/-- Decode a top-level `[]string` field: absent leaves the zero value. -/
def strsField (d : Doc) (name : String) : Except String (List String) :=
  match fieldOf name d with
  | none => .ok []
  | some (.arr xs) => decodeStrings xs
  | some _ => .error ("json: cannot unmarshal into Go struct field " ++ name ++ " of type []string")

/-- Decode a string field of a nested object. -/
def atomStr (o : JObj) (name : String) : Except String String :=
  match fieldOf name o with
  | none => .ok ""
  | some (.str s) => .ok s
  | some _ => .error ("json: cannot unmarshal into Go struct field " ++ name ++ " of type string")

/-- Decode an int field of a nested object. -/
def atomNum (o : JObj) (name : String) : Except String Int :=
  match fieldOf name o with
  | none => .ok 0
  | some (.num n) => .ok n
  | some _ => .error ("json: cannot unmarshal into Go struct field " ++ name ++ " of type int")

/-- Text of a JSON string (escaping is not modelled). -/
def quote (s : String) : String := "\"" ++ s ++ "\""

/-- Text of a scalar. -/
def renderAtom : JAtom → String
  | .str s => quote s
  | .num n => toString n

/-- Text of a nested object. -/
def renderObj (o : JObj) : String :=
  "\x7b" ++ ",".intercalate (o.map fun kv => quote kv.1 ++ ":" ++ renderAtom kv.2) ++ "\x7d"

/-- Text of an array element. -/
def renderElem : JElem → String
  | .str s => quote s
  | .num n => toString n
  | .obj o => renderObj o

/-- Text of a top-level value. -/
def renderVal : JVal → String
  | .str s => quote s
  | .num n => toString n
  | .arr xs => "[" ++ ",".intercalate (xs.map renderElem) ++ "]"

/-- Text of a stored document. -/
def renderDoc (d : Doc) : String :=
  "\x7b" ++ ",".intercalate (d.map fun kv => quote kv.1 ++ ":" ++ renderVal kv.2) ++ "\x7d"

/-- Go conversion `string(bytes)`. -/
def Bytes.toText : Bytes → String
  | .nil => ""
  | .json d => renderDoc d
  | .text s => s

/-! ## Go integers, `strconv` and errors -/

/-- Largest Go `int` (64-bit). -/
def maxInt : Int := 9223372036854775807

/-- Smallest Go `int` (64-bit). -/
def minInt : Int := -9223372036854775808

/-- Two-complement wrap of an integer into the Go `int` range. -/
def wrapInt (x : Int) : Int := (x + 9223372036854775808) % 18446744073709551616 - 9223372036854775808

/-- Go `error` value: `none` is `nil`, `some msg` an error with that message. -/
abbrev GoError := Option String

/-- Value of a run of decimal digits, most significant first, continuing from
`acc`; `none` when a character is not a decimal digit. -/
def digitsValue (acc : Nat) : List Char → Option Nat
  | [] => some acc
  | c :: rest =>
    if '0' ≤ c ∧ c ≤ '9' then digitsValue (acc * 10 + (c.toNat - '0'.toNat)) rest else none

/-- Unsigned part of `strconv.Atoi`: at least one digit, digits only. -/
def parseDigits (cs : List Char) : Option Nat :=
  match cs with
  | [] => none
  | _ :: _ => digitsValue 0 cs

/-- Go `strconv.Atoi`: the parsed value and the error. A syntax error yields
`0`; a value out of the `int` range yields the nearest bound, with an error. -/
def Atoi (s : String) : Int × GoError :=
  let syntaxErr : Int × GoError := (0, some ("strconv.Atoi: parsing " ++ quote s ++ ": invalid syntax"))
  let rangeErr : GoError := some ("strconv.Atoi: parsing " ++ quote s ++ ": value out of range")
  match s.data with
  | [] => syntaxErr
  | c :: rest =>
    let neg : Bool := c = '-'
    let body : List Char := if c = '-' ∨ c = '+' then rest else c :: rest
    match parseDigits body with
    | none => syntaxErr
    | some v =>
      if neg then
        if (v : Int) > 9223372036854775808 then (minInt, rangeErr) else (-(v : Int), none)
      else
        if (v : Int) ≥ 9223372036854775808 then (maxInt, rangeErr) else ((v : Int), none)

/-- Loop of `sanitize_arguments`, at index `i`. -/
def sanitizeFrom (i : Nat) : List String → GoError
  | [] => none
  | val :: rest =>
    if val.length ≤ 0 then
      some ("Argument " ++ toString i ++ " must be a non-empty string")
    else sanitizeFrom (i + 1) rest

/-- The `sanitize_arguments` function (identical in the four files): an error naming the first
empty argument, `nil` when there is none. -/
def sanitize_arguments (strs : List String) : GoError := sanitizeFrom 0 strs

/-- The `contains` function (identical in the three files that have it). -/
def contains : List String → String → Bool
  | [], _ => false
  | data :: rest, x => if data = x then true else contains rest x

/-! ## The shim: responses, ledgers, environment -/

/-- Response of a chaincode invocation (`pb.Response`). -/
structure Response where
  Status : Nat
  Message : String
  Payload : Bytes
  deriving DecidableEq, Repr

namespace shim

/-- Status code of success. -/
def OK : Nat := 200

/-- Status code of failure. -/
def ERROR : Nat := 500

/-- Successful response carrying `payload`. -/
def Success (payload : Bytes) : Response := ⟨OK, "", payload⟩

/-- Failed response carrying `msg`. -/
def Error (msg : String) : Response := ⟨ERROR, msg, Bytes.nil⟩

end shim

/-- World state of one chaincode: keys and the documents stored under them. -/
abbrev Ledger := List (String × Doc)

/-- Document stored under `key`, if any. -/
def stateOf : Ledger → String → Option Doc
  | [], _ => none
  | (k, v) :: rest, key => if k = key then some v else stateOf rest key

/-- Ledger with `value` stored under `key`: replaced in place, or added at the end. -/
def writeKey : Ledger → String → Doc → Ledger
  | [], key, value => [(key, value)]
  | (k, v) :: rest, key, value =>
    if k = key then (key, value) :: rest else (k, v) :: writeKey rest key value

/-- Shim `GetState`: the stored bytes, `nil` when the key is absent. -/
def GetState (l : Ledger) (key : String) : Bytes :=
  match stateOf l key with
  | some d => Bytes.json d
  | none => Bytes.nil

/-- Shim `PutState`: the empty key is refused, any other key is written. -/
def PutState (l : Ledger) (key : String) (value : Doc) : GoError × Ledger :=
  if key = "" then (some "key must not be an empty string", l)
  else (none, writeKey l key value)

/-- Rich query on one field: the selector `field = value`, the value being a
JSON string as in the query strings the handlers build. -/
structure Selector where
  field : String
  value : String
  deriving DecidableEq, Repr

/-- Shim `GetQueryResult`: every stored pair whose document binds the
selector field to the selector value, in ledger order. -/
def GetQueryResult (l : Ledger) (q : Selector) : List (String × Doc) :=
  l.filter fun kv => decide (fieldOf q.field kv.2 = some (JVal.str q.value))

/-- Buffer loop of `getQueryResultForQueryString`: the items after the first
are preceded by a comma. -/
def queryItems : Bool → List (String × Doc) → String
  | _, [] => ""
  | written, (k, v) :: rest =>
    (if written then "," else "") ++ "\x7b\"Key\":" ++ "\"" ++ k ++ "\"" ++ ", \"Record\":"
      ++ renderDoc v ++ "\x7d" ++ queryItems true rest

/-- The `getQueryResultForQueryString` function (identical in the four files). -/
def getQueryResultForQueryString (l : Ledger) (q : Selector) : Bytes × GoError :=
  (Bytes.text ("[" ++ queryItems false (GetQueryResult l q) ++ "]"), none)

/-- External inputs of a handler: the formatted clock reading and the `bcrypt`
primitives (`CompareHashAndPassword hash password` is `true` when the library
returns no error). -/
structure Env where
  now : String
  GenerateFromPassword : String → Except String String
  CompareHashAndPassword : String → String → Bool

/-- The `HashPassword` function (Students.go, Evauators.go). -/
def HashPassword (env : Env) (password : String) : Except String String :=
  env.GenerateFromPassword password

/-- The `CheckPasswordHash` function (all files that have it). -/
def CheckPasswordHash (env : Env) (password hash : String) : Bool :=
  env.CompareHashAndPassword hash password

/-! ## Records and their JSON encodings -/

/-- The `TechRepu` struct. -/
structure TechRepu where
  UniqueTechName : String
  AttainedRepu : Int
  CreatedON : String
  deriving DecidableEq, Repr

/-- The `Question` struct. -/
structure Question where
  QuestionHashID : String
  QuestionCID : String
  QuestionerID : String
  QuestionTech : String
  RequiredEvaluatorThumbsUp : Int
  QuestionedOn : String
  deriving DecidableEq, Repr

/-- The `Answer` struct. -/
structure Answer where
  AnswerHashID : String
  AnswerCID : String
  AnsweredBy : String
  QuestionID : String
  EvaluatedBy : List String
  AttainedEvaluatorThumbsUp : Int
  AnsweredOn : String
  deriving DecidableEq, Repr

/-- The `Evaluator` struct. -/
structure Evaluator where
  EvaluatorID : String
  EvaluatorSecret : String
  EvaluatedAnswers : List String
  EvaluatorTechRepus : List TechRepu
  CreatedON : String
  deriving DecidableEq, Repr

/-- The `Student` struct. -/
structure Student where
  StudentID : String
  StudentSecret : String
  StudentTechRepus : List TechRepu
  AnsweredQuestions : List String
  CreatedON : String
  deriving DecidableEq, Repr

/-- JSON object of a `TechRepu`, under its struct tags. -/
def encodeTechRepu (t : TechRepu) : JObj :=
  [("UniqueTechName", JAtom.str t.UniqueTechName),
   ("AttainedRepo", JAtom.num t.AttainedRepu),
   ("createdOn", JAtom.str t.CreatedON)]

/-- Decode one array element into a `TechRepu`. -/
def decodeTechRepu : JElem → Except String TechRepu
  | .obj o =>
    match atomStr o "UniqueTechName", atomNum o "AttainedRepo", atomStr o "createdOn" with
    | .ok n, .ok p, .ok c => .ok ⟨n, p, c⟩
    | _, _, _ => .error "json: cannot unmarshal into Go value of type main.TechRepu"
  | _ => .error "json: cannot unmarshal into Go value of type main.TechRepu"

/-- Decode the elements of a JSON array into a `[]TechRepu`. -/
def decodeTechRepus : List JElem → Except String (List TechRepu)
  | [] => .ok []
  | x :: rest =>
    match decodeTechRepu x, decodeTechRepus rest with
    | .ok t, .ok ts => .ok (t :: ts)
    | _, _ => .error "json: cannot unmarshal into Go value of type main.TechRepu"

/-- Decode a top-level `[]TechRepu` field: absent leaves the zero value. -/
def repusField (d : Doc) (name : String) : Except String (List TechRepu) :=
  match fieldOf name d with
  | none => .ok []
  | some (.arr xs) => decodeTechRepus xs
  | some _ => .error ("json: cannot unmarshal into Go struct field " ++ name)

/-- The `QuestoJSON` function: `json.Marshal` of a `Question`, which cannot fail on this struct.
The tag of `QuestionedOn` is malformed in the source, so the field is encoded
under its Go name. The struct and its tags are the same in Questions.go and
Answers.go. -/
def QuestoJSON (q : Question) : Doc :=
  [("QuestionHashID", JVal.str q.QuestionHashID),
   ("QuestionCID", JVal.str q.QuestionCID),
   ("QuestionerID", JVal.str q.QuestionerID),
   ("QuestionTech", JVal.str q.QuestionTech),
   ("RequiredEvaluatorThumbsUp", JVal.num q.RequiredEvaluatorThumbsUp),
   ("QuestionedOn", JVal.str q.QuestionedOn)]

/-- The `JSONtoQues` function: `json.Unmarshal` into a `Question`. -/
def JSONtoQues : Bytes → Except String Question
  | .json d =>
    match strField d "QuestionHashID", strField d "QuestionCID", strField d "QuestionerID",
      strField d "QuestionTech", numField d "RequiredEvaluatorThumbsUp",
      strField d "QuestionedOn" with
    | .ok a, .ok b, .ok c, .ok t, .ok n, .ok o => .ok ⟨a, b, c, t, n, o⟩
    | _, _, _, _, _, _ => .error "json: cannot unmarshal into Go value of type main.Question"
  | .nil => .error "unexpected end of JSON input"
  | .text _ => .error "json: cannot unmarshal into Go value of type main.Question"

/-- The `AnsToJSON` function: `json.Marshal` of an `Answer`, which cannot fail on this struct. -/
def AnsToJSON (a : Answer) : Doc :=
  [("AnswerHashDigest", JVal.str a.AnswerHashID),
   ("AnswerCID", JVal.str a.AnswerCID),
   ("AnsweredBy", JVal.str a.AnsweredBy),
   ("QuestionID", JVal.str a.QuestionID),
   ("EvaluatedBy", JVal.arr (a.EvaluatedBy.map JElem.str)),
   ("AttainedEvaluatorThumbsUp", JVal.num a.AttainedEvaluatorThumbsUp),
   ("AnsweredOn", JVal.str a.AnsweredOn)]

/-- The `JSONtoAns` function: `json.Unmarshal` into an `Answer`. -/
def JSONtoAns : Bytes → Except String Answer
  | .json d =>
    match strField d "AnswerHashDigest", strField d "AnswerCID", strField d "AnsweredBy",
      strField d "QuestionID", strsField d "EvaluatedBy",
      numField d "AttainedEvaluatorThumbsUp", strField d "AnsweredOn" with
    | .ok a, .ok b, .ok c, .ok q, .ok e, .ok n, .ok o => .ok ⟨a, b, c, q, e, n, o⟩
    | _, _, _, _, _, _, _ => .error "json: cannot unmarshal into Go value of type main.Answer"
  | .nil => .error "unexpected end of JSON input"
  | .text _ => .error "json: cannot unmarshal into Go value of type main.Answer"

/-- The `EvaltoJSON` function: `json.Marshal` of an `Evaluator`, which cannot fail on this
struct. The struct and its tags are the same in Evauators.go and Answers.go. -/
def EvaltoJSON (e : Evaluator) : Doc :=
  [("EvaluatorID", JVal.str e.EvaluatorID),
   ("EvaluatorSecret", JVal.str e.EvaluatorSecret),
   ("EvaluatedAnswers", JVal.arr (e.EvaluatedAnswers.map JElem.str)),
   ("EvaluatorTechRepos", JVal.arr (e.EvaluatorTechRepus.map fun t => JElem.obj (encodeTechRepu t))),
   ("createdOn", JVal.str e.CreatedON)]

/-- The `JSONtoEval` function: `json.Unmarshal` into an `Evaluator`. -/
def JSONtoEval : Bytes → Except String Evaluator
  | .json d =>
    match strField d "EvaluatorID", strField d "EvaluatorSecret", strsField d "EvaluatedAnswers",
      repusField d "EvaluatorTechRepos", strField d "createdOn" with
    | .ok a, .ok b, .ok c, .ok r, .ok o => .ok ⟨a, b, c, r, o⟩
    | _, _, _, _, _ => .error "json: cannot unmarshal into Go value of type main.Evaluator"
  | .nil => .error "unexpected end of JSON input"
  | .text _ => .error "json: cannot unmarshal into Go value of type main.Evaluator"

/-- The `StuToJSON` function: `json.Marshal` of a `Student`, which cannot fail on this struct. -/
def StuToJSON (s : Student) : Doc :=
  [("StudentID", JVal.str s.StudentID),
   ("StudentSecret", JVal.str s.StudentSecret),
   ("StudentTechRepos", JVal.arr (s.StudentTechRepus.map fun t => JElem.obj (encodeTechRepu t))),
   ("AnsweredQuestions", JVal.arr (s.AnsweredQuestions.map JElem.str)),
   ("createdOn", JVal.str s.CreatedON)]

/-- The `JSONtoStu` function: `json.Unmarshal` into a `Student`. -/
def JSONtoStu : Bytes → Except String Student
  | .json d =>
    match strField d "StudentID", strField d "StudentSecret", repusField d "StudentTechRepos",
      strsField d "AnsweredQuestions", strField d "createdOn" with
    | .ok a, .ok b, .ok r, .ok q, .ok o => .ok ⟨a, b, r, q, o⟩
    | _, _, _, _, _ => .error "json: cannot unmarshal into Go value of type main.Student"
  | .nil => .error "unexpected end of JSON input"
  | .text _ => .error "json: cannot unmarshal into Go value of type main.Student"

/-- Loop shared by the two reputation bumps: the first entry named `techName`
gets `amount` added (Go `+=`); `none` when no entry has that name. -/
def bumpFirst (techName : String) (amount : Int) : List TechRepu → Option (List TechRepu)
  | [] => none
  | t :: rest =>
    if t.UniqueTechName = techName then
      some ({ t with AttainedRepu := wrapInt (t.AttainedRepu + amount) } :: rest)
    else
      match bumpFirst techName amount rest with
      | some rest' => some (t :: rest')
      | none => none


/-! ## Question store (Questions.go) -/

namespace Questions

/-- The `CreateQuestionObject` function: the parse error of `Atoi` is discarded. -/
def CreateQuestionObject (env : Env) (args : List String) : Except String Question :=
  match args with
  | [a0, a1, a2, a3, a4] => .ok ⟨a0, a1, a2, a3, (Atoi a4).1, env.now⟩
  | _ => .error "CreateQuestionObject(): Incorrect number of arguments. Expecting 5 "

/-- The `submitQuestion` handler. -/
def submitQuestion (env : Env) (l : Ledger) (args : List String) : Response × Ledger :=
  match args with
  | [questionHashID, _, _, _, _] =>
    match sanitize_arguments args with
    | some _ => (shim.Error "Cannot sanitize arguments", l)
    | none =>
      match GetState l questionHashID with
      | Bytes.nil =>
        match CreateQuestionObject env args with
        | .error _ =>
          (shim.Error ("initQuestion() : Failed Cannot create object buffer for write : "
            ++ questionHashID), l)
        | .ok questionObject =>
          match PutState l questionHashID (QuestoJSON questionObject) with
          | (some err, l') => (shim.Error err, l')
          | (none, l') => (shim.Success Bytes.nil, l')
      | _ => (shim.Error ("This question already exists - " ++ questionHashID), l)
  | _ => (shim.Error "intQuestion(): Incorrect number of arguments. Expecting 5 ", l)

/-- The `getQuestionById` handler. -/
def getQuestionById (l : Ledger) (args : List String) : Response × Ledger :=
  match args with
  | [questionID] =>
    match GetState l questionID with
    | Bytes.nil => (shim.Error ("\x7b\"Error\":\"Nil data for " ++ questionID ++ "\"\x7d"), l)
    | questionbytes => (shim.Success questionbytes, l)
  | _ => (shim.Error "Incorrect number of arguments. Expecting name of the person to query", l)

/-- The `queryQuestionById` handler. -/
def queryQuestionById (l : Ledger) (args : List String) : Response × Ledger :=
  match args with
  | [questionHashID] =>
    match getQueryResultForQueryString l ⟨"QuestionHashID", questionHashID⟩ with
    | (_, some err) => (shim.Error err, l)
    | (queryResults, none) => (shim.Success queryResults, l)
  | _ => (shim.Error "Incorrect number of arguments. Expecting 1", l)

/-- Dispatcher `Invoke` of the Question chaincode. -/
def Invoke (env : Env) (l : Ledger) (function : String) (args : List String) :
    Response × Ledger :=
  if function = "submitQuestion" then submitQuestion env l args
  else if function = "queryQuestionById" then queryQuestionById l args
  else if function = "getQuestionById" then getQuestionById l args
  else (shim.Error ("Received unknown invoke function name - \x27" ++ function ++ "\x27"), l)

end Questions

/-! ## Student store (Students.go) -/

namespace Students

/-- The `CreateStudentTechRepuObject` function. -/
def CreateStudentTechRepuObject (env : Env) (techName : String) : TechRepu :=
  ⟨techName, 10, env.now⟩

/-- The `CreateStudentObject` function. -/
def CreateStudentObject (env : Env) (args : List String) (techRepu : TechRepu) :
    Except String Student :=
  match args with
  | [a0, rawEvalSecret] =>
    match HashPassword env rawEvalSecret with
    | .error _ => .error "error in hashing the password"
    | .ok hashedpassword => .ok ⟨a0, hashedpassword, [techRepu], [], env.now⟩
  | _ => .error "CreateStudentObject(): Incorrect number of arguments. Expecting 2 "

/-- The `addAStudent` handler. -/
def addAStudent (env : Env) (l : Ledger) (args : List String) : Response × Ledger :=
  match args with
  | [studentInitialTechName, studentID, rawSecret] =>
    match sanitize_arguments args with
    | some _ => (shim.Error "Cannot sanitize arguments", l)
    | none =>
      match GetState l studentID with
      | Bytes.nil =>
        match CreateStudentObject env [studentID, rawSecret]
            (CreateStudentTechRepuObject env studentInitialTechName) with
        | .error _ =>
          (shim.Error ("initStudent() : Failed Cannot create object buffer for write : "
            ++ studentInitialTechName), l)
        | .ok studentObject =>
          match PutState l studentID (StuToJSON studentObject) with
          | (some err, l') => (shim.Error err, l')
          | (none, l') => (shim.Success Bytes.nil, l')
      | _ => (shim.Error ("This student already exists - " ++ studentID), l)
  | _ => (shim.Error "intStudent(): Incorrect number of arguments. Expecting 3 ", l)

/-- The `bumpUpStudentRepu` handler: the first reputation entry named `techName` gains 10. -/
def bumpUpStudentRepu (l : Ledger) (args : List String) : Response × Ledger :=
  match args with
  | [studentID, techName] =>
    match sanitize_arguments args with
    | some err => (shim.Error err, l)
    | none =>
      match JSONtoStu (GetState l studentID) with
      | .error _ => (shim.Error ("unable to convert jsonToDoc for" ++ studentID), l)
      | .ok dat =>
        match bumpFirst techName 10 dat.StudentTechRepus with
        | none => (shim.Error ("tech repu not found for student " ++ studentID), l)
        | some repus =>
          match PutState l dat.StudentID (StuToJSON
              ⟨dat.StudentID, dat.StudentSecret, repus, dat.AnsweredQuestions, dat.CreatedON⟩) with
          | (some err, l') => (shim.Error err, l')
          | (none, l') => (shim.Success Bytes.nil, l')
  | _ => (shim.Error "Incorrect number of arguments. Expecting 2", l)

/-- The `queryStudentById` handler: only an empty argument list is refused. -/
def queryStudentById (l : Ledger) (args : List String) : Response × Ledger :=
  match args with
  | studentID :: _ =>
    match getQueryResultForQueryString l ⟨"StudentID", studentID⟩ with
    | (_, some err) => (shim.Error err, l)
    | (queryResults, none) => (shim.Success queryResults, l)
  | [] => (shim.Error "Incorrect number of arguments. Expecting 1", l)

/-- The `updateAnsweredQuestions` handler. -/
def updateAnsweredQuestions (l : Ledger) (args : List String) : Response × Ledger :=
  match args with
  | [studentID, answeredQuestionID] =>
    match sanitize_arguments args with
    | some err => (shim.Error err, l)
    | none =>
      match JSONtoStu (GetState l studentID) with
      | .error _ => (shim.Error ("unable to convert jsonToDoc for" ++ studentID), l)
      | .ok dat =>
        if contains dat.AnsweredQuestions answeredQuestionID then
          (shim.Error "already answered cant repeat ", l)
        else
          match PutState l studentID (StuToJSON
              ⟨dat.StudentID, dat.StudentSecret, dat.StudentTechRepus,
                dat.AnsweredQuestions ++ [answeredQuestionID], dat.CreatedON⟩) with
          | (some err, l') => (shim.Error err, l')
          | (none, l') => (shim.Success Bytes.nil, l')
  | _ => (shim.Error "Incorrect number of arguments. Expecting 2", l)

/-- Dispatcher `Invoke` of the Student chaincode (`getStudentById` is not dispatched). -/
def Invoke (env : Env) (l : Ledger) (function : String) (args : List String) :
    Response × Ledger :=
  if function = "addAStudent" then addAStudent env l args
  else if function = "bumpUpStudentRepu" then bumpUpStudentRepu l args
  else if function = "queryStudentById" then queryStudentById l args
  else if function = "updateAnsweredQuestions" then updateAnsweredQuestions l args
  else (shim.Error ("Received unknown invoke function name - \x27" ++ function ++ "\x27"), l)

end Students

/-! ## Evaluator store (Evauators.go) -/

namespace Evaluators

/-- The `CreateEvaluatorTechRepuObject` function. -/
def CreateEvaluatorTechRepuObject (env : Env) (techName : String) : TechRepu :=
  ⟨techName, 10, env.now⟩

/-- The `CreateEvaluatorObject` function. -/
def CreateEvaluatorObject (env : Env) (args : List String) (techRepu : TechRepu) :
    Except String Evaluator :=
  match args with
  | [a0, rawEvalSecret] =>
    match HashPassword env rawEvalSecret with
    | .error _ => .error "error in hashing the password"
    | .ok hashedpassword => .ok ⟨a0, hashedpassword, [], [techRepu], env.now⟩
  | _ =>
    .error ("CreateEvaluatorObject(): Incorrect number of arguments. Expecting 2 but got "
      ++ toString args.length)

/-- The `addAnEvaluator` handler. -/
def addAnEvaluator (env : Env) (l : Ledger) (args : List String) : Response × Ledger :=
  match args with
  | [evaluatorInitialTechName, evaluatorID, rawSecret] =>
    match sanitize_arguments args with
    | some _ => (shim.Error "Cannot sanitize arguments", l)
    | none =>
      match GetState l evaluatorID with
      | Bytes.nil =>
        match CreateEvaluatorObject env [evaluatorID, rawSecret]
            (CreateEvaluatorTechRepuObject env evaluatorInitialTechName) with
        | .error _ =>
          (shim.Error ("initEvaluator() : Failed Cannot create object buffer for write : "
            ++ evaluatorInitialTechName), l)
        | .ok evaluatorObject =>
          match PutState l evaluatorID (EvaltoJSON evaluatorObject) with
          | (some err, l') => (shim.Error err, l')
          | (none, l') => (shim.Success Bytes.nil, l')
      | _ => (shim.Error ("This evaluator already exists - " ++ evaluatorID), l)
  | _ => (shim.Error "intEvaluator(): Incorrect number of arguments. Expecting 3 ", l)

/-- The `getEvaluatorById` handler. -/
def getEvaluatorById (l : Ledger) (args : List String) : Response × Ledger :=
  match args with
  | [evaluatorID] =>
    match GetState l evaluatorID with
    | Bytes.nil => (shim.Error ("\x7b\"Error\":\"Nil data for " ++ evaluatorID ++ "\"\x7d"), l)
    | evaluatorbytes => (shim.Success evaluatorbytes, l)
  | _ => (shim.Error "Incorrect number of arguments. Expecting name of the person to query", l)

/-- The `queryEvaluatorById` handler: only an empty argument list is refused. -/
def queryEvaluatorById (l : Ledger) (args : List String) : Response × Ledger :=
  match args with
  | evaluatorID :: _ =>
    match getQueryResultForQueryString l ⟨"EvaluatorID", evaluatorID⟩ with
    | (_, some err) => (shim.Error err, l)
    | (queryResults, none) => (shim.Success queryResults, l)
  | [] => (shim.Error "Incorrect number of arguments. Expecting 1", l)

/-- The `bumpUpEvaluatorRepu` handler: the first reputation entry named `techName` gains the
parsed amount; the parse error of `Atoi` is discarded. The record is written
back under its own id field. -/
def bumpUpEvaluatorRepu (l : Ledger) (args : List String) : Response × Ledger :=
  match args with
  | [evaluatorID, techName, amount] =>
    match sanitize_arguments args with
    | some err => (shim.Error err, l)
    | none =>
      match JSONtoEval (GetState l evaluatorID) with
      | .error _ => (shim.Error ("unable to convert jsonToDoc for" ++ evaluatorID), l)
      | .ok dat =>
        match bumpFirst techName (Atoi amount).1 dat.EvaluatorTechRepus with
        | none => (shim.Error ("tech repu not found for evaluator " ++ evaluatorID), l)
        | some repus =>
          match PutState l dat.EvaluatorID (EvaltoJSON
              ⟨dat.EvaluatorID, dat.EvaluatorSecret, dat.EvaluatedAnswers, repus,
                dat.CreatedON⟩) with
          | (some err, l') => (shim.Error err, l')
          | (none, l') => (shim.Success Bytes.nil, l')
  | _ => (shim.Error "Incorrect number of arguments. Expecting 3", l)

/-- The `updateTheEvaluatedAnswers` handler: refuses an answer already in the list, otherwise
appends it. The record is written back under its own id field. -/
def updateTheEvaluatedAnswers (l : Ledger) (args : List String) : Response × Ledger :=
  match args with
  | [evaluatorID, answerHashID] =>
    match sanitize_arguments args with
    | some err => (shim.Error err, l)
    | none =>
      match JSONtoEval (GetState l evaluatorID) with
      | .error _ => (shim.Error ("unable to convert jsonToDoc for" ++ evaluatorID), l)
      | .ok dat =>
        if contains dat.EvaluatedAnswers answerHashID then
          (shim.Error "already evaluated cant evaluate the same answer again ", l)
        else
          match PutState l dat.EvaluatorID (EvaltoJSON
              ⟨dat.EvaluatorID, dat.EvaluatorSecret, dat.EvaluatedAnswers ++ [answerHashID],
                dat.EvaluatorTechRepus, dat.CreatedON⟩) with
          | (some err, l') => (shim.Error err, l')
          | (none, l') => (shim.Success Bytes.nil, l')
  | _ => (shim.Error "Incorrect number of arguments. Expecting 2", l)

/-- Dispatcher `Invoke` of the Evaluator chaincode (`registerEvaluator` is not dispatched). -/
def Invoke (env : Env) (l : Ledger) (function : String) (args : List String) :
    Response × Ledger :=
  if function = "addAnEvaluator" then addAnEvaluator env l args
  else if function = "bumpUpEvaluatorRepu" then bumpUpEvaluatorRepu l args
  else if function = "getEvaluatorById" then getEvaluatorById l args
  else if function = "queryEvaluatorById" then queryEvaluatorById l args
  else if function = "updateTheEvaluatedAnswers" then updateTheEvaluatedAnswers l args
  else (shim.Error ("Received unknown invoke function name - \x27" ++ function ++ "\x27"), l)

end Evaluators

/-! ## Deployed chaincodes and cross-chaincode invocation -/

/-- Which of the four chaincodes is deployed under a name. -/
inductive Kind where
  | questions
  | students
  | evaluators
  | answers
  deriving DecidableEq, Repr

/-- The channel: the chaincode deployed under each name, and the ledger of
each name. -/
structure World where
  kind : String → Option Kind
  ledger : String → Ledger

/-- World in which the ledger of `chaincodeName` is `l`. -/
def World.setLedger (w : World) (chaincodeName : String) (l : Ledger) : World :=
  { w with ledger := fun n => if n = chaincodeName then l else w.ledger n }

/-- Shim `InvokeChaincode` on the caller's channel, as the Answer store uses it:
`args` is the function name followed by its parameters, and the target runs
on its own ledger. A name with no chaincode gives an error response. When the
target is itself an Answer chaincode the response is the one of its
dispatcher for an unknown function: the Answer store dispatches none of the
four functions it invokes on other chaincodes (`getQuestionById`,
`getEvaluatorById`, `updateTheEvaluatedAnswers`, `updateAnsweredQuestions`). -/
def InvokeChaincode (env : Env) (w : World) (chaincodeName : String) (args : List String) :
    Response × World :=
  match args with
  | [] => (⟨shim.ERROR, "", Bytes.text "empty invocation"⟩, w)
  | function :: params =>
    match w.kind chaincodeName with
    | some Kind.questions =>
      ((Questions.Invoke env (w.ledger chaincodeName) function params).1,
        w.setLedger chaincodeName (Questions.Invoke env (w.ledger chaincodeName) function params).2)
    | some Kind.students =>
      ((Students.Invoke env (w.ledger chaincodeName) function params).1,
        w.setLedger chaincodeName (Students.Invoke env (w.ledger chaincodeName) function params).2)
    | some Kind.evaluators =>
      ((Evaluators.Invoke env (w.ledger chaincodeName) function params).1,
        w.setLedger chaincodeName (Evaluators.Invoke env (w.ledger chaincodeName) function params).2)
    | some Kind.answers =>
      (shim.Error ("Received unknown invoke function name - \x27" ++ function ++ "\x27"), w)
    | none =>
      (⟨shim.ERROR, "", Bytes.text ("chaincode " ++ chaincodeName ++ " not found")⟩, w)

/-! ## Answer store (Answers.go) -/

/-- How a handler of the Answer store ends: it returns a response, or the Go
run time panics. -/
inductive Outcome where
  | returned (r : Response)
  | panicked (msg : String)
  deriving DecidableEq, Repr

/-- A handler succeeded: it returned a response of status `OK`. -/
def Outcome.succeeded : Outcome → Bool
  | .returned r => decide (r.Status = shim.OK)
  | .panicked _ => false

/-- A handler returned an error response. -/
def Outcome.returnedError : Outcome → Bool
  | .returned r => decide (r.Status ≠ shim.OK)
  | .panicked _ => false

namespace Answers

/-- Message of the Go run-time panic raised by calling `Error()` on a nil
`error`. -/
def nilDereference : String :=
  "runtime error: invalid memory address or nil pointer dereference"

/-- The `CreateAnswerObject` function. -/
def CreateAnswerObject (env : Env) (args : List String) : Except String Answer :=
  match args with
  | [a0, a1, a2, a3] => .ok ⟨a0, a1, a2, a3, [], 0, env.now⟩
  | _ => .error "CreateAnswerObject(): Incorrect number of arguments. Expecting 4"

/-- The `getAnswerLedgerState` function. -/
def getAnswerLedgerState (l : Ledger) (args : List String) : Except String Answer :=
  match args with
  | [answerHashID] =>
    match sanitize_arguments args with
    | some _ => .error "problem in sanitization"
    | none =>
      match GetState l answerHashID with
      | Bytes.nil => .error ("\x7b\"Error\":\"Nil value for " ++ answerHashID ++ "\"\x7d")
      | answerDataBytes =>
        match JSONtoAns answerDataBytes with
        | .error _ => .error ("unable to convert JSONtoAns for" ++ answerHashID)
        | .ok dat => .ok dat
  | _ => .error "Incorrect number of arguments. Expecting 1"

/-- Reputation scan of `thumbsUpToAnswer`: `flag` and `attainedTechRepu` after the loop, which
stops at the first entry named `answerTech`. -/
def scanTechRepu (answerTech : String) : List TechRepu → Bool × Int
  | [] => (false, 0)
  | techRepuData :: rest =>
    if answerTech = techRepuData.UniqueTechName then (true, techRepuData.AttainedRepu)
    else scanTechRepu answerTech rest

/-- The `submitAnswer` handler, run by the Answer chaincode deployed as `self`. When the question
lookup returns a non-OK status the handler formats `err.Error()` with `err`
still nil (it was declared and never assigned), which panics. -/
def submitAnswer (env : Env) (w : World) (self : String) (args : List String) :
    Outcome × World :=
  match args with
  | [questionsChaincode, studentsChaincode, answerHashID, answerCID, answeredBy, questionID] =>
    match sanitize_arguments args with
    | some _ => (Outcome.returned (shim.Error "Cannot sanitize arguments"), w)
    | none =>
      let call1 := InvokeChaincode env w questionsChaincode ["getQuestionById", questionID]
      if call1.1.Status ≠ shim.OK then (Outcome.panicked nilDereference, call1.2)
      else
        match JSONtoQues call1.1.Payload with
        | .error _ =>
          (Outcome.returned (shim.Error ("Error in unmarshelling - " ++ questionID)), call1.2)
        | .ok _ =>
          match GetState (call1.2.ledger self) answerHashID with
          | Bytes.nil =>
            match CreateAnswerObject env [answerHashID, answerCID, answeredBy, questionID] with
            | .error _ =>
              (Outcome.returned (shim.Error
                ("submitAnswer() : Failed Cannot create object buffer for write : "
                  ++ questionsChaincode)), call1.2)
            | .ok answerObject =>
              let call2 := InvokeChaincode env call1.2 studentsChaincode
                ["updateAnsweredQuestions", answeredBy, questionID]
              if call2.1.Status ≠ shim.OK then
                (Outcome.returned (shim.Error
                  ("Failed to invoke chaincode. Got error: " ++ call2.1.Payload.toText)), call2.2)
              else
                match PutState (call2.2.ledger self) answerHashID (AnsToJSON answerObject) with
                | (some err, l') => (Outcome.returned (shim.Error err), call2.2.setLedger self l')
                | (none, l') => (Outcome.returned (shim.Success Bytes.nil), call2.2.setLedger self l')
          | _ =>
            (Outcome.returned (shim.Error ("This answer already exists - " ++ answerHashID)),
              call1.2)
  | _ =>
    (Outcome.returned (shim.Error "intAnswer(): Incorrect number of arguments. Expecting 6 "), w)

/-- The `thumbsUpToAnswer` handler, run by the Answer chaincode deployed as `self`. In both
places where a cross-chaincode lookup returns a non-OK status the handler
formats `err.Error()` with `err` nil (the error of the preceding step, which
was checked to be nil), which panics. -/
def thumbsUpToAnswer (env : Env) (w : World) (self : String) (args : List String) :
    Outcome × World :=
  match args with
  | [questionsChaincode, evaluatorsChaincode, answerHashID, evaluatorID, rawEvaluatorSecret] =>
    match sanitize_arguments args with
    | some err => (Outcome.returned (shim.Error err), w)
    | none =>
      match getAnswerLedgerState (w.ledger self) [answerHashID] with
      | .error _ =>
        (Outcome.returned (shim.Error ("error in finding answer for - " ++ answerHashID)), w)
      | .ok dat =>
        let call1 := InvokeChaincode env w questionsChaincode ["getQuestionById", dat.QuestionID]
        if call1.1.Status ≠ shim.OK then (Outcome.panicked nilDereference, call1.2)
        else
          match JSONtoQues call1.1.Payload with
          | .error _ =>
            (Outcome.returned (shim.Error ("Error in unmarshelling - " ++ evaluatorID)), call1.2)
          | .ok questionData =>
            let call2 := InvokeChaincode env call1.2 evaluatorsChaincode
              ["getEvaluatorById", evaluatorID]
            if call2.1.Status ≠ shim.OK then (Outcome.panicked nilDereference, call2.2)
            else
              match JSONtoEval call2.1.Payload with
              | .error _ =>
                (Outcome.returned (shim.Error ("Error in unmarshelling - " ++ evaluatorID)),
                  call2.2)
              | .ok evaluatorsData =>
                if ¬ CheckPasswordHash env rawEvaluatorSecret evaluatorsData.EvaluatorSecret then
                  (Outcome.returned (shim.Error "not authorized to perform this action. "),
                    call2.2)
                else
                  let scan := scanTechRepu questionData.QuestionTech
                    evaluatorsData.EvaluatorTechRepus
                  if scan.1 ∧ scan.2 > 1000 then
                    let call3 := InvokeChaincode env call2.2 evaluatorsChaincode
                      ["updateTheEvaluatedAnswers", evaluatorID, answerHashID]
                    if call3.1.Status ≠ shim.OK then
                      (Outcome.returned (shim.Error
                        ("Failed to invoke chaincode. Got error: " ++ call3.1.Payload.toText)),
                        call3.2)
                    else
                      match PutState (call3.2.ledger self) answerHashID (AnsToJSON
                          ⟨dat.AnswerHashID, dat.AnswerCID, dat.AnsweredBy, dat.QuestionID,
                            dat.EvaluatedBy ++ [evaluatorID],
                            wrapInt (dat.AttainedEvaluatorThumbsUp + 1), dat.AnsweredOn⟩) with
                      | (some err, l') =>
                        (Outcome.returned (shim.Error err), call3.2.setLedger self l')
                      | (none, l') =>
                        (Outcome.returned (shim.Success Bytes.nil), call3.2.setLedger self l')
                  else
                    (Outcome.returned (shim.Error
                      "either you dont have required tech repu or the tech repu is less than 1000. "),
                      call2.2)
  | _ => (Outcome.returned (shim.Error "Incorrect number of arguments. Expecting 5"), w)

/-- The `queryAnswersByThumsUpCount` handler: only an empty argument list is refused; the selector
compares the count field with a JSON string. -/
def queryAnswersByThumsUpCount (w : World) (self : String) (args : List String) :
    Outcome × World :=
  match args with
  | thumbsUpCount :: _ =>
    match getQueryResultForQueryString (w.ledger self)
        ⟨"AttainedEvaluatorThumbsUp", thumbsUpCount⟩ with
    | (_, some err) => (Outcome.returned (shim.Error err), w)
    | (queryResults, none) => (Outcome.returned (shim.Success queryResults), w)
  | [] => (Outcome.returned (shim.Error "Incorrect number of arguments. Expecting 1"), w)

/-- The `queryAnswerByAnswerHashId` handler. -/
def queryAnswerByAnswerHashId (w : World) (self : String) (args : List String) :
    Outcome × World :=
  match args with
  | [answerHashID] =>
    match getQueryResultForQueryString (w.ledger self) ⟨"AnswerHashID", answerHashID⟩ with
    | (_, some err) => (Outcome.returned (shim.Error err), w)
    | (queryResults, none) => (Outcome.returned (shim.Success queryResults), w)
  | _ => (Outcome.returned (shim.Error "Incorrect number of arguments. Expecting 1"), w)

/-- Dispatcher `Invoke` of the Answer chaincode. -/
def Invoke (env : Env) (w : World) (self : String) (function : String) (args : List String) :
    Outcome × World :=
  if function = "submitAnswer" then submitAnswer env w self args
  else if function = "thumbsUpToAnswer" then thumbsUpToAnswer env w self args
  else if function = "queryAnswersByThumsUpCount" then queryAnswersByThumsUpCount w self args
  else if function = "queryAnswerByAnswerHashId" then queryAnswerByAnswerHashId w self args
  else
    (Outcome.returned
      (shim.Error ("Received unknown invoke function name - \x27" ++ function ++ "\x27")), w)

end Answers

/-! ## Specification vocabulary -/

/-- Evaluator record after `updateTheEvaluatedAnswers` appended `a`. -/
def withEvaluated (ev : Evaluator) (a : String) : Evaluator :=
  ⟨ev.EvaluatorID, ev.EvaluatorSecret, ev.EvaluatedAnswers ++ [a], ev.EvaluatorTechRepus,
    ev.CreatedON⟩

/-- Answer record after `thumbsUpToAnswer` recorded the endorsement of `e`. -/
def withThumbsUp (dat : Answer) (e : String) : Answer :=
  ⟨dat.AnswerHashID, dat.AnswerCID, dat.AnsweredBy, dat.QuestionID, dat.EvaluatedBy ++ [e],
    wrapInt (dat.AttainedEvaluatorThumbsUp + 1), dat.AnsweredOn⟩

/-- Student record after `updateAnsweredQuestions` appended `q`. -/
def withAnswered (st : Student) (q : String) : Student :=
  ⟨st.StudentID, st.StudentSecret, st.StudentTechRepus, st.AnsweredQuestions ++ [q],
    st.CreatedON⟩

/-- Names under which the four chaincodes are deployed on the channel. -/
structure Deployment where
  questions : String
  students : String
  evaluators : String
  answers : String
  deriving DecidableEq, Repr

/-- Chaincode deployed under a name. -/
def Deployment.kind (dep : Deployment) (n : String) : Option Kind :=
  if n = dep.questions then some Kind.questions
  else if n = dep.students then some Kind.students
  else if n = dep.evaluators then some Kind.evaluators
  else if n = dep.answers then some Kind.answers
  else none

/-- The four chaincodes are deployed under four different names. -/
def Deployment.distinct (dep : Deployment) : Prop :=
  dep.questions ≠ dep.students ∧ dep.questions ≠ dep.evaluators ∧
  dep.questions ≠ dep.answers ∧ dep.students ≠ dep.evaluators ∧
  dep.students ≠ dep.answers ∧ dep.evaluators ≠ dep.answers

/-- The channel before any command: every ledger is empty. -/
def initialWorld (dep : Deployment) : World := ⟨dep.kind, fun _ => []⟩

/-- A command of the Answer store names the deployed stores: the first two
arguments of `submitAnswer` are the Question and Student chaincodes, those of
`thumbsUpToAnswer` the Question and Evaluator chaincodes. -/
def namesStores (dep : Deployment) (function : String) (args : List String) : Prop :=
  (function = "submitAnswer" →
    ∀ x y rest, args = x :: y :: rest → x = dep.questions ∧ y = dep.students) ∧
  (function = "thumbsUpToAnswer" →
    ∀ x y rest, args = x :: y :: rest → x = dep.questions ∧ y = dep.evaluators)

/-- One dispatched command of one of the four stores, with any function name,
any arguments and any environment. -/
inductive Step (dep : Deployment) : World → World → Prop
  | questions (env : Env) (w : World) (function : String) (args : List String) :
    Step dep w (w.setLedger dep.questions
      (Questions.Invoke env (w.ledger dep.questions) function args).2)
  | students (env : Env) (w : World) (function : String) (args : List String) :
    Step dep w (w.setLedger dep.students
      (Students.Invoke env (w.ledger dep.students) function args).2)
  | evaluators (env : Env) (w : World) (function : String) (args : List String) :
    Step dep w (w.setLedger dep.evaluators
      (Evaluators.Invoke env (w.ledger dep.evaluators) function args).2)
  | answers (env : Env) (w : World) (function : String) (args : List String) :
    namesStores dep function args →
    Step dep w (Answers.Invoke env w dep.answers function args).2

/-- Worlds reached from `w` by zero or more dispatched commands. -/
inductive Later (dep : Deployment) (w : World) : World → Prop
  | refl : Later dep w w
  | step {w1 w2 : World} : Later dep w w1 → Step dep w1 w2 → Later dep w w2

/-- Worlds reached from empty stores by dispatched commands. -/
def Reachable (dep : Deployment) (w : World) : Prop := Later dep (initialWorld dep) w

/-- Every record of an Evaluator ledger is an encoded evaluator stored under its
own id. -/
def EvaluatorsWF (l : Ledger) : Prop :=
  ∀ k d, stateOf l k = some d → ∃ ev, d = EvaltoJSON ev ∧ ev.EvaluatorID = k

/-- From `l` to `l'` every stored evaluator record stays stored, its evaluated
list extended at the end. -/
def EvaluatorsGrow (l l' : Ledger) : Prop :=
  ∀ k ev, stateOf l k = some (EvaltoJSON ev) →
    ∃ ev', stateOf l' k = some (EvaltoJSON ev') ∧
      ∃ more, ev'.EvaluatedAnswers = ev.EvaluatedAnswers ++ more

/-- Ledger `l'` is `l`, or `l` with one evaluator record written under its own
id, its evaluated list extending the one stored there before. -/
def EvaluatorWrite (l l' : Ledger) : Prop :=
  l' = l ∨ ∃ key ev', l' = writeKey l key (EvaltoJSON ev') ∧ ev'.EvaluatorID = key ∧
    ∀ ev, stateOf l key = some (EvaltoJSON ev) →
      ∃ more, ev'.EvaluatedAnswers = ev.EvaluatedAnswers ++ more

/-- Every record of the Answer ledger `la` is an encoded answer whose count is
the length of its endorser list (as a Go `int`), which lists no endorser twice
and only evaluators whose record in `le` has the answer in its evaluated
list. -/
def AnswersWF (la le : Ledger) : Prop :=
  ∀ k d, stateOf la k = some d →
    ∃ a, d = AnsToJSON a ∧
      a.AttainedEvaluatorThumbsUp = wrapInt (a.EvaluatedBy.length : Int) ∧
      a.EvaluatedBy.Nodup ∧
      ∀ e ∈ a.EvaluatedBy, ∃ ev, stateOf le e = some (EvaltoJSON ev) ∧
        k ∈ ev.EvaluatedAnswers

/-- Invariant of the reachable worlds: the deployment is fixed, and the
Evaluator and Answer ledgers are well formed. -/
structure Inv (dep : Deployment) (w : World) : Prop where
  kind_eq : w.kind = dep.kind
  evaluators_wf : EvaluatorsWF (w.ledger dep.evaluators)
  answers_wf : AnswersWF (w.ledger dep.answers) (w.ledger dep.evaluators)

/-- Evaluator `e` has answer `a` in its evaluated list. -/
def Evaluated (dep : Deployment) (w : World) (e a : String) : Prop :=
  ∃ ev, stateOf (w.ledger dep.evaluators) e = some (EvaltoJSON ev) ∧ a ∈ ev.EvaluatedAnswers

/-- Environment of the worked examples: a fixed clock reading and a toy password
hash under which every password verifies against its own hash, and against
no other. -/
def demoEnv : Env :=
  ⟨"20240101000000", fun p => .ok ("$2a$14$" ++ p), fun h p => decide (h = "$2a$14$" ++ p)⟩

/-- Deployment of the worked examples. -/
def demoDeployment : Deployment := ⟨"questions", "students", "evaluators", "answers"⟩

/-- Question record of the worked examples. -/
def demoQuestion : Question := ⟨"Q1", "cidQ", "S1", "rust", 1, "20240101000000"⟩

/-- Answer record of the worked examples, not yet endorsed. -/
def demoAnswer : Answer := ⟨"A1", "cidA", "S1", "Q1", [], 0, "20240101000000"⟩

/-- Answer record of the worked examples after the endorsement by `E1`. -/
def demoEndorsedAnswer : Answer := ⟨"A1", "cidA", "S1", "Q1", ["E1"], 1, "20240101000000"⟩

/-- Evaluator record of the worked examples, with `points` in "rust". -/
def demoEvaluator (points : Int) : Evaluator :=
  ⟨"E1", "$2a$14$secret", [], [⟨"rust", points, "20240101000000"⟩], "20240101000000"⟩

/-- World of the worked examples: question `Q1`, answer `A1` to it, and
evaluator `E1` holding `points` in "rust". -/
def demoWorld (points : Int) : World :=
  { kind := demoDeployment.kind
    ledger := fun n =>
      if n = "questions" then [("Q1", QuestoJSON demoQuestion)]
      else if n = "answers" then [("A1", AnsToJSON demoAnswer)]
      else if n = "evaluators" then [("E1", EvaltoJSON (demoEvaluator points))]
      else [] }

/-- World of the worked examples in which answer `A1` is stored but its
question `Q1` is not. -/
def orphanWorld : World :=
  { kind := demoDeployment.kind
    ledger := fun n =>
      if n = "answers" then [("A1", AnsToJSON demoAnswer)]
      else if n = "evaluators" then [("E1", EvaltoJSON (demoEvaluator 1001))]
      else [] }

/-- Scenario, step 0: student `S1` registers on empty stores. -/
def scenarioStudent (env : Env) (pw : String) : World :=
  (initialWorld demoDeployment).setLedger "students"
    (Students.Invoke env ((initialWorld demoDeployment).ledger "students") "addAStudent"
      ["rust", "S1", pw]).2

/-- Scenario, step 1: question `Q1` in "rust", one endorsement required. -/
def scenarioQuestion (env : Env) (pw : String) : World :=
  (scenarioStudent env pw).setLedger "questions"
    (Questions.Invoke env ((scenarioStudent env pw).ledger "questions") "submitQuestion"
      ["Q1", "cidQ", "S1", "rust", "1"]).2

/-- Scenario, step 2: `S1` submits answer `A1` to `Q1`. -/
def scenarioAnswer (env : Env) (pw : String) : Outcome × World :=
  Answers.Invoke env (scenarioQuestion env pw) "answers" "submitAnswer"
    ["questions", "students", "A1", "cidA", "S1", "Q1"]

/-- Scenario, step 3: evaluator `E1` registers in "rust". -/
def scenarioEvaluator (env : Env) (pw secret : String) : World :=
  (scenarioAnswer env pw).2.setLedger "evaluators"
    (Evaluators.Invoke env ((scenarioAnswer env pw).2.ledger "evaluators") "addAnEvaluator"
      ["rust", "E1", secret]).2

/-- Scenario, step 4: `E1` tries to endorse `A1`. -/
def scenarioFirstThumbsUp (env : Env) (pw secret : String) : Outcome × World :=
  Answers.Invoke env (scenarioEvaluator env pw secret) "answers" "thumbsUpToAnswer"
    ["questions", "evaluators", "A1", "E1", secret]

/-- Scenario, step 5: the "rust" reputation of `E1` is bumped by 1000. -/
def scenarioBump (env : Env) (pw secret : String) : World :=
  (scenarioFirstThumbsUp env pw secret).2.setLedger "evaluators"
    (Evaluators.Invoke env ((scenarioFirstThumbsUp env pw secret).2.ledger "evaluators")
      "bumpUpEvaluatorRepu" ["E1", "rust", "1000"]).2

/-- Scenario, step 6: `E1` endorses `A1` again. -/
def scenarioSecondThumbsUp (env : Env) (pw secret : String) : Outcome × World :=
  Answers.Invoke env (scenarioBump env pw secret) "answers" "thumbsUpToAnswer"
    ["questions", "evaluators", "A1", "E1", secret]

/-- Environment of the worked examples whose hash primitive fails. -/
def failingEnv : Env :=
  ⟨"20240101000000", fun _ => .error "bcrypt: hashing failed", fun _ _ => false⟩

/-- Every record of a Student ledger is an encoded student stored under its own
id. -/
def StudentsWF (l : Ledger) : Prop :=
  ∀ k d, stateOf l k = some d → ∃ st, d = StuToJSON st ∧ st.StudentID = k

/-- Entry by entry, the reputation list `new` has the tech names of `old` and
at least its points. -/
def PointsNotLower (old new : List TechRepu) : Prop :=
  List.Forall₂ (fun t t' => t'.UniqueTechName = t.UniqueTechName ∧
    t.AttainedRepu ≤ t'.AttainedRepu) old new

/-- Every record of a Student ledger is an encoded student stored under its own
id, whose answered list has no duplicate and whose reputation entries have
different tech names. -/
def StudentsNodup (l : Ledger) : Prop :=
  ∀ k d, stateOf l k = some d → ∃ st, d = StuToJSON st ∧ st.StudentID = k ∧
    st.AnsweredQuestions.Nodup ∧ (st.StudentTechRepus.map TechRepu.UniqueTechName).Nodup

/-- Every record of an Evaluator ledger is an encoded evaluator stored under its
own id, whose evaluated list has no duplicate and whose reputation entries
have different tech names. -/
def EvaluatorsNodup (l : Ledger) : Prop :=
  ∀ k d, stateOf l k = some d → ∃ ev, d = EvaltoJSON ev ∧ ev.EvaluatorID = k ∧
    ev.EvaluatedAnswers.Nodup ∧ (ev.EvaluatorTechRepus.map TechRepu.UniqueTechName).Nodup

/-- From `l` to `l'` every stored student record stays stored, its previous
answered list a prefix of the new one. -/
def StudentsAppend (l l' : Ledger) : Prop :=
  ∀ k st, stateOf l k = some (StuToJSON st) →
    ∃ st', stateOf l' k = some (StuToJSON st') ∧
      st.AnsweredQuestions <+: st'.AnsweredQuestions

/-- From `l` to `l'` every stored evaluator record stays stored, its previous
evaluated list a prefix of the new one. -/
def EvaluatorsAppend (l l' : Ledger) : Prop :=
  ∀ k ev, stateOf l k = some (EvaltoJSON ev) →
    ∃ ev', stateOf l' k = some (EvaltoJSON ev') ∧
      ev.EvaluatedAnswers <+: ev'.EvaluatedAnswers

/-- Text of one array member written by `getQueryResultForQueryString`:
`\x7b"Key":"k", "Record":v\x7d`. -/
def queryItem (kv : String × Doc) : String :=
  "\x7b\"Key\":" ++ "\"" ++ kv.1 ++ "\"" ++ ", \"Record\":" ++ renderDoc kv.2 ++ "\x7d"

/-- The `QuestoJSON` function as compiled in Questions.go: `json.Marshal` under the tags of the
`Question` struct declared there (lines 23-30). -/
def Questions.QuestoJSON (ques : Question) : Doc :=
  [("QuestionHashID", JVal.str ques.QuestionHashID),
   ("QuestionCID", JVal.str ques.QuestionCID),
   ("QuestionerID", JVal.str ques.QuestionerID),
   ("QuestionTech", JVal.str ques.QuestionTech),
   ("RequiredEvaluatorThumbsUp", JVal.num ques.RequiredEvaluatorThumbsUp),
   ("QuestionedOn", JVal.str ques.QuestionedOn)]

/-- The `JSONtoQues` function as compiled in Answers.go: `json.Unmarshal` under the tags of the
`Question` struct declared there (lines 31-38). -/
def Answers.JSONtoQues : Bytes → Except String Question
  | .json d =>
    match strField d "QuestionHashID", strField d "QuestionCID", strField d "QuestionerID",
      strField d "QuestionTech", numField d "RequiredEvaluatorThumbsUp",
      strField d "QuestionedOn" with
    | .ok a, .ok b, .ok c, .ok t, .ok n, .ok o => .ok ⟨a, b, c, t, n, o⟩
    | _, _, _, _, _, _ => .error "json: cannot unmarshal into Go value of type main.Question"
  | .nil => .error "unexpected end of JSON input"
  | .text _ => .error "json: cannot unmarshal into Go value of type main.Question"

/-- The `EvaltoJSON` function as compiled in Evauators.go: `json.Marshal` under the tags of the
`Evaluator` struct (lines 34-40) and of the `TechRepu` struct (lines 24-28)
declared there. -/
def Evaluators.EvaltoJSON (eval : Evaluator) : Doc :=
  [("EvaluatorID", JVal.str eval.EvaluatorID),
   ("EvaluatorSecret", JVal.str eval.EvaluatorSecret),
   ("EvaluatedAnswers", JVal.arr (eval.EvaluatedAnswers.map JElem.str)),
   ("EvaluatorTechRepos",
      JVal.arr (eval.EvaluatorTechRepus.map fun t => JElem.obj (encodeTechRepu t))),
   ("createdOn", JVal.str eval.CreatedON)]

/-- The `JSONtoEval` function as compiled in Answers.go: `json.Unmarshal` under the tags of the
`Evaluator` struct (lines 56-62) and of the `TechRepu` struct (lines 50-54)
declared there. -/
def Answers.JSONtoEval : Bytes → Except String Evaluator
  | .json d =>
    match strField d "EvaluatorID", strField d "EvaluatorSecret", strsField d "EvaluatedAnswers",
      repusField d "EvaluatorTechRepos", strField d "createdOn" with
    | .ok a, .ok b, .ok c, .ok r, .ok o => .ok ⟨a, b, c, r, o⟩
    | _, _, _, _, _ => .error "json: cannot unmarshal into Go value of type main.Evaluator"
  | .nil => .error "unexpected end of JSON input"
  | .text _ => .error "json: cannot unmarshal into Go value of type main.Evaluator"

/-- World of the worked examples with a second Evaluator chaincode, deployed as
"evaluators2": both hold a record of `E1` with 1001 points in "rust". -/
def twoStoresWorld : World :=
  { kind := fun n =>
      if n = "questions" then some Kind.questions
      else if n = "evaluators" then some Kind.evaluators
      else if n = "evaluators2" then some Kind.evaluators
      else if n = "answers" then some Kind.answers
      else none
    ledger := fun n =>
      if n = "questions" then [("Q1", QuestoJSON demoQuestion)]
      else if n = "answers" then [("A1", AnsToJSON demoAnswer)]
      else if n = "evaluators" then [("E1", EvaltoJSON (demoEvaluator 1001))]
      else if n = "evaluators2" then [("E1", EvaltoJSON (demoEvaluator 1001))]
      else [] }

/-- World of the worked examples with two evaluators, `E1` and `E2`, holding 1001
points in "rust" each; question `Q1` requires one endorsement. -/
def crowdWorld : World :=
  { kind := demoDeployment.kind
    ledger := fun n =>
      if n = "questions" then [("Q1", QuestoJSON demoQuestion)]
      else if n = "answers" then [("A1", AnsToJSON demoAnswer)]
      else if n = "evaluators" then
        [("E1", EvaltoJSON (demoEvaluator 1001)),
         ("E2", EvaltoJSON ⟨"E2", "$2a$14$secret2", [], [⟨"rust", 1001, "20240101000000"⟩],
           "20240101000000"⟩)]
      else [] }

/-- Every record of an Answer ledger is an encoded answer stored under its own
id. -/
def AnswersKeyed (l : Ledger) : Prop :=
  ∀ k d, stateOf l k = some d → ∃ a, d = AnsToJSON a ∧ a.AnswerHashID = k

/-- Every record of a Student ledger is an encoded student with exactly one
reputation entry. -/
def StudentsSingle (l : Ledger) : Prop :=
  ∀ k d, stateOf l k = some d → ∃ st t, d = StuToJSON st ∧ st.StudentTechRepus = [t]

/-- Every record of an Evaluator ledger is an encoded evaluator with exactly one
reputation entry. -/
def EvaluatorsSingle (l : Ledger) : Prop :=
  ∀ k d, stateOf l k = some d → ∃ ev t, d = EvaltoJSON ev ∧ ev.EvaluatorTechRepus = [t]

/-- From `l` to `l'` every stored student record stays stored, its reputation
entries named as before. -/
def StudentsKeepTech (l l' : Ledger) : Prop :=
  ∀ k st, stateOf l k = some (StuToJSON st) →
    ∃ st', stateOf l' k = some (StuToJSON st') ∧
      st'.StudentTechRepus.map TechRepu.UniqueTechName =
        st.StudentTechRepus.map TechRepu.UniqueTechName

/-- From `l` to `l'` every stored evaluator record stays stored, its reputation
entries named as before. -/
def EvaluatorsKeepTech (l l' : Ledger) : Prop :=
  ∀ k ev, stateOf l k = some (EvaltoJSON ev) →
    ∃ ev', stateOf l' k = some (EvaltoJSON ev') ∧
      ev'.EvaluatorTechRepus.map TechRepu.UniqueTechName =
        ev.EvaluatorTechRepus.map TechRepu.UniqueTechName

/-- A string is a decimal integer: an optional sign followed by one or more
decimal digits. -/
def isDecimalInteger (s : String) : Bool :=
  match s.data with
  | [] => false
  | c :: rest =>
    let body : List Char := if c = '-' ∨ c = '+' then rest else c :: rest
    !body.isEmpty && body.all fun d => decide ('0' ≤ d ∧ d ≤ '9')

theorem stateOf_writeKey (l : Ledger) (key : String) (value : Doc) (k : String) :
    stateOf (writeKey l key value) k = if k = key then some value else stateOf l k := by
  induction l with
  | nil =>
    by_cases h : k = key
    · simp [writeKey, stateOf, h]
    · have h' : ¬ key = k := fun e => h e.symm
      simp [writeKey, stateOf, h, h']
  | cons p rest ih =>
    obtain ⟨k0, v0⟩ := p
    by_cases h0 : k0 = key
    · by_cases h : k = key
      · simp [writeKey, stateOf, h0, h]
      · have h' : ¬ key = k := fun e => h e.symm
        simp [writeKey, stateOf, h0, h, h']
    · by_cases h : k = key
      · subst h
        simp [writeKey, stateOf, h0, ih]
      · simp [writeKey, stateOf, h0, h, ih]

theorem stateOf_writeKey_self (l : Ledger) (key : String) (value : Doc) :
    stateOf (writeKey l key value) key = some value := by
  simp [stateOf_writeKey]

theorem stateOf_writeKey_ne (l : Ledger) (key : String) (value : Doc) (k : String)
    (h : k ≠ key) : stateOf (writeKey l key value) k = stateOf l k := by
  simp [stateOf_writeKey, h]

theorem decodeStrings_map (xs : List String) :
    decodeStrings (xs.map JElem.str) = .ok xs := by
  induction xs with
  | nil => rfl
  | cons x rest ih => simp [decodeStrings, ih]

theorem decodeTechRepu_encode (t : TechRepu) :
    decodeTechRepu (JElem.obj (encodeTechRepu t)) = .ok t := by
  simp [decodeTechRepu, encodeTechRepu, atomStr, atomNum, fieldOf]

theorem decodeTechRepus_map (ts : List TechRepu) :
    decodeTechRepus (ts.map fun t => JElem.obj (encodeTechRepu t)) = .ok ts := by
  induction ts with
  | nil => rfl
  | cons t rest ih => simp [decodeTechRepus, ih, decodeTechRepu_encode]

theorem JSONtoAns_AnsToJSON (a : Answer) : JSONtoAns (Bytes.json (AnsToJSON a)) = .ok a := by
  simp [JSONtoAns, AnsToJSON, strField, numField, strsField, fieldOf, decodeStrings_map]

theorem JSONtoEval_EvaltoJSON (e : Evaluator) :
    JSONtoEval (Bytes.json (EvaltoJSON e)) = .ok e := by
  simp [JSONtoEval, EvaltoJSON, strField, strsField, repusField, fieldOf, decodeStrings_map,
    decodeTechRepus_map]

theorem JSONtoStu_StuToJSON (s : Student) : JSONtoStu (Bytes.json (StuToJSON s)) = .ok s := by
  simp [JSONtoStu, StuToJSON, strField, strsField, repusField, fieldOf, decodeStrings_map,
    decodeTechRepus_map]

theorem JSONtoQues_QuestoJSON (q : Question) :
    JSONtoQues (Bytes.json (QuestoJSON q)) = .ok q := by
  simp [JSONtoQues, QuestoJSON, strField, numField, fieldOf]

theorem length_le_zero_iff (s : String) : s.length ≤ 0 ↔ s = "" := by
  constructor
  · intro h
    have h0 : s.data.length = 0 := Nat.le_zero.mp h
    exact String.ext (List.length_eq_zero.mp h0)
  · rintro rfl
    decide

theorem sanitizeFrom_eq_none (i : Nat) (strs : List String) :
    sanitizeFrom i strs = none ↔ ∀ s ∈ strs, s ≠ "" := by
  induction strs generalizing i with
  | nil => simp [sanitizeFrom]
  | cons s rest ih =>
    by_cases h : s = ""
    · subst h
      simp [sanitizeFrom]
    · have h' : ¬ s.length ≤ 0 := fun hl => h ((length_le_zero_iff s).mp hl)
      simp [sanitizeFrom, h', h, ih]

theorem sanitize_eq_none (strs : List String) :
    sanitize_arguments strs = none ↔ ∀ s ∈ strs, s ≠ "" :=
  sanitizeFrom_eq_none 0 strs

theorem contains_eq_true (xs : List String) (x : String) : contains xs x = true ↔ x ∈ xs := by
  induction xs with
  | nil => simp [contains]
  | cons y rest ih =>
    by_cases h : y = x
    · simp [contains, h]
    · have h' : ¬ x = y := fun e => h e.symm
      simp [contains, h, h', ih]

theorem contains_eq_false (xs : List String) (x : String) : contains xs x = false ↔ x ∉ xs := by
  rw [← contains_eq_true]
  cases contains xs x <;> simp

theorem World.setLedger_self (w : World) (n : String) : w.setLedger n (w.ledger n) = w := by
  cases w with
  | mk kind ledger =>
    simp only [World.setLedger]
    congr 1
    funext m
    by_cases h : m = n
    · simp [h]
    · simp [h]

theorem World.setLedger_ledger (w : World) (n : String) (l : Ledger) (m : String) :
    (w.setLedger n l).ledger m = if m = n then l else w.ledger m := rfl

theorem World.setLedger_kind (w : World) (n : String) (l : Ledger) :
    (w.setLedger n l).kind = w.kind := rfl


/-! ## Effects of the cross-chaincode calls made by the Answer store -/

theorem GetState_eq_nil (l : Ledger) (k : String) : GetState l k = Bytes.nil ↔ stateOf l k = none := by
  unfold GetState
  cases stateOf l k <;> simp

theorem GetState_eq_json (l : Ledger) (k : String) (d : Doc) :
    GetState l k = Bytes.json d ↔ stateOf l k = some d := by
  unfold GetState
  cases stateOf l k <;> simp

theorem GetState_ne_text (l : Ledger) (k : String) (s : String) : GetState l k ≠ Bytes.text s := by
  unfold GetState
  cases stateOf l k <;> simp

theorem JSONtoAns_ok_json {b : Bytes} {a : Answer} (h : JSONtoAns b = .ok a) :
    ∃ d, b = Bytes.json d := by
  cases b with
  | nil => simp [JSONtoAns] at h
  | json d => exact ⟨d, rfl⟩
  | text s => simp [JSONtoAns] at h

theorem JSONtoEval_ok_json {b : Bytes} {e : Evaluator} (h : JSONtoEval b = .ok e) :
    ∃ d, b = Bytes.json d := by
  cases b with
  | nil => simp [JSONtoEval] at h
  | json d => exact ⟨d, rfl⟩
  | text s => simp [JSONtoEval] at h

theorem JSONtoQues_ok_json {b : Bytes} {q : Question} (h : JSONtoQues b = .ok q) :
    ∃ d, b = Bytes.json d := by
  cases b with
  | nil => simp [JSONtoQues] at h
  | json d => exact ⟨d, rfl⟩
  | text s => simp [JSONtoQues] at h

theorem JSONtoStu_ok_json {b : Bytes} {s : Student} (h : JSONtoStu b = .ok s) :
    ∃ d, b = Bytes.json d := by
  cases b with
  | nil => simp [JSONtoStu] at h
  | json d => exact ⟨d, rfl⟩
  | text s => simp [JSONtoStu] at h

/-- The question lookup never writes; it answers `OK` exactly when the target
is a Question chaincode holding the key, and then returns the stored bytes. -/
theorem invoke_getQuestionById (env : Env) (w : World) (n k : String) :
    (InvokeChaincode env w n ["getQuestionById", k]).2 = w ∧
    ((InvokeChaincode env w n ["getQuestionById", k]).1.Status = shim.OK →
      w.kind n = some Kind.questions ∧ GetState (w.ledger n) k ≠ Bytes.nil ∧
      (InvokeChaincode env w n ["getQuestionById", k]).1.Payload = GetState (w.ledger n) k) ∧
    (w.kind n = some Kind.questions → GetState (w.ledger n) k ≠ Bytes.nil →
      (InvokeChaincode env w n ["getQuestionById", k]).1 = shim.Success (GetState (w.ledger n) k)) := by
  unfold InvokeChaincode
  cases hk : w.kind n with
  | none => simp [shim.OK, shim.ERROR]
  | some kd =>
    cases kd with
    | questions =>
      simp only [Questions.Invoke, Questions.getQuestionById]
      cases hg : GetState (w.ledger n) k with
      | nil => simp [World.setLedger_self, shim.Error, shim.OK, shim.ERROR]
      | json d => simp [World.setLedger_self, shim.Success]
      | text s => exact absurd hg (GetState_ne_text _ _ _)
    | students =>
      simp [Students.Invoke, World.setLedger_self, shim.Error, shim.OK, shim.ERROR]
    | evaluators =>
      simp [Evaluators.Invoke, World.setLedger_self, shim.Error, shim.OK, shim.ERROR]
    | answers => simp [shim.Error, shim.OK, shim.ERROR]

/-- The evaluator lookup never writes; it answers `OK` exactly when the target
is an Evaluator chaincode holding the key, and then returns the stored bytes. -/
theorem invoke_getEvaluatorById (env : Env) (w : World) (n k : String) :
    (InvokeChaincode env w n ["getEvaluatorById", k]).2 = w ∧
    ((InvokeChaincode env w n ["getEvaluatorById", k]).1.Status = shim.OK →
      w.kind n = some Kind.evaluators ∧ GetState (w.ledger n) k ≠ Bytes.nil ∧
      (InvokeChaincode env w n ["getEvaluatorById", k]).1.Payload = GetState (w.ledger n) k) ∧
    (w.kind n = some Kind.evaluators → GetState (w.ledger n) k ≠ Bytes.nil →
      (InvokeChaincode env w n ["getEvaluatorById", k]).1 = shim.Success (GetState (w.ledger n) k)) := by
  unfold InvokeChaincode
  cases hk : w.kind n with
  | none => simp [shim.OK, shim.ERROR]
  | some kd =>
    cases kd with
    | questions =>
      simp [Questions.Invoke, World.setLedger_self, shim.Error, shim.OK, shim.ERROR]
    | students =>
      simp [Students.Invoke, World.setLedger_self, shim.Error, shim.OK, shim.ERROR]
    | evaluators =>
      simp only [Evaluators.Invoke, Evaluators.getEvaluatorById]
      cases hg : GetState (w.ledger n) k with
      | nil => simp [World.setLedger_self, shim.Error, shim.OK, shim.ERROR]
      | json d => simp [World.setLedger_self, shim.Success]
      | text s => exact absurd hg (GetState_ne_text _ _ _)
    | answers => simp [shim.Error, shim.OK, shim.ERROR]


theorem updateTheEvaluatedAnswers_eval (l : Ledger) (e a : String) (ev : Evaluator)
    (hs : sanitize_arguments [e, a] = none) (hev : JSONtoEval (GetState l e) = .ok ev) :
    Evaluators.updateTheEvaluatedAnswers l [e, a] =
      if contains ev.EvaluatedAnswers a = true then
        (shim.Error "already evaluated cant evaluate the same answer again ", l)
      else if ev.EvaluatorID = "" then (shim.Error "key must not be an empty string", l)
      else (shim.Success Bytes.nil, writeKey l ev.EvaluatorID (EvaltoJSON (withEvaluated ev a))) := by
  unfold Evaluators.updateTheEvaluatedAnswers
  simp only [hs, hev]
  by_cases hc : contains ev.EvaluatedAnswers a = true
  · simp [hc]
  · by_cases hid : ev.EvaluatorID = ""
    · simp [hc, hid, PutState]
    · simp [hc, hid, PutState, withEvaluated]

theorem updateTheEvaluatedAnswers_spec (l : Ledger) (e a : String) :
    ((Evaluators.updateTheEvaluatedAnswers l [e, a]).1.Status ≠ shim.OK ∧
      (Evaluators.updateTheEvaluatedAnswers l [e, a]).2 = l) ∨
    (∃ ev, sanitize_arguments [e, a] = none ∧ JSONtoEval (GetState l e) = .ok ev ∧
      contains ev.EvaluatedAnswers a = false ∧ ev.EvaluatorID ≠ "" ∧
      Evaluators.updateTheEvaluatedAnswers l [e, a] =
        (shim.Success Bytes.nil, writeKey l ev.EvaluatorID (EvaltoJSON (withEvaluated ev a)))) := by
  cases hs : sanitize_arguments [e, a] with
  | some err =>
    left
    simp [Evaluators.updateTheEvaluatedAnswers, hs, shim.Error, shim.OK, shim.ERROR]
  | none =>
    cases hev : JSONtoEval (GetState l e) with
    | error msg =>
      left
      simp [Evaluators.updateTheEvaluatedAnswers, hs, hev, shim.Error, shim.OK, shim.ERROR]
    | ok ev =>
      rw [updateTheEvaluatedAnswers_eval l e a ev hs hev]
      by_cases hc : contains ev.EvaluatedAnswers a = true
      · left
        simp [hc, shim.Error, shim.OK, shim.ERROR]
      · by_cases hid : ev.EvaluatorID = ""
        · left
          simp [hc, hid, shim.Error, shim.OK, shim.ERROR]
        · right
          refine ⟨ev, rfl, rfl, ?_, hid, ?_⟩
          · simpa using hc
          · simp [hc, hid]

/-- The cross-chaincode call `updateTheEvaluatedAnswers`: a non-OK answer leaves the world as it
was; an `OK` answer comes from an Evaluator chaincode that appended the answer
to the record decoded under `e`, written under that record's id field. -/
theorem invoke_updateTheEvaluatedAnswers (env : Env) (w : World) (n e a : String) :
    ((InvokeChaincode env w n ["updateTheEvaluatedAnswers", e, a]).1.Status ≠ shim.OK ∧
      (InvokeChaincode env w n ["updateTheEvaluatedAnswers", e, a]).2 = w) ∨
    (∃ ev, w.kind n = some Kind.evaluators ∧ sanitize_arguments [e, a] = none ∧
      JSONtoEval (GetState (w.ledger n) e) = .ok ev ∧
      contains ev.EvaluatedAnswers a = false ∧ ev.EvaluatorID ≠ "" ∧
      InvokeChaincode env w n ["updateTheEvaluatedAnswers", e, a] =
        (shim.Success Bytes.nil,
          w.setLedger n (writeKey (w.ledger n) ev.EvaluatorID (EvaltoJSON (withEvaluated ev a))))) := by
  unfold InvokeChaincode
  cases hk : w.kind n with
  | none => simp [shim.OK, shim.ERROR]
  | some kd =>
    cases kd with
    | questions =>
      simp [Questions.Invoke, World.setLedger_self, shim.Error, shim.OK, shim.ERROR]
    | students =>
      simp [Students.Invoke, World.setLedger_self, shim.Error, shim.OK, shim.ERROR]
    | evaluators =>
      have hI : Evaluators.Invoke env (w.ledger n) "updateTheEvaluatedAnswers" [e, a] =
          Evaluators.updateTheEvaluatedAnswers (w.ledger n) [e, a] := by
        simp [Evaluators.Invoke]
      simp only [hI]
      rcases updateTheEvaluatedAnswers_spec (w.ledger n) e a with ⟨h1, h2⟩ | ⟨ev, h1, h2, h3, h4, h5⟩
      · left
        exact ⟨h1, by rw [h2, World.setLedger_self]⟩
      · right
        exact ⟨ev, trivial, h1, h2, h3, h4, by rw [h5]⟩
    | answers => simp [shim.Error, shim.OK, shim.ERROR]

theorem getAnswerLedgerState_eq (l : Ledger) (a : String) (ha : a ≠ "") :
    Answers.getAnswerLedgerState l [a] =
      match JSONtoAns (GetState l a) with
      | .ok dat => .ok dat
      | .error _ =>
        match GetState l a with
        | Bytes.nil => .error ("\x7b\"Error\":\"Nil value for " ++ a ++ "\"\x7d")
        | _ => .error ("unable to convert JSONtoAns for" ++ a) := by
  have hs : sanitize_arguments [a] = none := by
    rw [sanitize_eq_none]
    simpa using ha
  unfold Answers.getAnswerLedgerState
  simp only [hs]
  cases hg : GetState l a with
  | nil => simp [JSONtoAns]
  | json d =>
    cases hd : JSONtoAns (Bytes.json d) <;> simp [hd]
  | text s => exact absurd hg (GetState_ne_text _ _ _)

/-- The handler `thumbsUpToAnswer` evaluated in a state where the answer, its question and the
evaluator are stored and the two named chaincodes are of the right kinds. -/
theorem thumbsUp_eval (env : Env) (w : World) (self qcc ecc a e secret : String)
    (dat : Answer) (q : Question) (ev : Evaluator)
    (hs : sanitize_arguments [qcc, ecc, a, e, secret] = none)
    (hq : w.kind qcc = some Kind.questions) (he : w.kind ecc = some Kind.evaluators)
    (hdat : JSONtoAns (GetState (w.ledger self) a) = .ok dat)
    (hques : JSONtoQues (GetState (w.ledger qcc) dat.QuestionID) = .ok q)
    (hev : JSONtoEval (GetState (w.ledger ecc) e) = .ok ev) :
    Answers.thumbsUpToAnswer env w self [qcc, ecc, a, e, secret] =
      if CheckPasswordHash env secret ev.EvaluatorSecret = false then
        (Outcome.returned (shim.Error "not authorized to perform this action. "), w)
      else if (Answers.scanTechRepu q.QuestionTech ev.EvaluatorTechRepus).1 = true ∧
          (Answers.scanTechRepu q.QuestionTech ev.EvaluatorTechRepus).2 > 1000 then
        if contains ev.EvaluatedAnswers a = true ∨ ev.EvaluatorID = "" then
          (Outcome.returned (shim.Error "Failed to invoke chaincode. Got error: "), w)
        else
          (Outcome.returned (shim.Success Bytes.nil),
            (w.setLedger ecc (writeKey (w.ledger ecc) ev.EvaluatorID
              (EvaltoJSON (withEvaluated ev a)))).setLedger self
              (writeKey ((w.setLedger ecc (writeKey (w.ledger ecc) ev.EvaluatorID
                (EvaltoJSON (withEvaluated ev a)))).ledger self) a
                (AnsToJSON (withThumbsUp dat e))))
      else
        (Outcome.returned (shim.Error
          "either you dont have required tech repu or the tech repu is less than 1000. "), w) := by
  have hne := (sanitize_eq_none _).mp hs
  have ha : a ≠ "" := hne a (by simp)
  have hee : e ≠ "" := hne e (by simp)
  have hse : sanitize_arguments [e, a] = none := by
    rw [sanitize_eq_none]
    intro s hsm
    simp only [List.mem_cons, List.mem_singleton, List.not_mem_nil, or_false] at hsm
    rcases hsm with rfl | rfl
    · exact hee
    · exact ha
  obtain ⟨dq, hdq⟩ := JSONtoQues_ok_json hques
  obtain ⟨de, hde⟩ := JSONtoEval_ok_json hev
  have hqn : GetState (w.ledger qcc) dat.QuestionID ≠ Bytes.nil := by rw [hdq]; simp
  have hen : GetState (w.ledger ecc) e ≠ Bytes.nil := by rw [hde]; simp
  obtain ⟨q1, -, q3⟩ := invoke_getQuestionById env w qcc dat.QuestionID
  obtain ⟨e1, -, e3⟩ := invoke_getEvaluatorById env w ecc e
  have hg : Answers.getAnswerLedgerState (w.ledger self) [a] = .ok dat := by
    rw [getAnswerLedgerState_eq _ _ ha, hdat]
  unfold Answers.thumbsUpToAnswer
  simp only [hs, hg, q1, q3 hq hqn, e1, e3 he hen, shim.Success, hques, hev]
  by_cases hc : CheckPasswordHash env secret ev.EvaluatorSecret = false
  · simp [hc, shim.OK]
  · simp only [Bool.not_eq_false] at hc
    by_cases hscan : (Answers.scanTechRepu q.QuestionTech ev.EvaluatorTechRepus).1 = true ∧
          (Answers.scanTechRepu q.QuestionTech ev.EvaluatorTechRepus).2 > 1000
    · have hI : InvokeChaincode env w ecc ["updateTheEvaluatedAnswers", e, a] =
          ((Evaluators.updateTheEvaluatedAnswers (w.ledger ecc) [e, a]).1,
            w.setLedger ecc (Evaluators.updateTheEvaluatedAnswers (w.ledger ecc) [e, a]).2) := by
        simp [InvokeChaincode, he, Evaluators.Invoke]
      rw [updateTheEvaluatedAnswers_eval _ e a ev hse hev] at hI
      by_cases hcon : contains ev.EvaluatedAnswers a = true
      · simp [hc, hscan, hI, hcon, shim.OK, shim.ERROR, shim.Error, Bytes.toText,
          World.setLedger_self]
      · by_cases hid : ev.EvaluatorID = ""
        · simp [hc, hscan, hI, hcon, hid, shim.OK, shim.ERROR, shim.Error, Bytes.toText,
            World.setLedger_self]
        · simp [hc, hscan, hI, hcon, hid, shim.OK, shim.ERROR, shim.Success, PutState, ha,
            withThumbsUp]
    · simp [hc, hscan, shim.OK]

/-- Every run of `thumbsUpToAnswer` either does not succeed and leaves the world as it was, or passes
every check and writes the evaluator record and then the answer record. -/
theorem thumbsUp_cases (env : Env) (w : World) (self : String) (args : List String) :
    ((Answers.thumbsUpToAnswer env w self args).1.succeeded = false ∧
      (Answers.thumbsUpToAnswer env w self args).2 = w) ∨
    (∃ qcc ecc a e secret dat q ev,
      args = [qcc, ecc, a, e, secret] ∧ sanitize_arguments args = none ∧
      w.kind qcc = some Kind.questions ∧ w.kind ecc = some Kind.evaluators ∧
      JSONtoAns (GetState (w.ledger self) a) = .ok dat ∧
      JSONtoQues (GetState (w.ledger qcc) dat.QuestionID) = .ok q ∧
      JSONtoEval (GetState (w.ledger ecc) e) = .ok ev ∧
      CheckPasswordHash env secret ev.EvaluatorSecret = true ∧
      ((Answers.scanTechRepu q.QuestionTech ev.EvaluatorTechRepus).1 = true ∧
        (Answers.scanTechRepu q.QuestionTech ev.EvaluatorTechRepus).2 > 1000) ∧
      contains ev.EvaluatedAnswers a = false ∧ ev.EvaluatorID ≠ "" ∧
      Answers.thumbsUpToAnswer env w self args =
        (Outcome.returned (shim.Success Bytes.nil),
          (w.setLedger ecc (writeKey (w.ledger ecc) ev.EvaluatorID
            (EvaltoJSON (withEvaluated ev a)))).setLedger self
            (writeKey ((w.setLedger ecc (writeKey (w.ledger ecc) ev.EvaluatorID
              (EvaltoJSON (withEvaluated ev a)))).ledger self) a
              (AnsToJSON (withThumbsUp dat e))))) := by
  by_cases hshape : ∃ qcc ecc a e secret, args = [qcc, ecc, a, e, secret]
  · obtain ⟨qcc, ecc, a, e, secret, rfl⟩ := hshape
    cases hs : sanitize_arguments [qcc, ecc, a, e, secret] with
    | some err =>
      left
      simp [Answers.thumbsUpToAnswer, hs, Outcome.succeeded, shim.Error, shim.OK, shim.ERROR]
    | none =>
      have hne := (sanitize_eq_none _).mp hs
      have ha : a ≠ "" := hne a (by simp)
      cases hdat : JSONtoAns (GetState (w.ledger self) a) with
      | error msg =>
        left
        have hg : ∃ m, Answers.getAnswerLedgerState (w.ledger self) [a] = .error m := by
          rw [getAnswerLedgerState_eq _ _ ha, hdat]
          cases GetState (w.ledger self) a <;> exact ⟨_, rfl⟩
        obtain ⟨m, hg⟩ := hg
        simp [Answers.thumbsUpToAnswer, hs, hg, Outcome.succeeded, shim.Error, shim.OK,
          shim.ERROR]
      | ok dat =>
        have hg : Answers.getAnswerLedgerState (w.ledger self) [a] = .ok dat := by
          rw [getAnswerLedgerState_eq _ _ ha, hdat]
        obtain ⟨q1, q2, -⟩ := invoke_getQuestionById env w qcc dat.QuestionID
        obtain ⟨e1, e2, -⟩ := invoke_getEvaluatorById env w ecc e
        by_cases h1 : (InvokeChaincode env w qcc ["getQuestionById", dat.QuestionID]).1.Status
            = shim.OK
        · obtain ⟨hq, -, hp1⟩ := q2 h1
          cases hques : JSONtoQues (GetState (w.ledger qcc) dat.QuestionID) with
          | error msg =>
            left
            simp [Answers.thumbsUpToAnswer, hs, hg, h1, q1, hp1, hques, Outcome.succeeded,
              shim.Error, shim.OK, shim.ERROR]
          | ok q =>
            by_cases h2 : (InvokeChaincode env w ecc ["getEvaluatorById", e]).1.Status = shim.OK
            · obtain ⟨he, -, hp2⟩ := e2 h2
              cases hev : JSONtoEval (GetState (w.ledger ecc) e) with
              | error msg =>
                left
                simp [Answers.thumbsUpToAnswer, hs, hg, h1, q1, hp1, hques, h2, e1, hp2, hev,
                  Outcome.succeeded, shim.Error, shim.OK, shim.ERROR]
              | ok ev =>
                rw [thumbsUp_eval env w self qcc ecc a e secret dat q ev hs hq he hdat hques hev]
                by_cases hc : CheckPasswordHash env secret ev.EvaluatorSecret = false
                · left
                  simp [hc, Outcome.succeeded, shim.Error, shim.OK, shim.ERROR]
                · by_cases hscan :
                      (Answers.scanTechRepu q.QuestionTech ev.EvaluatorTechRepus).1 = true ∧
                      (Answers.scanTechRepu q.QuestionTech ev.EvaluatorTechRepus).2 > 1000
                  · by_cases hcon : contains ev.EvaluatedAnswers a = true ∨ ev.EvaluatorID = ""
                    · left
                      simp [hc, hscan, hcon, Outcome.succeeded, shim.Error, shim.OK, shim.ERROR]
                    · right
                      have hcon' : contains ev.EvaluatedAnswers a = false ∧ ev.EvaluatorID ≠ "" := by
                        constructor
                        · cases hx : contains ev.EvaluatedAnswers a
                          · rfl
                          · exact absurd (Or.inl hx) hcon
                        · exact fun hx => hcon (Or.inr hx)
                      refine ⟨qcc, ecc, a, e, secret, dat, q, ev, rfl, rfl, hq, he, hdat, hques, hev,
                        ?_, hscan, hcon'.1, hcon'.2, ?_⟩
                      · simpa using hc
                      · simp [hc, hscan, hcon]
                  · left
                    simp [hc, hscan, Outcome.succeeded, shim.Error, shim.OK, shim.ERROR]
            · left
              simp [Answers.thumbsUpToAnswer, hs, hg, h1, q1, hp1, hques, h2, e1,
                Outcome.succeeded]
        · left
          simp [Answers.thumbsUpToAnswer, hs, hg, h1, q1, Outcome.succeeded]
  · left
    unfold Answers.thumbsUpToAnswer
    split
    · rename_i qcc ecc a e secret
      exact absurd ⟨qcc, ecc, a, e, secret, rfl⟩ hshape
    · simp [Outcome.succeeded, shim.Error, shim.OK, shim.ERROR]


/-! ## The student update and the submission workflow -/

theorem updateAnsweredQuestions_eval (l : Ledger) (s q : String) (st : Student)
    (hs : sanitize_arguments [s, q] = none) (hst : JSONtoStu (GetState l s) = .ok st) :
    Students.updateAnsweredQuestions l [s, q] =
      if contains st.AnsweredQuestions q = true then
        (shim.Error "already answered cant repeat ", l)
      else (shim.Success Bytes.nil, writeKey l s (StuToJSON (withAnswered st q))) := by
  have hne := (sanitize_eq_none _).mp hs
  have hsne : s ≠ "" := hne s (by simp)
  unfold Students.updateAnsweredQuestions
  simp only [hs, hst]
  by_cases hc : contains st.AnsweredQuestions q = true
  · simp [hc]
  · simp [hc, PutState, hsne, withAnswered]

theorem updateAnsweredQuestions_spec (l : Ledger) (s q : String) :
    ((Students.updateAnsweredQuestions l [s, q]).1.Status ≠ shim.OK ∧
      (Students.updateAnsweredQuestions l [s, q]).2 = l) ∨
    (∃ st, sanitize_arguments [s, q] = none ∧ JSONtoStu (GetState l s) = .ok st ∧
      contains st.AnsweredQuestions q = false ∧
      Students.updateAnsweredQuestions l [s, q] =
        (shim.Success Bytes.nil, writeKey l s (StuToJSON (withAnswered st q)))) := by
  cases hs : sanitize_arguments [s, q] with
  | some err =>
    left
    simp [Students.updateAnsweredQuestions, hs, shim.Error, shim.OK, shim.ERROR]
  | none =>
    cases hst : JSONtoStu (GetState l s) with
    | error msg =>
      left
      simp [Students.updateAnsweredQuestions, hs, hst, shim.Error, shim.OK, shim.ERROR]
    | ok st =>
      rw [updateAnsweredQuestions_eval l s q st hs hst]
      by_cases hc : contains st.AnsweredQuestions q = true
      · left
        simp [hc, shim.Error, shim.OK, shim.ERROR]
      · right
        refine ⟨st, rfl, rfl, ?_, ?_⟩
        · simpa using hc
        · simp [hc]

/-- The cross-chaincode call `updateAnsweredQuestions`: a non-OK answer leaves the world as it was;
an `OK` answer comes from a Student chaincode that appended the question to
the record decoded under `s`. -/
theorem invoke_updateAnsweredQuestions (env : Env) (w : World) (n s q : String) :
    ((InvokeChaincode env w n ["updateAnsweredQuestions", s, q]).1.Status ≠ shim.OK ∧
      (InvokeChaincode env w n ["updateAnsweredQuestions", s, q]).2 = w) ∨
    (∃ st, w.kind n = some Kind.students ∧ sanitize_arguments [s, q] = none ∧
      JSONtoStu (GetState (w.ledger n) s) = .ok st ∧
      contains st.AnsweredQuestions q = false ∧
      InvokeChaincode env w n ["updateAnsweredQuestions", s, q] =
        (shim.Success Bytes.nil,
          w.setLedger n (writeKey (w.ledger n) s (StuToJSON (withAnswered st q))))) := by
  unfold InvokeChaincode
  cases hk : w.kind n with
  | none => simp [shim.OK, shim.ERROR]
  | some kd =>
    cases kd with
    | questions =>
      simp [Questions.Invoke, World.setLedger_self, shim.Error, shim.OK, shim.ERROR]
    | students =>
      have hI : Students.Invoke env (w.ledger n) "updateAnsweredQuestions" [s, q] =
          Students.updateAnsweredQuestions (w.ledger n) [s, q] := by
        simp [Students.Invoke]
      simp only [hI]
      rcases updateAnsweredQuestions_spec (w.ledger n) s q with ⟨h1, h2⟩ | ⟨st, h1, h2, h3, h4⟩
      · left
        exact ⟨h1, by rw [h2, World.setLedger_self]⟩
      · right
        exact ⟨st, trivial, h1, h2, h3, by rw [h4]⟩
    | evaluators =>
      simp [Evaluators.Invoke, World.setLedger_self, shim.Error, shim.OK, shim.ERROR]
    | answers => simp [shim.Error, shim.OK, shim.ERROR]

/-- The handler `submitAnswer` when the question lookup does not answer `OK`: the handler
panics, and the world is as it was. -/
theorem submitAnswer_lookup_failed (env : Env) (w : World)
    (self qcc scc id cid author qid : String)
    (hs : sanitize_arguments [qcc, scc, id, cid, author, qid] = none)
    (h1 : (InvokeChaincode env w qcc ["getQuestionById", qid]).1.Status ≠ shim.OK) :
    Answers.submitAnswer env w self [qcc, scc, id, cid, author, qid] =
      (Outcome.panicked Answers.nilDereference, w) := by
  obtain ⟨q1, -, -⟩ := invoke_getQuestionById env w qcc qid
  simp [Answers.submitAnswer, hs, h1, q1]

/-- The handler `submitAnswer` evaluated in a state where the question is stored in the named
Question chaincode. -/
theorem submitAnswer_eval (env : Env) (w : World) (self qcc scc id cid author qid : String)
    (q : Question)
    (hs : sanitize_arguments [qcc, scc, id, cid, author, qid] = none)
    (hq : w.kind qcc = some Kind.questions)
    (hques : JSONtoQues (GetState (w.ledger qcc) qid) = .ok q) :
    Answers.submitAnswer env w self [qcc, scc, id, cid, author, qid] =
      if GetState (w.ledger self) id ≠ Bytes.nil then
        (Outcome.returned (shim.Error ("This answer already exists - " ++ id)), w)
      else if (InvokeChaincode env w scc ["updateAnsweredQuestions", author, qid]).1.Status
          ≠ shim.OK then
        (Outcome.returned (shim.Error ("Failed to invoke chaincode. Got error: " ++
          (InvokeChaincode env w scc
            ["updateAnsweredQuestions", author, qid]).1.Payload.toText)),
          (InvokeChaincode env w scc ["updateAnsweredQuestions", author, qid]).2)
      else
        (Outcome.returned (shim.Success Bytes.nil),
          (InvokeChaincode env w scc ["updateAnsweredQuestions", author, qid]).2.setLedger self
            (writeKey ((InvokeChaincode env w scc
              ["updateAnsweredQuestions", author, qid]).2.ledger self) id
              (AnsToJSON ⟨id, cid, author, qid, [], 0, env.now⟩))) := by
  have hne := (sanitize_eq_none _).mp hs
  have hid : id ≠ "" := hne id (by simp)
  obtain ⟨dq, hdq⟩ := JSONtoQues_ok_json hques
  have hqn : GetState (w.ledger qcc) qid ≠ Bytes.nil := by rw [hdq]; simp
  obtain ⟨q1, -, q3⟩ := invoke_getQuestionById env w qcc qid
  unfold Answers.submitAnswer
  simp only [hs, q1, q3 hq hqn, shim.Success, hques]
  cases hg : GetState (w.ledger self) id with
  | nil =>
    by_cases h2 : (InvokeChaincode env w scc ["updateAnsweredQuestions", author, qid]).1.Status
        = shim.OK
    · simp [h2, Answers.CreateAnswerObject, PutState, hid]
    · simp [h2, Answers.CreateAnswerObject]
  | json d => simp
  | text s => exact absurd hg (GetState_ne_text _ _ _)

/-- Every run of `submitAnswer` either does not succeed and leaves the world as it was, or passes
every check and writes the student record and then the new answer record. -/
theorem submitAnswer_cases (env : Env) (w : World) (self : String) (args : List String) :
    ((Answers.submitAnswer env w self args).1.succeeded = false ∧
      (Answers.submitAnswer env w self args).2 = w) ∨
    (∃ qcc scc id cid author qid q st,
      args = [qcc, scc, id, cid, author, qid] ∧ sanitize_arguments args = none ∧
      w.kind qcc = some Kind.questions ∧ w.kind scc = some Kind.students ∧
      JSONtoQues (GetState (w.ledger qcc) qid) = .ok q ∧
      GetState (w.ledger self) id = Bytes.nil ∧
      JSONtoStu (GetState (w.ledger scc) author) = .ok st ∧
      contains st.AnsweredQuestions qid = false ∧
      Answers.submitAnswer env w self args =
        (Outcome.returned (shim.Success Bytes.nil),
          (w.setLedger scc (writeKey (w.ledger scc) author
            (StuToJSON (withAnswered st qid)))).setLedger self
            (writeKey ((w.setLedger scc (writeKey (w.ledger scc) author
              (StuToJSON (withAnswered st qid)))).ledger self) id
              (AnsToJSON ⟨id, cid, author, qid, [], 0, env.now⟩)))) := by
  by_cases hshape : ∃ qcc scc id cid author qid, args = [qcc, scc, id, cid, author, qid]
  · obtain ⟨qcc, scc, id, cid, author, qid, rfl⟩ := hshape
    cases hs : sanitize_arguments [qcc, scc, id, cid, author, qid] with
    | some err =>
      left
      simp [Answers.submitAnswer, hs, Outcome.succeeded, shim.Error, shim.OK, shim.ERROR]
    | none =>
      obtain ⟨q1, q2, -⟩ := invoke_getQuestionById env w qcc qid
      by_cases h1 : (InvokeChaincode env w qcc ["getQuestionById", qid]).1.Status = shim.OK
      · obtain ⟨hq, -, hp1⟩ := q2 h1
        cases hques : JSONtoQues (GetState (w.ledger qcc) qid) with
        | error msg =>
          left
          simp [Answers.submitAnswer, hs, h1, q1, hp1, hques, Outcome.succeeded, shim.Error,
            shim.OK, shim.ERROR]
        | ok q =>
          rw [submitAnswer_eval env w self qcc scc id cid author qid q hs hq hques]
          by_cases hg : GetState (w.ledger self) id ≠ Bytes.nil
          · left
            simp [hg, Outcome.succeeded, shim.Error, shim.OK, shim.ERROR]
          · simp only [ne_eq, not_not] at hg
            rcases invoke_updateAnsweredQuestions env w scc author qid with
              ⟨h2, h3⟩ | ⟨st, hk, -, hst, hc, h4⟩
            · left
              simp only [hg, h2, h3, ne_eq, not_true_eq_false, not_false_eq_true, if_true,
                if_false]
              simp [Outcome.succeeded, shim.Error, shim.OK, shim.ERROR]
            · right
              refine ⟨qcc, scc, id, cid, author, qid, q, st, rfl, rfl, hq, hk, hques, hg, hst,
                hc, ?_⟩
              simp [hg, h4, shim.Success, shim.OK]
      · left
        rw [submitAnswer_lookup_failed env w self qcc scc id cid author qid hs h1]
        simp [Outcome.succeeded]
  · left
    unfold Answers.submitAnswer
    split
    · rename_i qcc scc id cid author qid
      exact absurd ⟨qcc, scc, id, cid, author, qid, rfl⟩ hshape
    · simp [Outcome.succeeded, shim.Error, shim.OK, shim.ERROR]


/-! ## The endorsement workflow: gates and effects -/

theorem scanTechRepu_eq_find (tech : String) (repus : List TechRepu) :
    Answers.scanTechRepu tech repus =
      match repus.find? (fun u => decide (u.UniqueTechName = tech)) with
      | some t => (true, t.AttainedRepu)
      | none => (false, 0) := by
  induction repus with
  | nil => rfl
  | cons t rest ih =>
    by_cases h : tech = t.UniqueTechName
    · simp [Answers.scanTechRepu, List.find?, h]
    · have h' : ¬ t.UniqueTechName = tech := fun e => h e.symm
      simp [Answers.scanTechRepu, List.find?, h, h', ih]

theorem scanTechRepu_gate (tech : String) (repus : List TechRepu) :
    ((Answers.scanTechRepu tech repus).1 = true ∧ (Answers.scanTechRepu tech repus).2 > 1000) ↔
      ∃ t, repus.find? (fun u => decide (u.UniqueTechName = tech)) = some t ∧
        t.AttainedRepu > 1000 := by
  rw [scanTechRepu_eq_find]
  cases repus.find? (fun u => decide (u.UniqueTechName = tech)) with
  | none => simp
  | some t => simp

/-- C1. In a state where answer `a`, its question and evaluator `e` are stored
in the named chaincodes, the secret verifies and `a` is not yet in the
evaluated list of `e`, the handler `thumbsUpToAnswer` succeeds exactly when the first
reputation entry of `e` named after the tech area of the question exists and
has more than 1000 points. -/
theorem thumbsUp_succeeds_iff_above_threshold (env : Env) (w : World)
    (self qcc ecc a e secret : String) (dat : Answer) (q : Question) (ev : Evaluator)
    (hargs : sanitize_arguments [qcc, ecc, a, e, secret] = none)
    (hq : w.kind qcc = some Kind.questions) (he : w.kind ecc = some Kind.evaluators)
    (hdat : JSONtoAns (GetState (w.ledger self) a) = .ok dat)
    (hques : JSONtoQues (GetState (w.ledger qcc) dat.QuestionID) = .ok q)
    (hev : JSONtoEval (GetState (w.ledger ecc) e) = .ok ev) (hid : ev.EvaluatorID = e)
    (hsecret : CheckPasswordHash env secret ev.EvaluatorSecret = true)
    (hfresh : a ∉ ev.EvaluatedAnswers) :
    (Answers.thumbsUpToAnswer env w self [qcc, ecc, a, e, secret]).1.succeeded = true ↔
      ∃ t, ev.EvaluatorTechRepus.find? (fun u => decide (u.UniqueTechName = q.QuestionTech))
          = some t ∧ t.AttainedRepu > 1000 := by
  have hne := (sanitize_eq_none _).mp hargs
  have hee : ev.EvaluatorID ≠ "" := by
    rw [hid]
    exact hne e (by simp)
  have hcon : ¬ (contains ev.EvaluatedAnswers a = true ∨ ev.EvaluatorID = "") := by
    rintro (h | h)
    · exact hfresh ((contains_eq_true _ _).mp h)
    · exact hee h
  rw [thumbsUp_eval env w self qcc ecc a e secret dat q ev hargs hq he hdat hques hev,
    ← scanTechRepu_gate]
  by_cases hscan : (Answers.scanTechRepu q.QuestionTech ev.EvaluatorTechRepus).1 = true ∧
      (Answers.scanTechRepu q.QuestionTech ev.EvaluatorTechRepus).2 > 1000
  · simp [hsecret, hscan, hcon, Outcome.succeeded, shim.Success]
  · simp [hsecret, hscan, Outcome.succeeded, shim.Error, shim.OK, shim.ERROR]

/-- Witness of C1: with 1001 points the endorsement succeeds, with exactly 1000
it does not. -/
theorem thumbsUp_succeeds_iff_above_threshold_witness :
    (Answers.thumbsUpToAnswer demoEnv (demoWorld 1001) "answers"
      ["questions", "evaluators", "A1", "E1", "secret"]).1.succeeded = true ∧
    ¬ (Answers.thumbsUpToAnswer demoEnv (demoWorld 1000) "answers"
      ["questions", "evaluators", "A1", "E1", "secret"]).1.succeeded = true :=
  ⟨(thumbsUp_succeeds_iff_above_threshold demoEnv (demoWorld 1001) "answers" "questions"
      "evaluators" "A1" "E1" "secret" demoAnswer demoQuestion (demoEvaluator 1001)
      (by decide) (by decide) (by decide) (by rfl) (by rfl) (by rfl) (by rfl) (by decide)
      (by decide)).mpr ⟨⟨"rust", 1001, "20240101000000"⟩, by rfl, by decide⟩,
   fun h => by
    obtain ⟨t, ht, hp⟩ := (thumbsUp_succeeds_iff_above_threshold demoEnv (demoWorld 1000)
      "answers" "questions" "evaluators" "A1" "E1" "secret" demoAnswer demoQuestion
      (demoEvaluator 1000) (by decide) (by decide) (by decide) (by rfl) (by rfl) (by rfl)
      (by rfl) (by decide) (by decide)).mp h
    simp [demoEvaluator, demoQuestion, List.find?] at ht
    subst ht
    simp at hp⟩


theorem wrapInt_of_fits (x : Int) (h1 : minInt ≤ x) (h2 : x ≤ maxInt) : wrapInt x = x := by
  unfold wrapInt
  unfold minInt at h1
  unfold maxInt at h2
  omega

theorem wrapInt_add_wrapInt (x y : Int) : wrapInt (wrapInt x + y) = wrapInt (x + y) := by
  unfold wrapInt
  omega

/-- C4. When `thumbsUpToAnswer` succeeds, the Answer store maps `a` to the previous record with
`e` appended to `EvaluatedBy` and the count increased by one (the other fields
unchanged), the Evaluator store maps `e` to the previous record with `a`
appended to `EvaluatedAnswers`, and no other key of either store changes. The
stored evaluator record carries its key as id, and the count is a Go `int`
below the largest. -/
theorem thumbsUp_success_effect (env : Env) (w : World) (self qcc ecc a e secret : String)
    (dat : Answer) (ev : Evaluator)
    (hself : w.kind self = some Kind.answers)
    (hdat : JSONtoAns (GetState (w.ledger self) a) = .ok dat)
    (hev : JSONtoEval (GetState (w.ledger ecc) e) = .ok ev) (hid : ev.EvaluatorID = e)
    (hfit : minInt ≤ dat.AttainedEvaluatorThumbsUp ∧ dat.AttainedEvaluatorThumbsUp < maxInt)
    (hsucc : (Answers.thumbsUpToAnswer env w self [qcc, ecc, a, e, secret]).1.succeeded = true) :
    stateOf ((Answers.thumbsUpToAnswer env w self [qcc, ecc, a, e, secret]).2.ledger self) a =
      some (AnsToJSON { dat with
        EvaluatedBy := dat.EvaluatedBy ++ [e]
        AttainedEvaluatorThumbsUp := dat.AttainedEvaluatorThumbsUp + 1 }) ∧
    (∀ k, k ≠ a →
      stateOf ((Answers.thumbsUpToAnswer env w self [qcc, ecc, a, e, secret]).2.ledger self) k =
        stateOf (w.ledger self) k) ∧
    stateOf ((Answers.thumbsUpToAnswer env w self [qcc, ecc, a, e, secret]).2.ledger ecc) e =
      some (EvaltoJSON { ev with EvaluatedAnswers := ev.EvaluatedAnswers ++ [a] }) ∧
    (∀ k, k ≠ e →
      stateOf ((Answers.thumbsUpToAnswer env w self [qcc, ecc, a, e, secret]).2.ledger ecc) k =
        stateOf (w.ledger ecc) k) := by
  rcases thumbsUp_cases env w self [qcc, ecc, a, e, secret] with ⟨hf, -⟩ |
    ⟨qcc', ecc', a', e', secret', dat', q', ev', hargs, -, -, he, hdat', -, hev', -, -, -, -, hres⟩
  · rw [hf] at hsucc
    exact absurd hsucc (by simp)
  · simp only [List.cons.injEq, and_true] at hargs
    obtain ⟨rfl, rfl, rfl, rfl, rfl⟩ := hargs
    rw [hdat] at hdat'
    rw [hev] at hev'
    simp only [Except.ok.injEq] at hdat' hev'
    subst hdat' hev'
    have hne : self ≠ ecc := by
      intro h
      rw [h, he] at hself
      simp at hself
    have hne' : ecc ≠ self := fun h => hne h.symm
    have hcount : wrapInt (dat.AttainedEvaluatorThumbsUp + 1) = dat.AttainedEvaluatorThumbsUp + 1 := by
      apply wrapInt_of_fits
      · unfold minInt at *
        omega
      · unfold maxInt at *
        omega
    rw [hres]
    simp only [World.setLedger_ledger, if_true, hne, hne', if_false, hid, withThumbsUp,
      withEvaluated, hcount]
    refine ⟨?_, ?_, ?_, ?_⟩
    · rw [stateOf_writeKey_self]
    · intro k hk
      rw [stateOf_writeKey_ne _ _ _ _ hk]
    · rw [stateOf_writeKey_self]
    · intro k hk
      rw [stateOf_writeKey_ne _ _ _ _ hk]

/-- Witness of C4: the endorsement of `A1` by `E1` holding 1001 points. -/
theorem thumbsUp_success_effect_witness :
    stateOf ((Answers.thumbsUpToAnswer demoEnv (demoWorld 1001) "answers"
      ["questions", "evaluators", "A1", "E1", "secret"]).2.ledger "answers") "A1" =
      some (AnsToJSON { demoAnswer with
        EvaluatedBy := demoAnswer.EvaluatedBy ++ ["E1"]
        AttainedEvaluatorThumbsUp := demoAnswer.AttainedEvaluatorThumbsUp + 1 }) ∧
    stateOf ((Answers.thumbsUpToAnswer demoEnv (demoWorld 1001) "answers"
      ["questions", "evaluators", "A1", "E1", "secret"]).2.ledger "evaluators") "E1" =
      some (EvaltoJSON { demoEvaluator 1001 with
        EvaluatedAnswers := (demoEvaluator 1001).EvaluatedAnswers ++ ["A1"] }) :=
  have h := thumbsUp_success_effect demoEnv (demoWorld 1001) "answers" "questions" "evaluators"
    "A1" "E1" "secret" demoAnswer (demoEvaluator 1001) (by decide) (by rfl) (by rfl) (by rfl)
    (by decide) (by rfl)
  ⟨h.1, h.2.2.1⟩

/-- C5. In a state where the answer, its question and the evaluator are stored
in the named chaincodes, a secret that does not verify against the stored hash
makes `thumbsUpToAnswer` return the not-authorized error and leave the whole world, hence the
Answer store and the Evaluator store, as it was, whatever the reputation. -/
theorem thumbsUp_bad_secret_unauthorized (env : Env) (w : World)
    (self qcc ecc a e secret : String) (dat : Answer) (q : Question) (ev : Evaluator)
    (hargs : sanitize_arguments [qcc, ecc, a, e, secret] = none)
    (hq : w.kind qcc = some Kind.questions) (he : w.kind ecc = some Kind.evaluators)
    (hdat : JSONtoAns (GetState (w.ledger self) a) = .ok dat)
    (hques : JSONtoQues (GetState (w.ledger qcc) dat.QuestionID) = .ok q)
    (hev : JSONtoEval (GetState (w.ledger ecc) e) = .ok ev)
    (hbad : CheckPasswordHash env secret ev.EvaluatorSecret = false) :
    (Answers.thumbsUpToAnswer env w self [qcc, ecc, a, e, secret]).1 =
      Outcome.returned (shim.Error "not authorized to perform this action. ") ∧
    (Answers.thumbsUpToAnswer env w self [qcc, ecc, a, e, secret]).2 = w ∧
    (Answers.thumbsUpToAnswer env w self [qcc, ecc, a, e, secret]).2.ledger self = w.ledger self ∧
    (Answers.thumbsUpToAnswer env w self [qcc, ecc, a, e, secret]).2.ledger ecc = w.ledger ecc := by
  rw [thumbsUp_eval env w self qcc ecc a e secret dat q ev hargs hq he hdat hques hev]
  simp [hbad]

/-- Witness of C5: a wrong secret for `E1`, who holds 5000 points. -/
theorem thumbsUp_bad_secret_unauthorized_witness :
    (Answers.thumbsUpToAnswer demoEnv (demoWorld 5000) "answers"
      ["questions", "evaluators", "A1", "E1", "guess"]).1 =
      Outcome.returned (shim.Error "not authorized to perform this action. ") ∧
    (Answers.thumbsUpToAnswer demoEnv (demoWorld 5000) "answers"
      ["questions", "evaluators", "A1", "E1", "guess"]).2 = demoWorld 5000 :=
  have h := thumbsUp_bad_secret_unauthorized demoEnv (demoWorld 5000) "answers" "questions"
    "evaluators" "A1" "E1" "guess" demoAnswer demoQuestion (demoEvaluator 5000)
    (by decide) (by decide) (by decide) (by rfl) (by rfl) (by rfl) (by decide)
  ⟨h.1, h.2.1⟩

/-- C6. Whenever `thumbsUpToAnswer` does not succeed (it returns an error response or panics), for
any state and any argument list, the Answer store, and in fact the whole
world, is exactly as before the call. -/
theorem thumbsUp_failure_leaves_answers (env : Env) (w : World) (self : String)
    (args : List String)
    (hfail : (Answers.thumbsUpToAnswer env w self args).1.succeeded = false) :
    (Answers.thumbsUpToAnswer env w self args).2.ledger self = w.ledger self ∧
    (Answers.thumbsUpToAnswer env w self args).2 = w := by
  rcases thumbsUp_cases env w self args with ⟨-, hw⟩ |
    ⟨qcc, ecc, a, e, secret, dat, q, ev, -, -, -, -, -, -, -, -, -, -, -, hres⟩
  · exact ⟨by rw [hw], hw⟩
  · rw [hres] at hfail
    simp [Outcome.succeeded, shim.Success] at hfail

/-- Witness of C6: a second endorsement attempt stopped by the reputation gate. -/
theorem thumbsUp_failure_leaves_answers_witness :
    (Answers.thumbsUpToAnswer demoEnv (demoWorld 10) "answers"
      ["questions", "evaluators", "A1", "E1", "secret"]).2.ledger "answers"
      = (demoWorld 10).ledger "answers" :=
  (thumbsUp_failure_leaves_answers demoEnv (demoWorld 10) "answers"
    ["questions", "evaluators", "A1", "E1", "secret"] (by rfl)).1


/-! ## Failing cross-chaincode calls -/

theorem invoke_updateAnsweredQuestions_rejects (env : Env) (w : World) (n s q : String)
    (h : GetState (w.ledger n) s = Bytes.nil ∨
      ∃ st, JSONtoStu (GetState (w.ledger n) s) = .ok st ∧ q ∈ st.AnsweredQuestions) :
    (InvokeChaincode env w n ["updateAnsweredQuestions", s, q]).1.Status ≠ shim.OK := by
  rcases invoke_updateAnsweredQuestions env w n s q with ⟨h1, -⟩ | ⟨st, -, -, hst, hc, -⟩
  · exact h1
  · rcases h with h | ⟨st', hst', hq⟩
    · rw [h] at hst
      simp [JSONtoStu] at hst
    · rw [hst] at hst'
      simp only [Except.ok.injEq] at hst'
      subst hst'
      exact absurd hq ((contains_eq_false _ _).mp hc)

/-- C10. In a state where `submitAnswer` reaches the Student store (six non-empty arguments,
the question stored in the named Question chaincode, the answer id free): if
the `updateAnsweredQuestions` call returns non-OK, which it does when the student has no record
and when the student has already answered the question, then `submitAnswer` returns an
error response, the world is as it was, and no record is stored under the
answer id. -/
theorem submitAnswer_student_update_rejected (env : Env) (w : World)
    (self qcc scc id cid author qid : String) (q : Question)
    (hargs : sanitize_arguments [qcc, scc, id, cid, author, qid] = none)
    (hq : w.kind qcc = some Kind.questions)
    (hques : JSONtoQues (GetState (w.ledger qcc) qid) = .ok q)
    (hfree : GetState (w.ledger self) id = Bytes.nil)
    (hcall : (InvokeChaincode env w scc ["updateAnsweredQuestions", author, qid]).1.Status
        ≠ shim.OK ∨
      GetState (w.ledger scc) author = Bytes.nil ∨
      ∃ st, JSONtoStu (GetState (w.ledger scc) author) = .ok st ∧ qid ∈ st.AnsweredQuestions) :
    (Answers.submitAnswer env w self [qcc, scc, id, cid, author, qid]).1.returnedError = true ∧
    (Answers.submitAnswer env w self [qcc, scc, id, cid, author, qid]).2 = w ∧
    GetState ((Answers.submitAnswer env w self [qcc, scc, id, cid, author, qid]).2.ledger self)
      id = Bytes.nil := by
  have hstatus : (InvokeChaincode env w scc ["updateAnsweredQuestions", author, qid]).1.Status
      ≠ shim.OK := by
    rcases hcall with h | h | h
    · exact h
    · exact invoke_updateAnsweredQuestions_rejects env w scc author qid (Or.inl h)
    · exact invoke_updateAnsweredQuestions_rejects env w scc author qid (Or.inr h)
  have hw : (InvokeChaincode env w scc ["updateAnsweredQuestions", author, qid]).2 = w := by
    rcases invoke_updateAnsweredQuestions env w scc author qid with ⟨-, h2⟩ | ⟨st, -, -, -, -, h4⟩
    · exact h2
    · rw [h4] at hstatus
      simp [shim.Success] at hstatus
  rw [submitAnswer_eval env w self qcc scc id cid author qid q hargs hq hques]
  simp only [hfree, ne_eq, not_true_eq_false, if_false, hstatus, not_false_eq_true, if_true, hw]
  simp [Outcome.returnedError, shim.Error, shim.OK, shim.ERROR]

/-- Witness of C10: an answer to `Q1` submitted by a student with no record. -/
theorem submitAnswer_student_update_rejected_witness :
    (Answers.submitAnswer demoEnv (demoWorld 10) "answers"
      ["questions", "students", "A2", "cidA2", "S7", "Q1"]).1.returnedError = true ∧
    GetState ((Answers.submitAnswer demoEnv (demoWorld 10) "answers"
      ["questions", "students", "A2", "cidA2", "S7", "Q1"]).2.ledger "answers") "A2"
      = Bytes.nil :=
  have h := submitAnswer_student_update_rejected demoEnv (demoWorld 10) "answers" "questions"
    "students" "A2" "cidA2" "S7" "Q1" demoQuestion (by decide) (by decide) (by rfl) (by rfl)
    (Or.inr (Or.inl (by rfl)))
  ⟨h.1, h.2.2⟩

/-- The handler `thumbsUpToAnswer` when a cross-chaincode lookup does not answer `OK`: the handler
panics, and the world is as it was. -/
theorem thumbsUp_lookup_failed (env : Env) (w : World) (self qcc ecc a e secret : String)
    (dat : Answer)
    (hs : sanitize_arguments [qcc, ecc, a, e, secret] = none)
    (hdat : JSONtoAns (GetState (w.ledger self) a) = .ok dat)
    (h : (InvokeChaincode env w qcc ["getQuestionById", dat.QuestionID]).1.Status ≠ shim.OK ∨
      ((∃ q, JSONtoQues (GetState (w.ledger qcc) dat.QuestionID) = .ok q) ∧
        w.kind qcc = some Kind.questions ∧
        (InvokeChaincode env w ecc ["getEvaluatorById", e]).1.Status ≠ shim.OK)) :
    Answers.thumbsUpToAnswer env w self [qcc, ecc, a, e, secret] =
      (Outcome.panicked Answers.nilDereference, w) := by
  have hne := (sanitize_eq_none _).mp hs
  have ha : a ≠ "" := hne a (by simp)
  have hg : Answers.getAnswerLedgerState (w.ledger self) [a] = .ok dat := by
    rw [getAnswerLedgerState_eq _ _ ha, hdat]
  obtain ⟨q1, -, q3⟩ := invoke_getQuestionById env w qcc dat.QuestionID
  obtain ⟨e1, -, -⟩ := invoke_getEvaluatorById env w ecc e
  rcases h with h1 | ⟨⟨q, hques⟩, hq, h2⟩
  · simp [Answers.thumbsUpToAnswer, hs, hg, h1, q1]
  · obtain ⟨dq, hdq⟩ := JSONtoQues_ok_json hques
    have hqn : GetState (w.ledger qcc) dat.QuestionID ≠ Bytes.nil := by rw [hdq]; simp
    simp [Answers.thumbsUpToAnswer, hs, hg, q1, q3 hq hqn, shim.Success, hques, h2, e1]

/-- C7 (what the code does). An endorsement of a stored answer whose question
is not in the Question store, and an endorsement by an evaluator that is not
in the Evaluator store, both end in the nil-dereference panic instead of an
error response; the Answer and Evaluator stores are as they were. -/
theorem thumbsUp_missing_record_panics :
    (Answers.thumbsUpToAnswer demoEnv orphanWorld "answers"
      ["questions", "evaluators", "A1", "E1", "secret"]).1
      = Outcome.panicked Answers.nilDereference ∧
    (Answers.thumbsUpToAnswer demoEnv (demoWorld 1001) "answers"
      ["questions", "evaluators", "A1", "E2", "secret"]).1
      = Outcome.panicked Answers.nilDereference ∧
    (Answers.thumbsUpToAnswer demoEnv orphanWorld "answers"
      ["questions", "evaluators", "A1", "E1", "secret"]).2 = orphanWorld ∧
    (Answers.thumbsUpToAnswer demoEnv (demoWorld 1001) "answers"
      ["questions", "evaluators", "A1", "E2", "secret"]).2 = demoWorld 1001 := by
  have h1 := thumbsUp_lookup_failed demoEnv orphanWorld "answers" "questions" "evaluators"
    "A1" "E1" "secret" demoAnswer (by decide) (by rfl) (Or.inl (by decide))
  have h2 := thumbsUp_lookup_failed demoEnv (demoWorld 1001) "answers" "questions" "evaluators"
    "A1" "E2" "secret" demoAnswer (by decide) (by rfl)
    (Or.inr ⟨⟨demoQuestion, by rfl⟩, by decide, by decide⟩)
  rw [h1, h2]
  exact ⟨rfl, rfl, rfl, rfl⟩

/-- C9 (what the code does). The handler `submitAnswer` with six non-empty arguments naming a
question that is not in the Question store ends in the nil-dereference panic
instead of an error response; no answer is stored and the world is as it
was. -/
theorem submitAnswer_missing_question_panics :
    (Answers.submitAnswer demoEnv (demoWorld 10) "answers"
      ["questions", "students", "A2", "cidA2", "S1", "Q9"]).1
      = Outcome.panicked Answers.nilDereference ∧
    GetState ((Answers.submitAnswer demoEnv (demoWorld 10) "answers"
      ["questions", "students", "A2", "cidA2", "S1", "Q9"]).2.ledger "answers") "A2"
      = Bytes.nil ∧
    (Answers.submitAnswer demoEnv (demoWorld 10) "answers"
      ["questions", "students", "A2", "cidA2", "S1", "Q9"]).2 = demoWorld 10 := by
  have h1 := submitAnswer_lookup_failed demoEnv (demoWorld 10) "answers" "questions" "students"
    "A2" "cidA2" "S1" "Q9" (by decide) (by decide)
  rw [h1]
  exact ⟨rfl, rfl, rfl⟩


/-! ## The end-to-end scenario -/

/-- The scenario of C8 with its stages spelled out. -/
theorem scenario_stages (env : Env) (pw secret hS h : String)
    (hpw : pw ≠ "") (hsecret : secret ≠ "")
    (hgenS : env.GenerateFromPassword pw = .ok hS)
    (hgen : env.GenerateFromPassword secret = .ok h)
    (hcmp : env.CompareHashAndPassword h secret = true) :
    let w1 := (initialWorld demoDeployment).setLedger "students"
      (Students.Invoke env ((initialWorld demoDeployment).ledger "students") "addAStudent"
        ["rust", "S1", pw]).2
    let w2 := w1.setLedger "questions"
      (Questions.Invoke env (w1.ledger "questions") "submitQuestion"
        ["Q1", "cidQ", "S1", "rust", "1"]).2
    let r3 := Answers.Invoke env w2 "answers" "submitAnswer"
      ["questions", "students", "A1", "cidA", "S1", "Q1"]
    let w4 := r3.2.setLedger "evaluators"
      (Evaluators.Invoke env (r3.2.ledger "evaluators") "addAnEvaluator"
        ["rust", "E1", secret]).2
    let r5 := Answers.Invoke env w4 "answers" "thumbsUpToAnswer"
      ["questions", "evaluators", "A1", "E1", secret]
    let w6 := r5.2.setLedger "evaluators"
      (Evaluators.Invoke env (r5.2.ledger "evaluators") "bumpUpEvaluatorRepu"
        ["E1", "rust", "1000"]).2
    let r7 := Answers.Invoke env w6 "answers" "thumbsUpToAnswer"
      ["questions", "evaluators", "A1", "E1", secret]
    r3.1.succeeded = true ∧
    JSONtoEval (GetState (w4.ledger "evaluators") "E1") =
      .ok ⟨"E1", h, [], [⟨"rust", 10, env.now⟩], env.now⟩ ∧
    r5.1 = Outcome.returned (shim.Error
      "either you dont have required tech repu or the tech repu is less than 1000. ") ∧
    JSONtoEval (GetState (w6.ledger "evaluators") "E1") =
      .ok ⟨"E1", h, [], [⟨"rust", 1010, env.now⟩], env.now⟩ ∧
    r7.1.succeeded = true ∧
    JSONtoAns (GetState (r7.2.ledger "answers") "A1") =
      .ok ⟨"A1", "cidA", "S1", "Q1", ["E1"], 1, env.now⟩ ∧
    JSONtoEval (GetState (r7.2.ledger "evaluators") "E1") =
      .ok ⟨"E1", h, ["A1"], [⟨"rust", 1010, env.now⟩], env.now⟩ := by
  intro w1 w2 r3 w4 r5 w6 r7
  have hl1 : ¬ pw.length ≤ 0 := fun hl => hpw ((length_le_zero_iff pw).mp hl)
  have hl2 : ¬ secret.length ≤ 0 := fun hl => hsecret ((length_le_zero_iff secret).mp hl)
  have hat : (Atoi "1000").1 = 1000 := by decide
  have hat1 : (Atoi "1").1 = 1 := by decide
  have s1 : sanitize_arguments ["rust", "S1", pw] = none := by
    rw [sanitize_eq_none]; simp [hpw]
  have s2 : sanitize_arguments ["Q1", "cidQ", "S1", "rust", "1"] = none := by decide
  have s3 : sanitize_arguments ["questions", "students", "A1", "cidA", "S1", "Q1"] = none := by
    decide
  have s4 : sanitize_arguments ["rust", "E1", secret] = none := by
    rw [sanitize_eq_none]; simp [hsecret]
  have s5 : sanitize_arguments ["questions", "evaluators", "A1", "E1", secret] = none := by
    rw [sanitize_eq_none]; simp [hsecret]
  have s6 : sanitize_arguments ["E1", "rust", "1000"] = none := by decide
  have l1 : w1.ledger = fun n => if n = "students" then
      [("S1", StuToJSON ⟨"S1", hS, [⟨"rust", 10, env.now⟩], [], env.now⟩)] else [] := by
    funext n
    simp [w1, initialWorld, World.setLedger, Students.Invoke, Students.addAStudent,
      Students.CreateStudentObject, Students.CreateStudentTechRepuObject, s1,
      GetState, PutState, stateOf, writeKey, HashPassword, hgenS]
  have k1 : w1.kind = demoDeployment.kind := rfl
  clear_value w1
  have l2 : w2.ledger = fun n => if n = "questions" then
      [("Q1", QuestoJSON ⟨"Q1", "cidQ", "S1", "rust", 1, env.now⟩)] else w1.ledger n := by
    funext n
    simp [w2, l1, World.setLedger, Questions.Invoke, Questions.submitQuestion,
      Questions.CreateQuestionObject, s2, GetState, PutState,
      stateOf, writeKey, hat1]
  have k2 : w2.kind = demoDeployment.kind := k1
  clear_value w2
  have e3 := submitAnswer_eval env w2 "answers" "questions" "students" "A1" "cidA" "S1" "Q1"
    ⟨"Q1", "cidQ", "S1", "rust", 1, env.now⟩ s3 (by rw [k2]; decide)
    (by simp [l2, GetState, stateOf, JSONtoQues_QuestoJSON])
  have c3 : InvokeChaincode env w2 "students" ["updateAnsweredQuestions", "S1", "Q1"] =
      (shim.Success Bytes.nil, w2.setLedger "students"
        [("S1", StuToJSON ⟨"S1", hS, [⟨"rust", 10, env.now⟩], ["Q1"], env.now⟩)]) := by
    have hk : w2.kind "students" = some Kind.students := by rw [k2]; decide
    have hu := updateAnsweredQuestions_eval (w2.ledger "students") "S1" "Q1"
      ⟨"S1", hS, [⟨"rust", 10, env.now⟩], [], env.now⟩ (by decide)
      (by simp [l2, l1, GetState, stateOf, JSONtoStu_StuToJSON])
    have hI : Students.Invoke env (w2.ledger "students") "updateAnsweredQuestions"
        ["S1", "Q1"] = Students.updateAnsweredQuestions (w2.ledger "students") ["S1", "Q1"] := by
      simp [Students.Invoke]
    simp only [InvokeChaincode, hk, hI, hu]
    simp [contains, withAnswered, l2, l1, writeKey]
  have r3v : r3 = (Outcome.returned (shim.Success Bytes.nil),
      (w2.setLedger "students"
        [("S1", StuToJSON ⟨"S1", hS, [⟨"rust", 10, env.now⟩], ["Q1"], env.now⟩)]).setLedger
        "answers" [("A1", AnsToJSON ⟨"A1", "cidA", "S1", "Q1", [], 0, env.now⟩)]) := by
    have hr : r3 = Answers.submitAnswer env w2 "answers"
        ["questions", "students", "A1", "cidA", "S1", "Q1"] := by
      simp [r3, Answers.Invoke]
    rw [hr, e3, c3]
    simp [l2, l1, GetState, stateOf, shim.Success, shim.OK, World.setLedger, writeKey]
  clear_value r3
  subst r3v
  have l4 : w4.ledger = fun n => if n = "evaluators" then
      [("E1", EvaltoJSON ⟨"E1", h, [], [⟨"rust", 10, env.now⟩], env.now⟩)]
      else if n = "answers" then [("A1", AnsToJSON ⟨"A1", "cidA", "S1", "Q1", [], 0, env.now⟩)]
      else if n = "students" then
        [("S1", StuToJSON ⟨"S1", hS, [⟨"rust", 10, env.now⟩], ["Q1"], env.now⟩)]
      else w2.ledger n := by
    funext n
    by_cases hn : n = "evaluators"
    · subst hn
      simp [w4, l2, l1, World.setLedger, Evaluators.Invoke, Evaluators.addAnEvaluator,
        Evaluators.CreateEvaluatorObject, Evaluators.CreateEvaluatorTechRepuObject, s4,
        GetState, PutState, stateOf, writeKey, HashPassword, hgen]
    · by_cases hn2 : n = "answers"
      · subst hn2
        simp [w4, World.setLedger]
      · by_cases hn3 : n = "students"
        · subst hn3
          simp [w4, World.setLedger]
        · simp [w4, World.setLedger, hn, hn2, hn3]
  have k4 : w4.kind = demoDeployment.kind := k2
  clear_value w4
  have hq4 : JSONtoQues (GetState (w4.ledger "questions") "Q1") =
      .ok ⟨"Q1", "cidQ", "S1", "rust", 1, env.now⟩ := by
    simp [l4, l2, GetState, stateOf, JSONtoQues_QuestoJSON]
  have e5 := thumbsUp_eval env w4 "answers" "questions" "evaluators" "A1" "E1" secret
    ⟨"A1", "cidA", "S1", "Q1", [], 0, env.now⟩ ⟨"Q1", "cidQ", "S1", "rust", 1, env.now⟩
    ⟨"E1", h, [], [⟨"rust", 10, env.now⟩], env.now⟩ s5 (by rw [k4]; decide) (by rw [k4]; decide)
    (by simp [l4, GetState, stateOf, JSONtoAns_AnsToJSON]) hq4
    (by simp [l4, GetState, stateOf, JSONtoEval_EvaltoJSON])
  have r5v : r5 = (Outcome.returned (shim.Error
      "either you dont have required tech repu or the tech repu is less than 1000. "), w4) := by
    have hr : r5 = Answers.thumbsUpToAnswer env w4 "answers"
        ["questions", "evaluators", "A1", "E1", secret] := by
      simp [r5, Answers.Invoke]
    rw [hr, e5]
    simp [CheckPasswordHash, hcmp, Answers.scanTechRepu]
  clear_value r5
  subst r5v
  have l6 : w6.ledger = fun n => if n = "evaluators" then
      [("E1", EvaltoJSON ⟨"E1", h, [], [⟨"rust", 1010, env.now⟩], env.now⟩)]
      else w4.ledger n := by
    funext n
    by_cases hn : n = "evaluators"
    · subst hn
      simp [w6, l4, World.setLedger, Evaluators.Invoke, Evaluators.bumpUpEvaluatorRepu, s6,
        GetState, PutState, stateOf, writeKey, JSONtoEval_EvaltoJSON, bumpFirst, hat, wrapInt]
    · simp [w6, World.setLedger, hn]
  have k6 : w6.kind = demoDeployment.kind := k4
  clear_value w6
  have hq6 : JSONtoQues (GetState (w6.ledger "questions") "Q1") =
      .ok ⟨"Q1", "cidQ", "S1", "rust", 1, env.now⟩ := by
    simp [l6, l4, l2, GetState, stateOf, JSONtoQues_QuestoJSON]
  have e7 := thumbsUp_eval env w6 "answers" "questions" "evaluators" "A1" "E1" secret
    ⟨"A1", "cidA", "S1", "Q1", [], 0, env.now⟩ ⟨"Q1", "cidQ", "S1", "rust", 1, env.now⟩
    ⟨"E1", h, [], [⟨"rust", 1010, env.now⟩], env.now⟩ s5 (by rw [k6]; decide)
    (by rw [k6]; decide)
    (by simp [l6, l4, GetState, stateOf, JSONtoAns_AnsToJSON]) hq6
    (by simp [l6, GetState, stateOf, JSONtoEval_EvaltoJSON])
  have r7v : r7 = (Outcome.returned (shim.Success Bytes.nil),
      (w6.setLedger "evaluators"
        [("E1", EvaltoJSON ⟨"E1", h, ["A1"], [⟨"rust", 1010, env.now⟩], env.now⟩)]).setLedger
        "answers" [("A1", AnsToJSON ⟨"A1", "cidA", "S1", "Q1", ["E1"], 1, env.now⟩)]) := by
    have hr : r7 = Answers.thumbsUpToAnswer env w6 "answers"
        ["questions", "evaluators", "A1", "E1", secret] := by
      simp [r7, Answers.Invoke]
    rw [hr, e7]
    simp [CheckPasswordHash, hcmp, Answers.scanTechRepu, contains, withEvaluated, withThumbsUp,
      l6, l4, writeKey, World.setLedger, wrapInt]
  clear_value r7
  subst r7v
  refine ⟨by simp [Outcome.succeeded, shim.Success], ?_, rfl, ?_, by simp [Outcome.succeeded, shim.Success], ?_, ?_⟩
  · simp [l4, GetState, stateOf, JSONtoEval_EvaltoJSON]
  · simp [l6, GetState, stateOf, JSONtoEval_EvaltoJSON]
  · simp [World.setLedger, GetState, stateOf, JSONtoAns_AnsToJSON]
  · simp [World.setLedger, GetState, stateOf, JSONtoEval_EvaltoJSON]

/-- C8. Scenario from empty stores with student `S1` registered, for any
environment whose hash primitive verifies `secret` against its own hash:
after `submitQuestion`, `submitAnswer` and `addAnEvaluator`, evaluator `E1` holds 10 points in "rust"
and its endorsement is refused at the reputation gate; after a bump by 1000 it
holds 1010 and the endorsement succeeds, leaving `A1` with count 1 and
`EvaluatedBy = [E1]`, and `E1` with `EvaluatedAnswers = [A1]`. -/
theorem scenario_endorsement (env : Env) (pw secret hS h : String)
    (hpw : pw ≠ "") (hsecret : secret ≠ "")
    (hgenS : env.GenerateFromPassword pw = .ok hS)
    (hgen : env.GenerateFromPassword secret = .ok h)
    (hcmp : env.CompareHashAndPassword h secret = true) :
    (scenarioAnswer env pw).1.succeeded = true ∧
    JSONtoEval (GetState ((scenarioEvaluator env pw secret).ledger "evaluators") "E1") =
      .ok ⟨"E1", h, [], [⟨"rust", 10, env.now⟩], env.now⟩ ∧
    (scenarioFirstThumbsUp env pw secret).1 = Outcome.returned (shim.Error
      "either you dont have required tech repu or the tech repu is less than 1000. ") ∧
    JSONtoEval (GetState ((scenarioBump env pw secret).ledger "evaluators") "E1") =
      .ok ⟨"E1", h, [], [⟨"rust", 1010, env.now⟩], env.now⟩ ∧
    (scenarioSecondThumbsUp env pw secret).1.succeeded = true ∧
    JSONtoAns (GetState ((scenarioSecondThumbsUp env pw secret).2.ledger "answers") "A1") =
      .ok ⟨"A1", "cidA", "S1", "Q1", ["E1"], 1, env.now⟩ ∧
    JSONtoEval (GetState ((scenarioSecondThumbsUp env pw secret).2.ledger "evaluators") "E1") =
      .ok ⟨"E1", h, ["A1"], [⟨"rust", 1010, env.now⟩], env.now⟩ :=
  scenario_stages env pw secret hS h hpw hsecret hgenS hgen hcmp

/-- Witness of C8: the scenario under the toy hash of the worked examples. -/
theorem scenario_endorsement_witness :
    (scenarioFirstThumbsUp demoEnv "pw" "secret").1 = Outcome.returned (shim.Error
      "either you dont have required tech repu or the tech repu is less than 1000. ") ∧
    JSONtoAns (GetState ((scenarioSecondThumbsUp demoEnv "pw" "secret").2.ledger "answers")
      "A1") = .ok ⟨"A1", "cidA", "S1", "Q1", ["E1"], 1, "20240101000000"⟩ ∧
    JSONtoEval (GetState ((scenarioSecondThumbsUp demoEnv "pw" "secret").2.ledger "evaluators")
      "E1") = .ok ⟨"E1", "$2a$14$secret", ["A1"], [⟨"rust", 1010, "20240101000000"⟩],
        "20240101000000"⟩ :=
  have h := scenario_endorsement demoEnv "pw" "secret" "$2a$14$pw" "$2a$14$secret"
    (by decide) (by decide) (by rfl) (by rfl) (by decide)
  ⟨h.2.2.1, h.2.2.2.2.2.1, h.2.2.2.2.2.2⟩

/-! ## Reachable worlds: the invariant and its preservation -/

theorem EvaltoJSON_injective {e1 e2 : Evaluator} (h : EvaltoJSON e1 = EvaltoJSON e2) :
    e1 = e2 := by
  have h1 := JSONtoEval_EvaltoJSON e1
  rw [h, JSONtoEval_EvaltoJSON] at h1
  simpa using h1.symm

theorem AnsToJSON_injective {a1 a2 : Answer} (h : AnsToJSON a1 = AnsToJSON a2) : a1 = a2 := by
  have h1 := JSONtoAns_AnsToJSON a1
  rw [h, JSONtoAns_AnsToJSON] at h1
  simpa using h1.symm

/-- In a well-formed Evaluator ledger, what decodes under a key is the record
stored there, and it carries the key as id. -/
theorem EvaluatorsWF_decode {l : Ledger} (hwf : EvaluatorsWF l) {k : String} {ev : Evaluator}
    (h : JSONtoEval (GetState l k) = .ok ev) :
    stateOf l k = some (EvaltoJSON ev) ∧ ev.EvaluatorID = k := by
  obtain ⟨d, hd⟩ := JSONtoEval_ok_json h
  have hs := (GetState_eq_json _ _ _).mp hd
  obtain ⟨ev0, rfl, hid⟩ := hwf k d hs
  rw [hd, JSONtoEval_EvaltoJSON] at h
  simp only [Except.ok.injEq] at h
  subst h
  exact ⟨hs, hid⟩

theorem EvaluatorWrite_wf {l l' : Ledger} (hwf : EvaluatorsWF l) (h : EvaluatorWrite l l') :
    EvaluatorsWF l' := by
  rcases h with rfl | ⟨key, ev', rfl, hid, -⟩
  · exact hwf
  · intro k d hk
    rw [stateOf_writeKey] at hk
    by_cases hkk : k = key
    · simp only [hkk, if_true, Option.some.injEq] at hk
      exact ⟨ev', hk.symm, by rw [hid, hkk]⟩
    · simp only [hkk, if_false] at hk
      exact hwf k d hk

theorem EvaluatorWrite_grow {l l' : Ledger} (h : EvaluatorWrite l l') : EvaluatorsGrow l l' := by
  rcases h with rfl | ⟨key, ev', rfl, -, hmore⟩
  · intro k ev hk
    exact ⟨ev, hk, [], by simp⟩
  · intro k ev hk
    by_cases hkk : k = key
    · subst hkk
      exact ⟨ev', stateOf_writeKey_self _ _ _, hmore ev hk⟩
    · exact ⟨ev, by rw [stateOf_writeKey_ne _ _ _ _ hkk]; exact hk, [], by simp⟩

theorem addAnEvaluator_write (env : Env) (l : Ledger) (args : List String) :
    EvaluatorWrite l (Evaluators.addAnEvaluator env l args).2 := by
  unfold Evaluators.addAnEvaluator
  split
  · rename_i tech id secret
    split
    · exact Or.inl rfl
    · split
      · rename_i hnil
        unfold Evaluators.CreateEvaluatorObject
        simp only
        cases hh : HashPassword env secret with
        | error msg => exact Or.inl rfl
        | ok hashed =>
          simp only [PutState]
          by_cases hid : id = ""
          · simp [hid]
            exact Or.inl rfl
          · simp only [hid, if_false]
            refine Or.inr ⟨id, _, rfl, rfl, ?_⟩
            intro ev hev
            rw [(GetState_eq_nil _ _).mp hnil] at hev
            simp at hev
      · exact Or.inl rfl
  · exact Or.inl rfl

theorem bumpUpEvaluatorRepu_write (l : Ledger) (args : List String) (hwf : EvaluatorsWF l) :
    EvaluatorWrite l (Evaluators.bumpUpEvaluatorRepu l args).2 := by
  unfold Evaluators.bumpUpEvaluatorRepu
  split
  · rename_i id tech amount
    split
    · exact Or.inl rfl
    · split
      · exact Or.inl rfl
      · rename_i dat hdat
        obtain ⟨hst, hid⟩ := EvaluatorsWF_decode hwf hdat
        split
        · exact Or.inl rfl
        · rename_i repus hrepus
          simp only [PutState]
          by_cases he : dat.EvaluatorID = ""
          · simp [he]
            exact Or.inl rfl
          · simp only [he, if_false]
            refine Or.inr ⟨dat.EvaluatorID, _, rfl, rfl, ?_⟩
            intro ev hev
            rw [hid, hst] at hev
            simp only [Option.some.injEq] at hev
            have := EvaltoJSON_injective hev
            subst this
            exact ⟨[], by simp⟩
  · exact Or.inl rfl

theorem updateTheEvaluatedAnswers_write (l : Ledger) (args : List String)
    (hwf : EvaluatorsWF l) :
    EvaluatorWrite l (Evaluators.updateTheEvaluatedAnswers l args).2 := by
  unfold Evaluators.updateTheEvaluatedAnswers
  split
  · rename_i id a
    split
    · exact Or.inl rfl
    · split
      · exact Or.inl rfl
      · rename_i dat hdat
        obtain ⟨hst, hid⟩ := EvaluatorsWF_decode hwf hdat
        split
        · exact Or.inl rfl
        · simp only [PutState]
          by_cases he : dat.EvaluatorID = ""
          · simp [he]
            exact Or.inl rfl
          · simp only [he, if_false]
            refine Or.inr ⟨dat.EvaluatorID, _, rfl, rfl, ?_⟩
            intro ev hev
            rw [hid, hst] at hev
            simp only [Option.some.injEq] at hev
            have := EvaltoJSON_injective hev
            subst this
            exact ⟨[a], rfl⟩
  · exact Or.inl rfl

theorem getEvaluatorById_ledger (l : Ledger) (args : List String) :
    (Evaluators.getEvaluatorById l args).2 = l := by
  unfold Evaluators.getEvaluatorById
  split
  · split <;> rfl
  · rfl

theorem queryEvaluatorById_ledger (l : Ledger) (args : List String) :
    (Evaluators.queryEvaluatorById l args).2 = l := by
  unfold Evaluators.queryEvaluatorById
  split
  · split <;> rfl
  · rfl

/-- Every command of the Evaluator store changes at most one record, written
under its own id with its evaluated list extended. -/
theorem Evaluators_Invoke_write (env : Env) (l : Ledger) (function : String)
    (args : List String) (hwf : EvaluatorsWF l) :
    EvaluatorWrite l (Evaluators.Invoke env l function args).2 := by
  unfold Evaluators.Invoke
  split
  · exact addAnEvaluator_write env l args
  · split
    · exact bumpUpEvaluatorRepu_write l args hwf
    · split
      · exact Or.inl (getEvaluatorById_ledger l args)
      · split
        · exact Or.inl (queryEvaluatorById_ledger l args)
        · split
          · exact updateTheEvaluatedAnswers_write l args hwf
          · exact Or.inl rfl

theorem AnswersWF_mono {la le le' : Ledger} (h : AnswersWF la le) (hg : EvaluatorsGrow le le') :
    AnswersWF la le' := by
  intro k d hk
  obtain ⟨a, hd, hc, hn, hm⟩ := h k d hk
  refine ⟨a, hd, hc, hn, ?_⟩
  intro e he
  obtain ⟨ev, hev, hin⟩ := hm e he
  obtain ⟨ev', hev', more, hmore⟩ := hg e ev hev
  exact ⟨ev', hev', by rw [hmore]; exact List.mem_append_left _ hin⟩

theorem wrapInt_zero : wrapInt 0 = 0 := by decide

/-- In a well-formed Answer ledger, what decodes under a key is the record
stored there. -/
theorem AnswersWF_decode {la le : Ledger} (hwf : AnswersWF la le) {k : String} {dat : Answer}
    (h : JSONtoAns (GetState la k) = .ok dat) :
    stateOf la k = some (AnsToJSON dat) ∧
    dat.AttainedEvaluatorThumbsUp = wrapInt (dat.EvaluatedBy.length : Int) ∧
    dat.EvaluatedBy.Nodup ∧
    ∀ e ∈ dat.EvaluatedBy, ∃ ev, stateOf le e = some (EvaltoJSON ev) ∧ k ∈ ev.EvaluatedAnswers := by
  obtain ⟨d, hd⟩ := JSONtoAns_ok_json h
  have hs := (GetState_eq_json _ _ _).mp hd
  obtain ⟨a0, rfl, hc, hn, hm⟩ := hwf k d hs
  rw [hd, JSONtoAns_AnsToJSON] at h
  simp only [Except.ok.injEq] at h
  subst h
  exact ⟨hs, hc, hn, hm⟩

theorem queryAnswersByThumsUpCount_world (w : World) (self : String) (args : List String) :
    (Answers.queryAnswersByThumsUpCount w self args).2 = w := by
  unfold Answers.queryAnswersByThumsUpCount
  split
  · split <;> rfl
  · rfl

theorem queryAnswerByAnswerHashId_world (w : World) (self : String) (args : List String) :
    (Answers.queryAnswerByAnswerHashId w self args).2 = w := by
  unfold Answers.queryAnswerByAnswerHashId
  split
  · split <;> rfl
  · rfl

/-- Effect of a successful `thumbsUpToAnswer` on well-formed ledgers. -/
theorem thumbsUp_preserves (dep : Deployment) (hd : dep.distinct) (env : Env) (w : World)
    (args : List String) (hinv : Inv dep w) (hnames : namesStores dep "thumbsUpToAnswer" args) :
    Inv dep (Answers.thumbsUpToAnswer env w dep.answers args).2 ∧
    EvaluatorWrite (w.ledger dep.evaluators)
      ((Answers.thumbsUpToAnswer env w dep.answers args).2.ledger dep.evaluators) := by
  rcases thumbsUp_cases env w dep.answers args with ⟨-, hw⟩ |
    ⟨qcc, ecc, a, e, secret, dat, q, ev, hargs, -, -, he, hdat, -, hev, -, -, hcon, -, hres⟩
  · rw [hw]
    exact ⟨hinv, Or.inl rfl⟩
  · obtain ⟨-, rfl⟩ := hnames.2 rfl qcc ecc _ hargs
    obtain ⟨h1, h2, h3, h4, h5, h6⟩ := hd
    obtain ⟨hste, hid⟩ := EvaluatorsWF_decode hinv.evaluators_wf hev
    obtain ⟨hsta, hcount, hnodup, hmem⟩ := AnswersWF_decode hinv.answers_wf hdat
    have hfresh : a ∉ ev.EvaluatedAnswers := (contains_eq_false _ _).mp hcon
    have hwrite : EvaluatorWrite (w.ledger dep.evaluators)
        (writeKey (w.ledger dep.evaluators) e (EvaltoJSON (withEvaluated ev a))) := by
      refine Or.inr ⟨e, _, rfl, hid, ?_⟩
      intro ev1 hev1
      rw [hste] at hev1
      simp only [Option.some.injEq] at hev1
      have := EvaltoJSON_injective hev1
      subst this
      exact ⟨[a], rfl⟩
    have hle : (Answers.thumbsUpToAnswer env w dep.answers args).2.ledger dep.evaluators =
        writeKey (w.ledger dep.evaluators) e (EvaltoJSON (withEvaluated ev a)) := by
      rw [hres]
      simp [World.setLedger_ledger, h6, hid]
    have hla : (Answers.thumbsUpToAnswer env w dep.answers args).2.ledger dep.answers =
        writeKey (w.ledger dep.answers) a (AnsToJSON (withThumbsUp dat e)) := by
      rw [hres]
      simp [World.setLedger_ledger, h6.symm]
    have hk : (Answers.thumbsUpToAnswer env w dep.answers args).2.kind = w.kind := by
      rw [hres]
      rfl
    refine ⟨⟨by rw [hk]; exact hinv.kind_eq, by rw [hle]; exact EvaluatorWrite_wf hinv.evaluators_wf hwrite, ?_⟩,
      by rw [hle]; exact hwrite⟩
    rw [hle, hla]
    intro k d hkd
    rw [stateOf_writeKey] at hkd
    by_cases hka : k = a
    · subst hka
      simp only [if_true, Option.some.injEq] at hkd
      subst hkd
      refine ⟨withThumbsUp dat e, rfl, ?_, ?_, ?_⟩
      · simp only [withThumbsUp, List.length_append, List.length_singleton, Nat.cast_add,
          Nat.cast_one, hcount]
        exact wrapInt_add_wrapInt _ _
      · simp only [withThumbsUp]
        rw [List.nodup_append]
        refine ⟨hnodup, List.nodup_singleton e, ?_⟩
        intro x hx hx'
        simp only [List.mem_singleton] at hx'
        subst hx'
        obtain ⟨ev1, hev1, hin⟩ := hmem x hx
        rw [hste] at hev1
        simp only [Option.some.injEq] at hev1
        have := EvaltoJSON_injective hev1
        subst this
        exact hfresh hin
      · intro x hx
        simp only [withThumbsUp, List.mem_append, List.mem_singleton] at hx
        rcases hx with hx | rfl
        · obtain ⟨ev1, hev1, hin⟩ := hmem x hx
          obtain ⟨ev2, hev2, more, hmore⟩ := EvaluatorWrite_grow hwrite x ev1 hev1
          exact ⟨ev2, hev2, by rw [hmore]; exact List.mem_append_left _ hin⟩
        · exact ⟨withEvaluated ev k, stateOf_writeKey_self _ _ _, by simp [withEvaluated]⟩
    · simp only [hka, if_false] at hkd
      exact (AnswersWF_mono hinv.answers_wf (EvaluatorWrite_grow hwrite)) k d hkd

/-- Effect of a successful `submitAnswer` on well-formed ledgers. -/
theorem submitAnswer_preserves (dep : Deployment) (hd : dep.distinct) (env : Env) (w : World)
    (args : List String) (hinv : Inv dep w) (hnames : namesStores dep "submitAnswer" args) :
    Inv dep (Answers.submitAnswer env w dep.answers args).2 ∧
    EvaluatorWrite (w.ledger dep.evaluators)
      ((Answers.submitAnswer env w dep.answers args).2.ledger dep.evaluators) := by
  rcases submitAnswer_cases env w dep.answers args with ⟨-, hw⟩ |
    ⟨qcc, scc, id, cid, author, qid, q, st, hargs, -, -, -, -, hfree, -, -, hres⟩
  · rw [hw]
    exact ⟨hinv, Or.inl rfl⟩
  · obtain ⟨-, rfl⟩ := hnames.1 rfl qcc scc _ hargs
    obtain ⟨h1, h2, h3, h4, h5, h6⟩ := hd
    have hle : (Answers.submitAnswer env w dep.answers args).2.ledger dep.evaluators =
        w.ledger dep.evaluators := by
      rw [hres]
      simp [World.setLedger_ledger, h6, h4.symm]
    have hla : (Answers.submitAnswer env w dep.answers args).2.ledger dep.answers =
        writeKey (w.ledger dep.answers) id (AnsToJSON ⟨id, cid, author, qid, [], 0, env.now⟩) := by
      rw [hres]
      simp [World.setLedger_ledger, h5.symm]
    have hk : (Answers.submitAnswer env w dep.answers args).2.kind = w.kind := by
      rw [hres]
      rfl
    refine ⟨⟨by rw [hk]; exact hinv.kind_eq, by rw [hle]; exact hinv.evaluators_wf, ?_⟩,
      by rw [hle]; exact Or.inl rfl⟩
    rw [hle, hla]
    intro k d hkd
    rw [stateOf_writeKey] at hkd
    by_cases hka : k = id
    · simp only [hka, if_true, Option.some.injEq] at hkd
      subst hkd
      exact ⟨_, rfl, by simp [wrapInt_zero], List.nodup_nil, by simp⟩
    · simp only [hka, if_false] at hkd
      exact hinv.answers_wf k d hkd

/-- Every dispatched command preserves the invariant and changes at most one
record of the Evaluator store, extending its evaluated list. -/
theorem Inv_step {dep : Deployment} (hd : dep.distinct) {w w' : World} (hinv : Inv dep w)
    (hstep : Step dep w w') :
    Inv dep w' ∧ EvaluatorWrite (w.ledger dep.evaluators) (w'.ledger dep.evaluators) := by
  obtain ⟨h1, h2, h3, h4, h5, h6⟩ := hd
  cases hstep with
  | questions env _ function args =>
    have hle : ∀ l, (w.setLedger dep.questions l).ledger dep.evaluators =
        w.ledger dep.evaluators := fun l => by simp [World.setLedger_ledger, h2.symm]
    have hla : ∀ l, (w.setLedger dep.questions l).ledger dep.answers = w.ledger dep.answers :=
      fun l => by simp [World.setLedger_ledger, h3.symm]
    exact ⟨⟨hinv.kind_eq, by rw [hle]; exact hinv.evaluators_wf,
      by rw [hle, hla]; exact hinv.answers_wf⟩, by rw [hle]; exact Or.inl rfl⟩
  | students env _ function args =>
    have hle : ∀ l, (w.setLedger dep.students l).ledger dep.evaluators =
        w.ledger dep.evaluators := fun l => by simp [World.setLedger_ledger, h4.symm]
    have hla : ∀ l, (w.setLedger dep.students l).ledger dep.answers = w.ledger dep.answers :=
      fun l => by simp [World.setLedger_ledger, h5.symm]
    exact ⟨⟨hinv.kind_eq, by rw [hle]; exact hinv.evaluators_wf,
      by rw [hle, hla]; exact hinv.answers_wf⟩, by rw [hle]; exact Or.inl rfl⟩
  | evaluators env _ function args =>
    have hwrite := Evaluators_Invoke_write env (w.ledger dep.evaluators) function args
      hinv.evaluators_wf
    have hle : ∀ l, (w.setLedger dep.evaluators l).ledger dep.evaluators = l :=
      fun l => by simp [World.setLedger_ledger]
    have hla : ∀ l, (w.setLedger dep.evaluators l).ledger dep.answers = w.ledger dep.answers :=
      fun l => by simp [World.setLedger_ledger, h6.symm]
    exact ⟨⟨hinv.kind_eq, by rw [hle]; exact EvaluatorWrite_wf hinv.evaluators_wf hwrite,
      by rw [hle, hla]; exact AnswersWF_mono hinv.answers_wf (EvaluatorWrite_grow hwrite)⟩, by rw [hle]; exact hwrite⟩
  | answers env _ function args hnames =>
    unfold Answers.Invoke
    split
    · rename_i hf
      subst hf
      exact submitAnswer_preserves dep ⟨h1, h2, h3, h4, h5, h6⟩ env w args hinv hnames
    · split
      · rename_i hf
        subst hf
        exact thumbsUp_preserves dep ⟨h1, h2, h3, h4, h5, h6⟩ env w args hinv hnames
      · split
        · rw [queryAnswersByThumsUpCount_world]
          exact ⟨hinv, Or.inl rfl⟩
        · split
          · rw [queryAnswerByAnswerHashId_world]
            exact ⟨hinv, Or.inl rfl⟩
          · exact ⟨hinv, Or.inl rfl⟩

theorem Inv_initial (dep : Deployment) : Inv dep (initialWorld dep) := by
  refine ⟨rfl, ?_, ?_⟩
  · intro k d h
    simp [initialWorld, stateOf] at h
  · intro k d h
    simp [initialWorld, stateOf] at h

theorem Inv_later {dep : Deployment} (hd : dep.distinct) {w w' : World} (hinv : Inv dep w)
    (h : Later dep w w') : Inv dep w' := by
  induction h with
  | refl => exact hinv
  | step _ hstep ih => exact (Inv_step hd ih hstep).1

theorem Evaluated_later {dep : Deployment} (hd : dep.distinct) {w w' : World} (hinv : Inv dep w)
    (h : Later dep w w') {e a : String} (hev : Evaluated dep w e a) : Evaluated dep w' e a := by
  induction h with
  | refl => exact hev
  | step hl hstep ih =>
    obtain ⟨ev, hst, hin⟩ := ih
    obtain ⟨ev', hst', more, hmore⟩ := EvaluatorWrite_grow (Inv_step hd (Inv_later hd hinv hl) hstep).2 e ev hst
    exact ⟨ev', hst', by rw [hmore]; exact List.mem_append_left _ hin⟩

theorem demoDeployment_distinct : demoDeployment.distinct := by
  unfold Deployment.distinct demoDeployment
  decide

theorem namesStores_submitAnswer (dep : Deployment) (rest : List String) :
    namesStores dep "submitAnswer" (dep.questions :: dep.students :: rest) := by
  constructor
  · intro _ x y r h
    simp only [List.cons.injEq] at h
    exact ⟨h.1.symm, h.2.1.symm⟩
  · intro h
    exact absurd h (by decide)

theorem namesStores_thumbsUp (dep : Deployment) (rest : List String) :
    namesStores dep "thumbsUpToAnswer" (dep.questions :: dep.evaluators :: rest) := by
  constructor
  · intro h
    exact absurd h (by decide)
  · intro _ x y r h
    simp only [List.cons.injEq] at h
    exact ⟨h.1.symm, h.2.1.symm⟩

/-- The stages of the scenario are reachable worlds. -/
theorem scenarioBump_reachable (env : Env) (pw secret : String) :
    Reachable demoDeployment (scenarioBump env pw secret) :=
  Later.step (Later.step (Later.step (Later.step (Later.step (Later.step Later.refl
    (Step.students env _ "addAStudent" ["rust", "S1", pw]))
    (Step.questions env _ "submitQuestion" ["Q1", "cidQ", "S1", "rust", "1"]))
    (Step.answers env _ "submitAnswer" ["questions", "students", "A1", "cidA", "S1", "Q1"]
      (namesStores_submitAnswer demoDeployment _)))
    (Step.evaluators env _ "addAnEvaluator" ["rust", "E1", secret]))
    (Step.answers env _ "thumbsUpToAnswer" ["questions", "evaluators", "A1", "E1", secret]
      (namesStores_thumbsUp demoDeployment _)))
    (Step.evaluators env _ "bumpUpEvaluatorRepu" ["E1", "rust", "1000"])

theorem scenarioSecondThumbsUp_reachable (env : Env) (pw secret : String) :
    Reachable demoDeployment (scenarioSecondThumbsUp env pw secret).2 :=
  Later.step (scenarioBump_reachable env pw secret)
    (Step.answers env _ "thumbsUpToAnswer" ["questions", "evaluators", "A1", "E1", secret]
      (namesStores_thumbsUp demoDeployment _))

/-- C3. In every world reachable from empty stores by dispatched commands that
name the deployed stores, every stored answer record has a count equal to the
number of distinct evaluator ids in its `EvaluatedBy` list: equal as a Go
`int`, hence equal outright whenever that number is a Go `int`, as the length
of a Go slice always is. -/
theorem reachable_count_eq_card (dep : Deployment) (hd : dep.distinct) (w : World)
    (hr : Reachable dep w) (k : String) (ans : Answer)
    (hstored : JSONtoAns (GetState (w.ledger dep.answers) k) = .ok ans) :
    ans.AttainedEvaluatorThumbsUp = wrapInt (ans.EvaluatedBy.toFinset.card : Int) ∧
    ((ans.EvaluatedBy.toFinset.card : Int) ≤ maxInt →
      ans.AttainedEvaluatorThumbsUp = (ans.EvaluatedBy.toFinset.card : Int)) := by
  have hinv : Inv dep w := Inv_later hd (Inv_initial dep) hr
  obtain ⟨-, hcount, hnodup, -⟩ := AnswersWF_decode hinv.answers_wf hstored
  rw [List.toFinset_card_of_nodup hnodup]
  refine ⟨hcount, fun hle => ?_⟩
  rw [hcount]
  apply wrapInt_of_fits
  · unfold minInt
    omega
  · exact hle

/-- Witness of C3: answer `A1` at the end of the scenario, endorsed once. -/
theorem reachable_count_eq_card_witness :
    demoEndorsedAnswer.AttainedEvaluatorThumbsUp =
      (demoEndorsedAnswer.EvaluatedBy.toFinset.card : Int) :=
  (reachable_count_eq_card demoDeployment demoDeployment_distinct
    (scenarioSecondThumbsUp demoEnv "pw" "secret").2
    (scenarioSecondThumbsUp_reachable demoEnv "pw" "secret") "A1" demoEndorsedAnswer
    (by rfl)).2 (by decide)

/-- C2. From a reachable world, once `thumbsUpToAnswer` has succeeded for answer `a` and evaluator
`e`, every later `thumbsUpToAnswer` for the same pair against the same stores, after any
dispatched commands and with any secret, does not succeed and leaves the world
as it was before that call: the stored answer, with its count and its
`EvaluatedBy`, is not touched, and with no command in between it is the record
left by the first call. -/
theorem thumbsUp_not_twice (dep : Deployment) (hd : dep.distinct) (env : Env) (w0 : World)
    (a e secret : String) (hr : Reachable dep w0)
    (hfirst : (Answers.thumbsUpToAnswer env w0 dep.answers
      [dep.questions, dep.evaluators, a, e, secret]).1.succeeded = true)
    (w2 : World)
    (hlater : Later dep (Answers.thumbsUpToAnswer env w0 dep.answers
      [dep.questions, dep.evaluators, a, e, secret]).2 w2)
    (env' : Env) (secret' : String) :
    (Answers.thumbsUpToAnswer env' w2 dep.answers
      [dep.questions, dep.evaluators, a, e, secret']).1.succeeded = false ∧
    (Answers.thumbsUpToAnswer env' w2 dep.answers
      [dep.questions, dep.evaluators, a, e, secret']).2 = w2 ∧
    GetState ((Answers.thumbsUpToAnswer env' w2 dep.answers
      [dep.questions, dep.evaluators, a, e, secret']).2.ledger dep.answers) a =
      GetState (w2.ledger dep.answers) a := by
  have hinv0 : Inv dep w0 := Inv_later hd (Inv_initial dep) hr
  have hnames := namesStores_thumbsUp dep [a, e, secret]
  have hinv1 := (thumbsUp_preserves dep hd env w0 _ hinv0 hnames).1
  have hev1 : Evaluated dep (Answers.thumbsUpToAnswer env w0 dep.answers
      [dep.questions, dep.evaluators, a, e, secret]).2 e a := by
    rcases thumbsUp_cases env w0 dep.answers [dep.questions, dep.evaluators, a, e, secret] with
      ⟨hf, -⟩ | ⟨qcc, ecc, a', e', s', dat, q, ev, hargs, -, -, -, -, -, hev, -, -, -, -, hres⟩
    · rw [hf] at hfirst
      exact absurd hfirst (by simp)
    · simp only [List.cons.injEq, and_true] at hargs
      obtain ⟨rfl, rfl, rfl, rfl, rfl⟩ := hargs
      obtain ⟨-, hid⟩ := EvaluatorsWF_decode hinv0.evaluators_wf hev
      refine ⟨withEvaluated ev a, ?_, by simp [withEvaluated]⟩
      rw [hres]
      simp [World.setLedger_ledger, hd.2.2.2.2.2, hid, stateOf_writeKey_self]
  have hinv2 := Inv_later hd hinv1 hlater
  obtain ⟨ev2, hst2, hin2⟩ := Evaluated_later hd hinv1 hlater hev1
  rcases thumbsUp_cases env' w2 dep.answers [dep.questions, dep.evaluators, a, e, secret'] with
    ⟨hf, hw⟩ | ⟨qcc, ecc, a', e', s', dat, q, ev, hargs, -, -, -, -, -, hev, -, -, hcon, -, -⟩
  · exact ⟨hf, hw, by rw [hw]⟩
  · simp only [List.cons.injEq, and_true] at hargs
    obtain ⟨rfl, rfl, rfl, rfl, rfl⟩ := hargs
    obtain ⟨hst, -⟩ := EvaluatorsWF_decode hinv2.evaluators_wf hev
    rw [hst2] at hst
    simp only [Option.some.injEq] at hst
    have := EvaltoJSON_injective hst
    subst this
    exact absurd hin2 ((contains_eq_false _ _).mp hcon)

/-- Witness of C2: in the scenario, `E1` endorses `A1` a second time right after
the first endorsement. -/
theorem thumbsUp_not_twice_witness :
    (Answers.thumbsUpToAnswer demoEnv (scenarioSecondThumbsUp demoEnv "pw" "secret").2 "answers"
      ["questions", "evaluators", "A1", "E1", "secret"]).1.succeeded = false :=
  (thumbsUp_not_twice demoDeployment demoDeployment_distinct demoEnv
    (scenarioBump demoEnv "pw" "secret") "A1" "E1" "secret"
    (scenarioBump_reachable demoEnv "pw" "secret") (by rfl)
    (scenarioSecondThumbsUp demoEnv "pw" "secret").2 Later.refl demoEnv "secret").1

/-! ## The submission workflow: effect and existence check -/

/-- C11. When `submitAnswer` succeeds, the Answer store maps `id` to a record with the given
id, content reference, author and question, no endorser and count 0; the
Student store maps the author to the previous record with the question
appended to `AnsweredQuestions`; and no other key of the Answer, Student or
Question store changes. -/
theorem submitAnswer_success_effect (env : Env) (w : World)
    (self qcc scc id cid author qid : String)
    (hself : w.kind self = some Kind.answers)
    (hsucc : (Answers.submitAnswer env w self
      [qcc, scc, id, cid, author, qid]).1.succeeded = true) :
    ∃ (ans : Answer) (st : Student),
      stateOf ((Answers.submitAnswer env w self
        [qcc, scc, id, cid, author, qid]).2.ledger self) id = some (AnsToJSON ans) ∧
      ans.AnswerHashID = id ∧ ans.AnswerCID = cid ∧ ans.AnsweredBy = author ∧
      ans.QuestionID = qid ∧ ans.EvaluatedBy = [] ∧ ans.AttainedEvaluatorThumbsUp = 0 ∧
      JSONtoStu (GetState (w.ledger scc) author) = .ok st ∧
      stateOf ((Answers.submitAnswer env w self
        [qcc, scc, id, cid, author, qid]).2.ledger scc) author =
        some (StuToJSON { st with AnsweredQuestions := st.AnsweredQuestions ++ [qid] }) ∧
      (∀ k, k ≠ id →
        stateOf ((Answers.submitAnswer env w self
          [qcc, scc, id, cid, author, qid]).2.ledger self) k = stateOf (w.ledger self) k) ∧
      (∀ k, k ≠ author →
        stateOf ((Answers.submitAnswer env w self
          [qcc, scc, id, cid, author, qid]).2.ledger scc) k = stateOf (w.ledger scc) k) ∧
      (Answers.submitAnswer env w self
        [qcc, scc, id, cid, author, qid]).2.ledger qcc = w.ledger qcc := by
  rcases submitAnswer_cases env w self [qcc, scc, id, cid, author, qid] with ⟨hf, -⟩ |
    ⟨qcc', scc', id', cid', author', qid', q, st, hargs, -, hq, hs, -, -, hst, -, hres⟩
  · rw [hf] at hsucc
    exact absurd hsucc (by simp)
  · simp only [List.cons.injEq, and_true] at hargs
    obtain ⟨rfl, rfl, rfl, rfl, rfl, rfl⟩ := hargs
    have hne : self ≠ scc := by
      intro h
      rw [h, hs] at hself
      simp at hself
    have hne' : scc ≠ self := fun h => hne h.symm
    have hqs : qcc ≠ scc := by
      intro h
      rw [h, hs] at hq
      simp at hq
    have hqa : qcc ≠ self := by
      intro h
      rw [h, hself] at hq
      simp at hq
    refine ⟨⟨id, cid, author, qid, [], 0, env.now⟩, st, ?_, rfl, rfl, rfl, rfl, rfl, rfl, hst,
      ?_, ?_, ?_, ?_⟩
    · rw [hres]
      simp [World.setLedger_ledger, stateOf_writeKey_self]
    · rw [hres]
      simp [World.setLedger_ledger, hne', stateOf_writeKey_self, withAnswered]
    · intro k hk
      rw [hres]
      simp [World.setLedger_ledger, hne, stateOf_writeKey_ne _ _ _ _ hk]
    · intro k hk
      rw [hres]
      simp [World.setLedger_ledger, hne', stateOf_writeKey_ne _ _ _ _ hk]
    · rw [hres]
      simp [World.setLedger_ledger, hqs, hqa]

/-- Witness of C11: the submission of `A1` by `S1` in the scenario. -/
theorem submitAnswer_success_effect_witness :
    ∃ (ans : Answer) (st : Student),
      stateOf ((Answers.submitAnswer demoEnv (scenarioQuestion demoEnv "pw") "answers"
        ["questions", "students", "A1", "cidA", "S1", "Q1"]).2.ledger "answers") "A1"
        = some (AnsToJSON ans) ∧
      ans.EvaluatedBy = [] ∧ ans.AttainedEvaluatorThumbsUp = 0 ∧
      stateOf ((Answers.submitAnswer demoEnv (scenarioQuestion demoEnv "pw") "answers"
        ["questions", "students", "A1", "cidA", "S1", "Q1"]).2.ledger "students") "S1" =
        some (StuToJSON { st with AnsweredQuestions := st.AnsweredQuestions ++ ["Q1"] }) := by
  obtain ⟨ans, st, h1, -, -, -, -, h2, h3, -, h4, -⟩ :=
    submitAnswer_success_effect demoEnv (scenarioQuestion demoEnv "pw") "answers" "questions"
      "students" "A1" "cidA" "S1" "Q1" (by decide) (by rfl)
  exact ⟨ans, st, h1, h2, h3, h4⟩

/-- C12. In a state where the Answer store already holds a record under `id`
and the referenced question is stored in the named Question chaincode, `submitAnswer`
with that id returns the already-exists error and leaves the whole world as it
was: the existing answer record and the Student store are not modified. -/
theorem submitAnswer_existing_id_rejected (env : Env) (w : World)
    (self qcc scc id cid author qid : String) (q : Question) (d : Doc)
    (hargs : sanitize_arguments [qcc, scc, id, cid, author, qid] = none)
    (hq : w.kind qcc = some Kind.questions)
    (hques : JSONtoQues (GetState (w.ledger qcc) qid) = .ok q)
    (hheld : stateOf (w.ledger self) id = some d) :
    (Answers.submitAnswer env w self [qcc, scc, id, cid, author, qid]).1 =
      Outcome.returned (shim.Error ("This answer already exists - " ++ id)) ∧
    (Answers.submitAnswer env w self [qcc, scc, id, cid, author, qid]).2 = w ∧
    stateOf ((Answers.submitAnswer env w self [qcc, scc, id, cid, author, qid]).2.ledger self) id
      = some d ∧
    (Answers.submitAnswer env w self [qcc, scc, id, cid, author, qid]).2.ledger scc
      = w.ledger scc := by
  have hg : GetState (w.ledger self) id ≠ Bytes.nil := by
    rw [(GetState_eq_json _ _ _).mpr hheld]
    simp
  rw [submitAnswer_eval env w self qcc scc id cid author qid q hargs hq hques]
  simp only [hg, ne_eq, not_false_eq_true, if_true]
  exact ⟨trivial, trivial, hheld, trivial⟩

/-- Witness of C12: a second answer submitted under the id `A1`. -/
theorem submitAnswer_existing_id_rejected_witness :
    (Answers.submitAnswer demoEnv (demoWorld 10) "answers"
      ["questions", "students", "A1", "other", "S2", "Q1"]).1 =
      Outcome.returned (shim.Error ("This answer already exists - " ++ "A1")) ∧
    stateOf ((Answers.submitAnswer demoEnv (demoWorld 10) "answers"
      ["questions", "students", "A1", "other", "S2", "Q1"]).2.ledger "answers") "A1"
      = some (AnsToJSON demoAnswer) :=
  have h := submitAnswer_existing_id_rejected demoEnv (demoWorld 10) "answers" "questions"
    "students" "A1" "other" "S2" "Q1" demoQuestion (AnsToJSON demoAnswer) (by decide)
    (by decide) (by rfl) (by rfl)
  ⟨h.1, h.2.2.1⟩

/-! ## The leaf stores: creation, lookup, reputation -/

/-- C13. For each of `submitQuestion`, `addAStudent` and `addAnEvaluator`: when the store already holds a
record under the given id, the call with the right number of non-empty
arguments returns the already-exists error and leaves the ledger, hence the
original record, as it was. -/
theorem create_existing_id_rejected :
    (∀ (env : Env) (l : Ledger) (id cid author tech required : String) (d : Doc),
      sanitize_arguments [id, cid, author, tech, required] = none →
      stateOf l id = some d →
      Questions.submitQuestion env l [id, cid, author, tech, required] =
        (shim.Error ("This question already exists - " ++ id), l)) ∧
    (∀ (env : Env) (l : Ledger) (tech id secret : String) (d : Doc),
      sanitize_arguments [tech, id, secret] = none →
      stateOf l id = some d →
      Students.addAStudent env l [tech, id, secret] =
        (shim.Error ("This student already exists - " ++ id), l)) ∧
    (∀ (env : Env) (l : Ledger) (tech id secret : String) (d : Doc),
      sanitize_arguments [tech, id, secret] = none →
      stateOf l id = some d →
      Evaluators.addAnEvaluator env l [tech, id, secret] =
        (shim.Error ("This evaluator already exists - " ++ id), l)) := by
  refine ⟨?_, ?_, ?_⟩
  · intro env l id cid author tech required d hs hd
    have hg := (GetState_eq_json _ _ _).mpr hd
    simp [Questions.submitQuestion, hs, hg]
  · intro env l tech id secret d hs hd
    have hg := (GetState_eq_json _ _ _).mpr hd
    simp [Students.addAStudent, hs, hg]
  · intro env l tech id secret d hs hd
    have hg := (GetState_eq_json _ _ _).mpr hd
    simp [Evaluators.addAnEvaluator, hs, hg]

/-- Witness of C13: the three creations repeated on the ledgers of the worked
examples and of the scenario. -/
theorem create_existing_id_rejected_witness :
    (Questions.submitQuestion demoEnv ((demoWorld 10).ledger "questions")
      ["Q1", "cid2", "S2", "go", "3"]).2 = (demoWorld 10).ledger "questions" ∧
    (Students.addAStudent demoEnv ((scenarioStudent demoEnv "pw").ledger "students")
      ["go", "S1", "pw2"]).2 = (scenarioStudent demoEnv "pw").ledger "students" ∧
    (Evaluators.addAnEvaluator demoEnv ((demoWorld 10).ledger "evaluators")
      ["go", "E1", "secret2"]).1 = shim.Error ("This evaluator already exists - " ++ "E1") := by
  obtain ⟨h1, h2, h3⟩ := create_existing_id_rejected
  refine ⟨?_, ?_, ?_⟩
  · rw [h1 demoEnv _ "Q1" "cid2" "S2" "go" "3" (QuestoJSON demoQuestion) (by decide) (by rfl)]
  · rw [h2 demoEnv _ "go" "S1" "pw2"
      (StuToJSON ⟨"S1", "$2a$14$pw", [⟨"rust", 10, "20240101000000"⟩], [], "20240101000000"⟩)
      (by decide) (by rfl)]
  · rw [h3 demoEnv _ "go" "E1" "secret2" (EvaltoJSON (demoEvaluator 10)) (by decide) (by rfl)]


/-- C15. The handlers `getQuestionById` and `getEvaluatorById` called with an id return success with
exactly the bytes stored under the id when a record is stored there, return an
error response when none is, and in both cases leave the ledger as it was. -/
theorem getById_returns_stored (l : Ledger) (id : String) :
    (∀ d, stateOf l id = some d →
      Questions.getQuestionById l [id] = (shim.Success (Bytes.json d), l) ∧
      Evaluators.getEvaluatorById l [id] = (shim.Success (Bytes.json d), l)) ∧
    (stateOf l id = none →
      (Questions.getQuestionById l [id]).1.Status = shim.ERROR ∧
      (Questions.getQuestionById l [id]).2 = l ∧
      (Evaluators.getEvaluatorById l [id]).1.Status = shim.ERROR ∧
      (Evaluators.getEvaluatorById l [id]).2 = l) := by
  constructor
  · intro d hd
    have hg := (GetState_eq_json _ _ _).mpr hd
    simp [Questions.getQuestionById, Evaluators.getEvaluatorById, hg]
  · intro hn
    have hg := (GetState_eq_nil _ _).mpr hn
    simp [Questions.getQuestionById, Evaluators.getEvaluatorById, hg, shim.Error]

/-- Witness of C15: `Q1` is returned as stored, `Q9` is not found. -/
theorem getById_returns_stored_witness :
    Questions.getQuestionById ((demoWorld 10).ledger "questions") ["Q1"] =
      (shim.Success (Bytes.json (QuestoJSON demoQuestion)), (demoWorld 10).ledger "questions") ∧
    (Questions.getQuestionById ((demoWorld 10).ledger "questions") ["Q9"]).1.Status
      = shim.ERROR :=
  ⟨((getById_returns_stored ((demoWorld 10).ledger "questions") "Q1").1
      (QuestoJSON demoQuestion) (by rfl)).1,
   ((getById_returns_stored ((demoWorld 10).ledger "questions") "Q9").2 (by rfl)).1⟩

theorem addAStudent_eval (env : Env) (l : Ledger) (tech id secret : String)
    (hs : sanitize_arguments [tech, id, secret] = none) (hfree : stateOf l id = none) :
    Students.addAStudent env l [tech, id, secret] =
      match HashPassword env secret with
      | .ok h =>
        (shim.Success Bytes.nil,
          writeKey l id (StuToJSON ⟨id, h, [⟨tech, 10, env.now⟩], [], env.now⟩))
      | .error _ =>
        (shim.Error ("initStudent() : Failed Cannot create object buffer for write : " ++ tech),
          l) := by
  have hne := (sanitize_eq_none _).mp hs
  have hid : id ≠ "" := hne id (by simp)
  have hg := (GetState_eq_nil _ _).mpr hfree
  cases hh : HashPassword env secret <;>
    simp [Students.addAStudent, hs, hg, Students.CreateStudentObject,
      Students.CreateStudentTechRepuObject, hh, PutState, hid]

theorem addAnEvaluator_eval (env : Env) (l : Ledger) (tech id secret : String)
    (hs : sanitize_arguments [tech, id, secret] = none) (hfree : stateOf l id = none) :
    Evaluators.addAnEvaluator env l [tech, id, secret] =
      match HashPassword env secret with
      | .ok h =>
        (shim.Success Bytes.nil,
          writeKey l id (EvaltoJSON ⟨id, h, [], [⟨tech, 10, env.now⟩], env.now⟩))
      | .error _ =>
        (shim.Error ("initEvaluator() : Failed Cannot create object buffer for write : "
          ++ tech), l) := by
  have hne := (sanitize_eq_none _).mp hs
  have hid : id ≠ "" := hne id (by simp)
  have hg := (GetState_eq_nil _ _).mpr hfree
  cases hh : HashPassword env secret <;>
    simp [Evaluators.addAnEvaluator, hs, hg, Evaluators.CreateEvaluatorObject,
      Evaluators.CreateEvaluatorTechRepuObject, hh, PutState, hid]

/-- C16. When `id` is absent, `addAStudent` (respectively `addAnEvaluator`) with three non-empty
arguments whose secret hashes to `h` succeeds and stores under `id` a record
with id field `id`, exactly one reputation entry, for the initial tech area
with 10 points, and an empty `AnsweredQuestions` (respectively `EvaluatedAnswers`)
list; no other key changes. -/
theorem register_creates (env : Env) (l : Ledger) (tech id secret h : String)
    (hs : sanitize_arguments [tech, id, secret] = none) (hfree : stateOf l id = none)
    (hh : HashPassword env secret = .ok h) :
    ((Students.addAStudent env l [tech, id, secret]).1 = shim.Success Bytes.nil ∧
      stateOf (Students.addAStudent env l [tech, id, secret]).2 id =
        some (StuToJSON ⟨id, h, [⟨tech, 10, env.now⟩], [], env.now⟩) ∧
      ∀ k, k ≠ id → stateOf (Students.addAStudent env l [tech, id, secret]).2 k = stateOf l k) ∧
    ((Evaluators.addAnEvaluator env l [tech, id, secret]).1 = shim.Success Bytes.nil ∧
      stateOf (Evaluators.addAnEvaluator env l [tech, id, secret]).2 id =
        some (EvaltoJSON ⟨id, h, [], [⟨tech, 10, env.now⟩], env.now⟩) ∧
      ∀ k, k ≠ id →
        stateOf (Evaluators.addAnEvaluator env l [tech, id, secret]).2 k = stateOf l k) := by
  rw [addAStudent_eval env l tech id secret hs hfree,
    addAnEvaluator_eval env l tech id secret hs hfree, hh]
  exact ⟨⟨rfl, stateOf_writeKey_self _ _ _, fun k hk => stateOf_writeKey_ne _ _ _ _ hk⟩,
    ⟨rfl, stateOf_writeKey_self _ _ _, fun k hk => stateOf_writeKey_ne _ _ _ _ hk⟩⟩

/-- Witness of C16: student `S2` and evaluator `E2` registered on the ledgers
of the worked examples. -/
theorem register_creates_witness :
    stateOf (Students.addAStudent demoEnv ((demoWorld 10).ledger "students")
      ["go", "S2", "pw2"]).2 "S2" =
      some (StuToJSON ⟨"S2", "$2a$14$pw2", [⟨"go", 10, "20240101000000"⟩], [],
        "20240101000000"⟩) ∧
    stateOf (Evaluators.addAnEvaluator demoEnv ((demoWorld 10).ledger "evaluators")
      ["go", "E2", "secret2"]).2 "E2" =
      some (EvaltoJSON ⟨"E2", "$2a$14$secret2", [], [⟨"go", 10, "20240101000000"⟩],
        "20240101000000"⟩) :=
  ⟨(register_creates demoEnv ((demoWorld 10).ledger "students") "go" "S2" "pw2" "$2a$14$pw2"
      (by decide) (by rfl) (by rfl)).1.2.1,
   (register_creates demoEnv ((demoWorld 10).ledger "evaluators") "go" "E2" "secret2"
      "$2a$14$secret2" (by decide) (by rfl) (by rfl)).2.2.1⟩


theorem addAStudent_cases (env : Env) (l : Ledger) (args : List String) :
    ((Students.addAStudent env l args).1.Status = shim.ERROR ∧
      (Students.addAStudent env l args).2 = l) ∨
    (∃ tech id secret h, args = [tech, id, secret] ∧ stateOf l id = none ∧
      HashPassword env secret = .ok h ∧
      Students.addAStudent env l args = (shim.Success Bytes.nil,
        writeKey l id (StuToJSON ⟨id, h, [⟨tech, 10, env.now⟩], [], env.now⟩))) := by
  by_cases hshape : ∃ tech id secret, args = [tech, id, secret]
  · obtain ⟨tech, id, secret, rfl⟩ := hshape
    cases hs : sanitize_arguments [tech, id, secret] with
    | some err =>
      left
      simp [Students.addAStudent, hs, shim.Error]
    | none =>
      cases hst : stateOf l id with
      | some d =>
        left
        have hg := (GetState_eq_json _ _ _).mpr hst
        simp [Students.addAStudent, hs, hg, shim.Error]
      | none =>
        rw [addAStudent_eval env l tech id secret hs hst]
        cases hh : HashPassword env secret with
        | error e =>
          left
          simp [shim.Error]
        | ok h =>
          right
          exact ⟨tech, id, secret, h, rfl, hst, hh, rfl⟩
  · left
    unfold Students.addAStudent
    split
    · rename_i tech id secret
      exact absurd ⟨tech, id, secret, rfl⟩ hshape
    · simp [shim.Error]

theorem addAnEvaluator_cases (env : Env) (l : Ledger) (args : List String) :
    ((Evaluators.addAnEvaluator env l args).1.Status = shim.ERROR ∧
      (Evaluators.addAnEvaluator env l args).2 = l) ∨
    (∃ tech id secret h, args = [tech, id, secret] ∧ stateOf l id = none ∧
      HashPassword env secret = .ok h ∧
      Evaluators.addAnEvaluator env l args = (shim.Success Bytes.nil,
        writeKey l id (EvaltoJSON ⟨id, h, [], [⟨tech, 10, env.now⟩], env.now⟩))) := by
  by_cases hshape : ∃ tech id secret, args = [tech, id, secret]
  · obtain ⟨tech, id, secret, rfl⟩ := hshape
    cases hs : sanitize_arguments [tech, id, secret] with
    | some err =>
      left
      simp [Evaluators.addAnEvaluator, hs, shim.Error]
    | none =>
      cases hst : stateOf l id with
      | some d =>
        left
        have hg := (GetState_eq_json _ _ _).mpr hst
        simp [Evaluators.addAnEvaluator, hs, hg, shim.Error]
      | none =>
        rw [addAnEvaluator_eval env l tech id secret hs hst]
        cases hh : HashPassword env secret with
        | error e =>
          left
          simp [shim.Error]
        | ok h =>
          right
          exact ⟨tech, id, secret, h, rfl, hst, hh, rfl⟩
  · left
    unfold Evaluators.addAnEvaluator
    split
    · rename_i tech id secret
      exact absurd ⟨tech, id, secret, rfl⟩ hshape
    · simp [shim.Error]

/-- C17. Every successful `addAStudent` or `addAnEvaluator` call has three arguments and stores under
the id a record whose secret field is the output of `HashPassword` on the raw
secret (so it is not the raw secret whenever the hash is not); and whenever
`HashPassword` fails, the call returns an error and the ledger is as it was. -/
theorem register_persists_hash (env : Env) (l : Ledger) :
    (∀ args, (Students.addAStudent env l args).1.Status = shim.OK →
      ∃ tech id secret h st, args = [tech, id, secret] ∧ HashPassword env secret = .ok h ∧
        stateOf (Students.addAStudent env l args).2 id = some (StuToJSON st) ∧
        st.StudentSecret = h ∧ (h ≠ secret → st.StudentSecret ≠ secret)) ∧
    (∀ args, (Evaluators.addAnEvaluator env l args).1.Status = shim.OK →
      ∃ tech id secret h ev, args = [tech, id, secret] ∧ HashPassword env secret = .ok h ∧
        stateOf (Evaluators.addAnEvaluator env l args).2 id = some (EvaltoJSON ev) ∧
        ev.EvaluatorSecret = h ∧ (h ≠ secret → ev.EvaluatorSecret ≠ secret)) ∧
    (∀ tech id secret e, HashPassword env secret = .error e →
      (Students.addAStudent env l [tech, id, secret]).1.Status = shim.ERROR ∧
      (Students.addAStudent env l [tech, id, secret]).2 = l ∧
      (Evaluators.addAnEvaluator env l [tech, id, secret]).1.Status = shim.ERROR ∧
      (Evaluators.addAnEvaluator env l [tech, id, secret]).2 = l) := by
  have hne : shim.ERROR ≠ shim.OK := by decide
  refine ⟨?_, ?_, ?_⟩
  · intro args hok
    rcases addAStudent_cases env l args with ⟨hf, -⟩ | ⟨tech, id, secret, h, ha, -, hh, hres⟩
    · rw [hf] at hok
      exact absurd hok hne
    · refine ⟨tech, id, secret, h, ⟨id, h, [⟨tech, 10, env.now⟩], [], env.now⟩, ha, hh, ?_, rfl,
        fun hd => hd⟩
      rw [hres]
      exact stateOf_writeKey_self _ _ _
  · intro args hok
    rcases addAnEvaluator_cases env l args with ⟨hf, -⟩ | ⟨tech, id, secret, h, ha, -, hh, hres⟩
    · rw [hf] at hok
      exact absurd hok hne
    · refine ⟨tech, id, secret, h, ⟨id, h, [], [⟨tech, 10, env.now⟩], env.now⟩, ha, hh, ?_, rfl,
        fun hd => hd⟩
      rw [hres]
      exact stateOf_writeKey_self _ _ _
  · intro tech id secret e he
    have h1 : (Students.addAStudent env l [tech, id, secret]).1.Status = shim.ERROR ∧
        (Students.addAStudent env l [tech, id, secret]).2 = l := by
      rcases addAStudent_cases env l [tech, id, secret] with hf |
        ⟨tech', id', secret', h, ha, -, hh, -⟩
      · exact hf
      · simp only [List.cons.injEq, and_true] at ha
        obtain ⟨rfl, rfl, rfl⟩ := ha
        rw [he] at hh
        simp at hh
    have h2 : (Evaluators.addAnEvaluator env l [tech, id, secret]).1.Status = shim.ERROR ∧
        (Evaluators.addAnEvaluator env l [tech, id, secret]).2 = l := by
      rcases addAnEvaluator_cases env l [tech, id, secret] with hf |
        ⟨tech', id', secret', h, ha, -, hh, -⟩
      · exact hf
      · simp only [List.cons.injEq, and_true] at ha
        obtain ⟨rfl, rfl, rfl⟩ := ha
        rw [he] at hh
        simp at hh
    exact ⟨h1.1, h1.2, h2.1, h2.2⟩

/-- Witness of C17: under the toy hash the stored secret of `S2` is the hash of
"pw2"; under a failing hash the registration of `E2` fails and stores
nothing. -/
theorem register_persists_hash_witness :
    (∃ st : Student, stateOf (Students.addAStudent demoEnv ((demoWorld 10).ledger "students")
        ["go", "S2", "pw2"]).2 "S2" = some (StuToJSON st) ∧
      st.StudentSecret = "$2a$14$pw2" ∧ st.StudentSecret ≠ "pw2") ∧
    (Evaluators.addAnEvaluator failingEnv ((demoWorld 10).ledger "evaluators")
      ["go", "E2", "secret2"]).2 = (demoWorld 10).ledger "evaluators" := by
  obtain ⟨h1, -, h3⟩ := register_persists_hash demoEnv ((demoWorld 10).ledger "students")
  obtain ⟨-, -, hfail⟩ := register_persists_hash failingEnv ((demoWorld 10).ledger "evaluators")
  obtain ⟨tech, id, secret, h, st, ha, hh, hst, hsec, hne⟩ := h1 ["go", "S2", "pw2"] (by rfl)
  simp only [List.cons.injEq, and_true] at ha
  obtain ⟨rfl, rfl, rfl⟩ := ha
  have hv : h = "$2a$14$pw2" := by
    have : HashPassword demoEnv "pw2" = .ok "$2a$14$pw2" := by rfl
    rw [this] at hh
    simpa using hh.symm
  subst hv
  exact ⟨⟨st, hst, hsec, hne (by decide)⟩,
    (hfail "go" "E2" "secret2" "bcrypt: hashing failed" (by rfl)).2.2.2⟩

theorem bumpFirst_eq_none (tech : String) (amount : Int) (repus : List TechRepu) :
    bumpFirst tech amount repus = none ↔ ∀ t ∈ repus, t.UniqueTechName ≠ tech := by
  induction repus with
  | nil => simp [bumpFirst]
  | cons t rest ih =>
    by_cases h : t.UniqueTechName = tech
    · simp [bumpFirst, h]
    · cases hb : bumpFirst tech amount rest with
      | none =>
        have := ih.mp hb
        simp only [bumpFirst, h, if_false, hb, List.mem_cons, forall_eq_or_imp, true_iff]
        exact ⟨h, this⟩
      | some r =>
        have hne : ¬ ∀ u ∈ rest, u.UniqueTechName ≠ tech := fun hall => by
          rw [ih.mpr hall] at hb
          simp at hb
        simp only [bumpFirst, h, if_false, hb, List.mem_cons, forall_eq_or_imp]
        simp only [false_iff, reduceCtorEq, not_and]
        intro _
        exact hne

theorem bumpFirst_split (tech : String) (amount : Int) (pre : List TechRepu) (t : TechRepu)
    (post : List TechRepu) (hpre : ∀ u ∈ pre, u.UniqueTechName ≠ tech)
    (ht : t.UniqueTechName = tech) :
    bumpFirst tech amount (pre ++ t :: post) =
      some (pre ++ { t with AttainedRepu := wrapInt (t.AttainedRepu + amount) } :: post) := by
  induction pre with
  | nil => simp [bumpFirst, ht]
  | cons u rest ih =>
    have hu : ¬ u.UniqueTechName = tech := hpre u (by simp)
    have ih' := ih (fun v hv => hpre v (by simp [hv]))
    simp [bumpFirst, hu, ih']

/-- A successful scan bumps exactly one entry: the list splits at the first
entry named `tech`. -/
theorem bumpFirst_some (tech : String) (amount : Int) (repus new : List TechRepu)
    (h : bumpFirst tech amount repus = some new) :
    ∃ pre t post, repus = pre ++ t :: post ∧ (∀ u ∈ pre, u.UniqueTechName ≠ tech) ∧
      t.UniqueTechName = tech ∧
      new = pre ++ { t with AttainedRepu := wrapInt (t.AttainedRepu + amount) } :: post := by
  induction repus generalizing new with
  | nil => simp [bumpFirst] at h
  | cons t rest ih =>
    by_cases ht : t.UniqueTechName = tech
    · simp only [bumpFirst, ht, if_true, Option.some.injEq] at h
      subst h
      exact ⟨[], t, rest, rfl, by simp, ht, by simp [ht]⟩
    · cases hb : bumpFirst tech amount rest with
      | none => simp [bumpFirst, ht, hb] at h
      | some r =>
        simp only [bumpFirst, ht, if_false, hb, Option.some.injEq] at h
        obtain ⟨pre, u, post, h1, h2, h3, h4⟩ := ih r hb
        refine ⟨t :: pre, u, post, by simp [h1], ?_, h3, by simp [← h, h4]⟩
        intro v hv
        simp only [List.mem_cons] at hv
        rcases hv with rfl | hv
        · exact ht
        · exact h2 v hv

theorem bumpUpStudentRepu_eval (l : Ledger) (id tech : String) (st : Student)
    (hs : sanitize_arguments [id, tech] = none) (hst : JSONtoStu (GetState l id) = .ok st) :
    Students.bumpUpStudentRepu l [id, tech] =
      match bumpFirst tech 10 st.StudentTechRepus with
      | none => (shim.Error ("tech repu not found for student " ++ id), l)
      | some repus =>
        if st.StudentID = "" then (shim.Error "key must not be an empty string", l)
        else (shim.Success Bytes.nil, writeKey l st.StudentID (StuToJSON
          ⟨st.StudentID, st.StudentSecret, repus, st.AnsweredQuestions, st.CreatedON⟩)) := by
  unfold Students.bumpUpStudentRepu
  simp only [hs, hst]
  cases bumpFirst tech 10 st.StudentTechRepus with
  | none => rfl
  | some repus =>
    by_cases hid : st.StudentID = ""
    · simp [PutState, hid]
    · simp [PutState, hid]

theorem bumpUpEvaluatorRepu_eval (l : Ledger) (id tech amount : String) (ev : Evaluator)
    (hs : sanitize_arguments [id, tech, amount] = none)
    (hev : JSONtoEval (GetState l id) = .ok ev) :
    Evaluators.bumpUpEvaluatorRepu l [id, tech, amount] =
      match bumpFirst tech (Atoi amount).1 ev.EvaluatorTechRepus with
      | none => (shim.Error ("tech repu not found for evaluator " ++ id), l)
      | some repus =>
        if ev.EvaluatorID = "" then (shim.Error "key must not be an empty string", l)
        else (shim.Success Bytes.nil, writeKey l ev.EvaluatorID (EvaltoJSON
          ⟨ev.EvaluatorID, ev.EvaluatorSecret, ev.EvaluatedAnswers, repus, ev.CreatedON⟩)) := by
  unfold Evaluators.bumpUpEvaluatorRepu
  simp only [hs, hev]
  cases bumpFirst tech (Atoi amount).1 ev.EvaluatorTechRepus with
  | none => rfl
  | some repus =>
    by_cases hid : ev.EvaluatorID = ""
    · simp [PutState, hid]
    · simp [PutState, hid]

/-- C18. For a student record stored under its id and a non-empty tech area:
if no reputation entry has that tech name, `bumpUpStudentRepu` returns an error and the ledger
is as it was; otherwise it succeeds, the first entry with that name gains
exactly 10 points (its points being a Go `int` with room for 10), and every
other entry, every other field and every other key is unchanged. -/
theorem bumpUpStudentRepu_effect (l : Ledger) (id tech : String) (st : Student)
    (hs : sanitize_arguments [id, tech] = none)
    (hst : JSONtoStu (GetState l id) = .ok st) (hid : st.StudentID = id) :
    ((∀ t ∈ st.StudentTechRepus, t.UniqueTechName ≠ tech) →
      (Students.bumpUpStudentRepu l [id, tech]).1.Status = shim.ERROR ∧
      (Students.bumpUpStudentRepu l [id, tech]).2 = l) ∧
    (∀ pre t post, st.StudentTechRepus = pre ++ t :: post →
      (∀ u ∈ pre, u.UniqueTechName ≠ tech) → t.UniqueTechName = tech →
      minInt ≤ t.AttainedRepu ∧ t.AttainedRepu + 10 ≤ maxInt →
      (Students.bumpUpStudentRepu l [id, tech]).1 = shim.Success Bytes.nil ∧
      stateOf (Students.bumpUpStudentRepu l [id, tech]).2 id = some (StuToJSON { st with
        StudentTechRepus := pre ++ { t with AttainedRepu := t.AttainedRepu + 10 } :: post }) ∧
      ∀ k, k ≠ id → stateOf (Students.bumpUpStudentRepu l [id, tech]).2 k = stateOf l k) := by
  have hne := (sanitize_eq_none _).mp hs
  rw [bumpUpStudentRepu_eval l id tech st hs hst]
  constructor
  · intro hnone
    rw [(bumpFirst_eq_none tech 10 _).mpr hnone]
    exact ⟨rfl, rfl⟩
  · intro pre t post hsplit hpre ht hfit
    rw [hsplit, bumpFirst_split tech 10 pre t post hpre ht]
    have hw : wrapInt (t.AttainedRepu + 10) = t.AttainedRepu + 10 :=
      wrapInt_of_fits _ (by omega) hfit.2
    have hidne' : id ≠ "" := hne id (by simp)
    simp only [hid, hidne', if_false, hw]
    exact ⟨trivial, stateOf_writeKey_self _ _ _, fun k hk => stateOf_writeKey_ne _ _ _ _ hk⟩

/-- Witness of C18: the "rust" reputation of `S1` bumped after registration. -/
theorem bumpUpStudentRepu_effect_witness :
    stateOf (Students.bumpUpStudentRepu ((scenarioStudent demoEnv "pw").ledger "students")
      ["S1", "rust"]).2 "S1" =
      some (StuToJSON ⟨"S1", "$2a$14$pw", [⟨"rust", 20, "20240101000000"⟩], [],
        "20240101000000"⟩) ∧
    (Students.bumpUpStudentRepu ((scenarioStudent demoEnv "pw").ledger "students")
      ["S1", "go"]).2 = (scenarioStudent demoEnv "pw").ledger "students" :=
  have h := bumpUpStudentRepu_effect ((scenarioStudent demoEnv "pw").ledger "students") "S1"
    "rust" ⟨"S1", "$2a$14$pw", [⟨"rust", 10, "20240101000000"⟩], [], "20240101000000"⟩
    (by decide) (by rfl) (by rfl)
  have h' := bumpUpStudentRepu_effect ((scenarioStudent demoEnv "pw").ledger "students") "S1"
    "go" ⟨"S1", "$2a$14$pw", [⟨"rust", 10, "20240101000000"⟩], [], "20240101000000"⟩
    (by decide) (by rfl) (by rfl)
  ⟨(h.2 [] ⟨"rust", 10, "20240101000000"⟩ [] (by rfl) (by simp) (by rfl) (by decide)).2.1,
    (h'.1 (by decide)).2⟩


theorem bumpUpStudentRepu_cases (l : Ledger) (args : List String) :
    ((Students.bumpUpStudentRepu l args).1.Status = shim.ERROR ∧
      (Students.bumpUpStudentRepu l args).2 = l) ∨
    (∃ id tech st repus, args = [id, tech] ∧ sanitize_arguments args = none ∧
      JSONtoStu (GetState l id) = .ok st ∧ bumpFirst tech 10 st.StudentTechRepus = some repus ∧
      st.StudentID ≠ "" ∧
      Students.bumpUpStudentRepu l args = (shim.Success Bytes.nil,
        writeKey l st.StudentID (StuToJSON
          ⟨st.StudentID, st.StudentSecret, repus, st.AnsweredQuestions, st.CreatedON⟩))) := by
  by_cases hshape : ∃ id tech, args = [id, tech]
  · obtain ⟨id, tech, rfl⟩ := hshape
    cases hs : sanitize_arguments [id, tech] with
    | some err =>
      left
      simp [Students.bumpUpStudentRepu, hs, shim.Error]
    | none =>
      cases hst : JSONtoStu (GetState l id) with
      | error e =>
        left
        simp [Students.bumpUpStudentRepu, hs, hst, shim.Error]
      | ok st =>
        rw [bumpUpStudentRepu_eval l id tech st hs hst]
        cases hb : bumpFirst tech 10 st.StudentTechRepus with
        | none =>
          left
          simp [shim.Error]
        | some repus =>
          by_cases hid : st.StudentID = ""
          · left
            simp [hid, shim.Error]
          · right
            exact ⟨id, tech, st, repus, rfl, (by first | assumption | rfl),
              (by assumption), (by assumption), hid, by simp [hid]⟩
  · left
    unfold Students.bumpUpStudentRepu
    split
    · rename_i id tech
      exact absurd ⟨id, tech, rfl⟩ hshape
    · simp [shim.Error]

theorem bumpUpEvaluatorRepu_cases (l : Ledger) (args : List String) :
    ((Evaluators.bumpUpEvaluatorRepu l args).1.Status = shim.ERROR ∧
      (Evaluators.bumpUpEvaluatorRepu l args).2 = l) ∨
    (∃ id tech amount ev repus, args = [id, tech, amount] ∧ sanitize_arguments args = none ∧
      JSONtoEval (GetState l id) = .ok ev ∧
      bumpFirst tech (Atoi amount).1 ev.EvaluatorTechRepus = some repus ∧
      ev.EvaluatorID ≠ "" ∧
      Evaluators.bumpUpEvaluatorRepu l args = (shim.Success Bytes.nil,
        writeKey l ev.EvaluatorID (EvaltoJSON
          ⟨ev.EvaluatorID, ev.EvaluatorSecret, ev.EvaluatedAnswers, repus, ev.CreatedON⟩))) := by
  by_cases hshape : ∃ id tech amount, args = [id, tech, amount]
  · obtain ⟨id, tech, amount, rfl⟩ := hshape
    cases hs : sanitize_arguments [id, tech, amount] with
    | some err =>
      left
      simp [Evaluators.bumpUpEvaluatorRepu, hs, shim.Error]
    | none =>
      cases hev : JSONtoEval (GetState l id) with
      | error e =>
        left
        simp [Evaluators.bumpUpEvaluatorRepu, hs, hev, shim.Error]
      | ok ev =>
        rw [bumpUpEvaluatorRepu_eval l id tech amount ev hs hev]
        cases hb : bumpFirst tech (Atoi amount).1 ev.EvaluatorTechRepus with
        | none =>
          left
          simp [shim.Error]
        | some repus =>
          by_cases hid : ev.EvaluatorID = ""
          · left
            simp [hid, shim.Error]
          · right
            exact ⟨id, tech, amount, ev, repus, rfl, (by first | assumption | rfl),
              (by assumption), (by assumption), hid, by simp [hid]⟩
  · left
    unfold Evaluators.bumpUpEvaluatorRepu
    split
    · rename_i id tech amount
      exact absurd ⟨id, tech, amount, rfl⟩ hshape
    · simp [shim.Error]

/-- C19 (as stated, refuted). The amount "9223372036854775807" is a decimal
integer that `Atoi` parses without error; bumping the 10 points of `E1` by it
succeeds, and the stored points become -9223372036854775799, not
10 + 9223372036854775807: the Go addition wraps. -/
theorem bumpUpEvaluatorRepu_sum_wraps :
    Atoi "9223372036854775807" = (9223372036854775807, none) ∧
    (Evaluators.bumpUpEvaluatorRepu ((demoWorld 10).ledger "evaluators")
      ["E1", "rust", "9223372036854775807"]).1 = shim.Success Bytes.nil ∧
    stateOf (Evaluators.bumpUpEvaluatorRepu ((demoWorld 10).ledger "evaluators")
      ["E1", "rust", "9223372036854775807"]).2 "E1" =
      some (EvaltoJSON (demoEvaluator (-9223372036854775799))) ∧
    stateOf (Evaluators.bumpUpEvaluatorRepu ((demoWorld 10).ledger "evaluators")
      ["E1", "rust", "9223372036854775807"]).2 "E1" ≠
      some (EvaltoJSON (demoEvaluator (10 + 9223372036854775807))) := by
  refine ⟨by decide, by rfl, by rfl, ?_⟩
  have h : stateOf (Evaluators.bumpUpEvaluatorRepu ((demoWorld 10).ledger "evaluators")
      ["E1", "rust", "9223372036854775807"]).2 "E1" =
      some (EvaltoJSON (demoEvaluator (-9223372036854775799))) := by rfl
  rw [h]
  intro hc
  simp only [Option.some.injEq] at hc
  have := EvaltoJSON_injective hc
  simp [demoEvaluator] at this

/-- C19 (amended). For an evaluator record stored under its id, a non-empty
tech area and an amount that `Atoi` parses as the integer `n`: if no reputation
entry has that tech name, `bumpUpEvaluatorRepu` returns an error and the ledger is as it was;
otherwise it succeeds and the points of the first entry with that name become
the old points plus `n` wrapped into the 64-bit range, which is the old points
plus `n` whenever that sum is a Go `int`; every other entry, field and key is
unchanged. -/
theorem bumpUpEvaluatorRepu_effect (l : Ledger) (id tech amount : String) (n : Int)
    (ev : Evaluator)
    (hs : sanitize_arguments [id, tech, amount] = none)
    (hev : JSONtoEval (GetState l id) = .ok ev) (hid : ev.EvaluatorID = id)
    (hn : Atoi amount = (n, none)) :
    ((∀ t ∈ ev.EvaluatorTechRepus, t.UniqueTechName ≠ tech) →
      (Evaluators.bumpUpEvaluatorRepu l [id, tech, amount]).1.Status = shim.ERROR ∧
      (Evaluators.bumpUpEvaluatorRepu l [id, tech, amount]).2 = l) ∧
    (∀ pre t post, ev.EvaluatorTechRepus = pre ++ t :: post →
      (∀ u ∈ pre, u.UniqueTechName ≠ tech) → t.UniqueTechName = tech →
      (Evaluators.bumpUpEvaluatorRepu l [id, tech, amount]).1 = shim.Success Bytes.nil ∧
      stateOf (Evaluators.bumpUpEvaluatorRepu l [id, tech, amount]).2 id =
        some (EvaltoJSON { ev with EvaluatorTechRepus :=
          pre ++ { t with AttainedRepu := wrapInt (t.AttainedRepu + n) } :: post }) ∧
      (minInt ≤ t.AttainedRepu + n ∧ t.AttainedRepu + n ≤ maxInt →
        stateOf (Evaluators.bumpUpEvaluatorRepu l [id, tech, amount]).2 id =
          some (EvaltoJSON { ev with EvaluatorTechRepus :=
            pre ++ { t with AttainedRepu := t.AttainedRepu + n } :: post })) ∧
      ∀ k, k ≠ id →
        stateOf (Evaluators.bumpUpEvaluatorRepu l [id, tech, amount]).2 k = stateOf l k) := by
  have hne := (sanitize_eq_none _).mp hs
  have hidne : id ≠ "" := hne id (by simp)
  have hn1 : (Atoi amount).1 = n := by rw [hn]
  rw [bumpUpEvaluatorRepu_eval l id tech amount ev hs hev, hn1]
  constructor
  · intro hnone
    rw [(bumpFirst_eq_none tech n _).mpr hnone]
    exact ⟨rfl, rfl⟩
  · intro pre t post hsplit hpre ht
    rw [hsplit, bumpFirst_split tech n pre t post hpre ht]
    simp only [hid, hidne, if_false]
    refine ⟨trivial, stateOf_writeKey_self _ _ _, ?_, fun k hk => stateOf_writeKey_ne _ _ _ _ hk⟩
    intro hfit
    rw [stateOf_writeKey_self, wrapInt_of_fits _ hfit.1 hfit.2]

/-- Witness of C19: the "rust" reputation of `E1` bumped from 10 by "1000". -/
theorem bumpUpEvaluatorRepu_effect_witness :
    stateOf (Evaluators.bumpUpEvaluatorRepu ((demoWorld 10).ledger "evaluators")
      ["E1", "rust", "1000"]).2 "E1" = some (EvaltoJSON (demoEvaluator 1010)) :=
  have h := bumpUpEvaluatorRepu_effect ((demoWorld 10).ledger "evaluators") "E1" "rust" "1000"
    1000 (demoEvaluator 10) (by decide) (by rfl) (by rfl) (by decide)
  (h.2 [] ⟨"rust", 10, "20240101000000"⟩ [] (by rfl) (by simp) (by rfl)).2.2.1 (by decide)


theorem PointsNotLower_refl (repus : List TechRepu) : PointsNotLower repus repus := by
  unfold PointsNotLower
  induction repus with
  | nil => exact List.Forall₂.nil
  | cons t rest ih => exact List.Forall₂.cons ⟨rfl, le_refl _⟩ ih

theorem PointsNotLower_bump (pre : List TechRepu) (t : TechRepu) (post : List TechRepu)
    (p : Int) (h : t.AttainedRepu ≤ p) :
    PointsNotLower (pre ++ t :: post) (pre ++ { t with AttainedRepu := p } :: post) := by
  unfold PointsNotLower
  induction pre with
  | nil => exact List.Forall₂.cons ⟨rfl, h⟩ (PointsNotLower_refl post)
  | cons u rest ih => exact List.Forall₂.cons ⟨rfl, le_refl _⟩ ih

theorem GetState_writeKey_self (l : Ledger) (key : String) (value : Doc) :
    GetState (writeKey l key value) key = Bytes.json value := by
  simp [GetState, stateOf_writeKey_self]

theorem GetState_writeKey_ne (l : Ledger) (key : String) (value : Doc) (k : String)
    (h : k ≠ key) : GetState (writeKey l key value) k = GetState l k := by
  simp [GetState, stateOf_writeKey_ne _ _ _ _ h]

/-- C20 (as stated, refuted). Bumping the 10 points of `E1` by the amount "-5"
succeeds and leaves 5 points; bumping them by "9223372036854775807" succeeds
and leaves a negative number of points. In both cases the points are lower
than before the call. -/
theorem bumpUpEvaluatorRepu_lowers_points :
    (Evaluators.bumpUpEvaluatorRepu ((demoWorld 10).ledger "evaluators")
      ["E1", "rust", "-5"]).1 = shim.Success Bytes.nil ∧
    JSONtoEval (GetState (Evaluators.bumpUpEvaluatorRepu ((demoWorld 10).ledger "evaluators")
      ["E1", "rust", "-5"]).2 "E1") = .ok (demoEvaluator 5) ∧
    (Evaluators.bumpUpEvaluatorRepu ((demoWorld 10).ledger "evaluators")
      ["E1", "rust", "9223372036854775807"]).1 = shim.Success Bytes.nil ∧
    JSONtoEval (GetState (Evaluators.bumpUpEvaluatorRepu ((demoWorld 10).ledger "evaluators")
      ["E1", "rust", "9223372036854775807"]).2 "E1")
      = .ok (demoEvaluator (-9223372036854775799)) ∧
    JSONtoEval (GetState ((demoWorld 10).ledger "evaluators") "E1") = .ok (demoEvaluator 10) ∧
    ¬ PointsNotLower (demoEvaluator 10).EvaluatorTechRepus (demoEvaluator 5).EvaluatorTechRepus ∧
    ¬ PointsNotLower (demoEvaluator 10).EvaluatorTechRepus
      (demoEvaluator (-9223372036854775799)).EvaluatorTechRepus := by
  refine ⟨by rfl, by rfl, by rfl, by rfl, by rfl, ?_, ?_⟩
  · intro h
    simp [PointsNotLower, demoEvaluator] at h
  · intro h
    simp [PointsNotLower, demoEvaluator] at h

/-- C20 (amended). A successful `bumpUpStudentRepu` has arguments `[id, tech]` and reads a stored
record; a successful `bumpUpEvaluatorRepu` has arguments `[id, tech, amount]` and reads a stored
record. When that record is stored under its own id, the points of its entries
for `tech` are Go `int`s with room for the increment (10, respectively the
parsed amount) and, for the evaluator, the parsed amount is not negative, every stored record decodes
after the call to a record whose reputation entries have, entry by entry, the
same tech names and at least the points they had before the call. -/
theorem bump_points_not_lower (l : Ledger) (args : List String) :
    ((Students.bumpUpStudentRepu l args).1.Status = shim.OK →
      ∃ id tech st, args = [id, tech] ∧ JSONtoStu (GetState l id) = .ok st ∧
        (st.StudentID = id →
          (∀ t ∈ st.StudentTechRepus, t.UniqueTechName = tech →
            minInt ≤ t.AttainedRepu ∧ t.AttainedRepu + 10 ≤ maxInt) →
          ∀ k r, JSONtoStu (GetState l k) = .ok r →
            ∃ r', JSONtoStu (GetState (Students.bumpUpStudentRepu l args).2 k) = .ok r' ∧
              PointsNotLower r.StudentTechRepus r'.StudentTechRepus)) ∧
    ((Evaluators.bumpUpEvaluatorRepu l args).1.Status = shim.OK →
      ∃ id tech amount ev, args = [id, tech, amount] ∧ JSONtoEval (GetState l id) = .ok ev ∧
        (ev.EvaluatorID = id → 0 ≤ (Atoi amount).1 →
          (∀ t ∈ ev.EvaluatorTechRepus, t.UniqueTechName = tech →
            minInt ≤ t.AttainedRepu ∧ t.AttainedRepu + (Atoi amount).1 ≤ maxInt) →
          ∀ k r, JSONtoEval (GetState l k) = .ok r →
            ∃ r', JSONtoEval (GetState (Evaluators.bumpUpEvaluatorRepu l args).2 k) = .ok r' ∧
              PointsNotLower r.EvaluatorTechRepus r'.EvaluatorTechRepus)) := by
  have hne : shim.ERROR ≠ shim.OK := by decide
  constructor
  · intro hok
    rcases bumpUpStudentRepu_cases l args with ⟨hf, -⟩ |
      ⟨id, tech, st, repus, ha, -, hst, hb, -, hres⟩
    · rw [hf] at hok
      exact absurd hok hne
    · refine ⟨id, tech, st, ha, hst, ?_⟩
      intro hid hfit k r hr
      obtain ⟨pre, t, post, hsplit, -, htn, hnew⟩ := bumpFirst_some tech 10 _ _ hb
      have ht : t ∈ st.StudentTechRepus := by rw [hsplit]; simp
      have hw : wrapInt (t.AttainedRepu + 10) = t.AttainedRepu + 10 :=
        wrapInt_of_fits _ (by have := (hfit t ht htn).1; omega) (hfit t ht htn).2
      rw [hres, hid]
      by_cases hk : k = id
      · subst hk
        rw [hst] at hr
        simp only [Except.ok.injEq] at hr
        subst hr
        refine ⟨_, by rw [GetState_writeKey_self, JSONtoStu_StuToJSON], ?_⟩
        simp only [hnew, hw]
        rw [hsplit]
        exact PointsNotLower_bump pre t post _ (by omega)
      · exact ⟨r, by rw [GetState_writeKey_ne _ _ _ _ hk]; exact hr, PointsNotLower_refl _⟩
  · intro hok
    rcases bumpUpEvaluatorRepu_cases l args with ⟨hf, -⟩ |
      ⟨id, tech, amount, ev, repus, ha, -, hev, hb, -, hres⟩
    · rw [hf] at hok
      exact absurd hok hne
    · refine ⟨id, tech, amount, ev, ha, hev, ?_⟩
      intro hid hpos hfit k r hr
      obtain ⟨pre, t, post, hsplit, -, htn, hnew⟩ := bumpFirst_some tech (Atoi amount).1 _ _ hb
      have ht : t ∈ ev.EvaluatorTechRepus := by rw [hsplit]; simp
      have hw : wrapInt (t.AttainedRepu + (Atoi amount).1) = t.AttainedRepu + (Atoi amount).1 :=
        wrapInt_of_fits _ (by have := (hfit t ht htn).1; omega) (hfit t ht htn).2
      rw [hres, hid]
      by_cases hk : k = id
      · subst hk
        rw [hev] at hr
        simp only [Except.ok.injEq] at hr
        subst hr
        refine ⟨_, by rw [GetState_writeKey_self, JSONtoEval_EvaltoJSON], ?_⟩
        simp only [hnew, hw]
        rw [hsplit]
        exact PointsNotLower_bump pre t post _ (by omega)
      · exact ⟨r, by rw [GetState_writeKey_ne _ _ _ _ hk]; exact hr, PointsNotLower_refl _⟩

/-- Witness of C20: after the bump of `E1` by "1000" the entries of `E1` have at
least the points they had. -/
theorem bump_points_not_lower_witness :
    ∃ r', JSONtoEval (GetState (Evaluators.bumpUpEvaluatorRepu
        ((demoWorld 10).ledger "evaluators") ["E1", "rust", "1000"]).2 "E1") = .ok r' ∧
      PointsNotLower (demoEvaluator 10).EvaluatorTechRepus r'.EvaluatorTechRepus := by
  obtain ⟨id, tech, amount, ev, ha, hev, h⟩ :=
    (bump_points_not_lower ((demoWorld 10).ledger "evaluators") ["E1", "rust", "1000"]).2
      (by rfl)
  simp only [List.cons.injEq, and_true] at ha
  obtain ⟨rfl, rfl, rfl⟩ := ha
  have hev' : JSONtoEval (GetState ((demoWorld 10).ledger "evaluators") "E1")
      = .ok (demoEvaluator 10) := by rfl
  rw [hev'] at hev
  simp only [Except.ok.injEq] at hev
  subst hev
  exact h (by rfl) (by decide) (by decide) "E1" (demoEvaluator 10) hev'


/-! ## The leaf stores: list updates -/

theorem updateAnsweredQuestions_cases (l : Ledger) (args : List String) :
    ((Students.updateAnsweredQuestions l args).1.Status = shim.ERROR ∧
      (Students.updateAnsweredQuestions l args).2 = l) ∨
    (∃ s q st, args = [s, q] ∧ sanitize_arguments [s, q] = none ∧
      JSONtoStu (GetState l s) = .ok st ∧ q ∉ st.AnsweredQuestions ∧
      Students.updateAnsweredQuestions l args =
        (shim.Success Bytes.nil, writeKey l s (StuToJSON (withAnswered st q)))) := by
  by_cases hshape : ∃ s q, args = [s, q]
  · obtain ⟨s, q, rfl⟩ := hshape
    cases hs : sanitize_arguments [s, q] with
    | some err =>
      left
      simp [Students.updateAnsweredQuestions, hs, shim.Error]
    | none =>
      cases hst : JSONtoStu (GetState l s) with
      | error msg =>
        left
        simp [Students.updateAnsweredQuestions, hs, hst, shim.Error]
      | ok st =>
        rw [updateAnsweredQuestions_eval l s q st hs hst]
        by_cases hc : contains st.AnsweredQuestions q = true
        · left
          simp [hc, shim.Error]
        · right
          have hc' : contains st.AnsweredQuestions q = false := by simpa using hc
          exact ⟨s, q, st, rfl, hs, hst, (contains_eq_false _ _).mp hc', by simp [hc]⟩
  · left
    have : Students.updateAnsweredQuestions l args =
        (shim.Error "Incorrect number of arguments. Expecting 2", l) := by
      unfold Students.updateAnsweredQuestions
      split
      · rename_i s q
        exact absurd ⟨s, q, rfl⟩ hshape
      · rfl
    rw [this]
    exact ⟨rfl, rfl⟩

theorem updateTheEvaluatedAnswers_cases (l : Ledger) (args : List String) :
    ((Evaluators.updateTheEvaluatedAnswers l args).1.Status = shim.ERROR ∧
      (Evaluators.updateTheEvaluatedAnswers l args).2 = l) ∨
    (∃ e a ev, args = [e, a] ∧ sanitize_arguments [e, a] = none ∧
      JSONtoEval (GetState l e) = .ok ev ∧ a ∉ ev.EvaluatedAnswers ∧ ev.EvaluatorID ≠ "" ∧
      Evaluators.updateTheEvaluatedAnswers l args =
        (shim.Success Bytes.nil, writeKey l ev.EvaluatorID (EvaltoJSON (withEvaluated ev a)))) := by
  by_cases hshape : ∃ e a, args = [e, a]
  · obtain ⟨e, a, rfl⟩ := hshape
    cases hs : sanitize_arguments [e, a] with
    | some err =>
      left
      simp [Evaluators.updateTheEvaluatedAnswers, hs, shim.Error]
    | none =>
      cases hev : JSONtoEval (GetState l e) with
      | error msg =>
        left
        simp [Evaluators.updateTheEvaluatedAnswers, hs, hev, shim.Error]
      | ok ev =>
        rw [updateTheEvaluatedAnswers_eval l e a ev hs hev]
        by_cases hc : contains ev.EvaluatedAnswers a = true
        · left
          simp [hc, shim.Error]
        · by_cases hid : ev.EvaluatorID = ""
          · left
            simp [hc, hid, shim.Error]
          · right
            have hc' : contains ev.EvaluatedAnswers a = false := by simpa using hc
            exact ⟨e, a, ev, rfl, hs, hev, (contains_eq_false _ _).mp hc', hid,
              by simp [hc, hid]⟩
  · left
    have : Evaluators.updateTheEvaluatedAnswers l args =
        (shim.Error "Incorrect number of arguments. Expecting 2", l) := by
      unfold Evaluators.updateTheEvaluatedAnswers
      split
      · rename_i e a
        exact absurd ⟨e, a, rfl⟩ hshape
      · rfl
    rw [this]
    exact ⟨rfl, rfl⟩

/-- C21. For a student record stored under `id` and a non-empty `id` and question id,
`updateAnsweredQuestions` fails exactly when the question is already in the
record's `AnsweredQuestions`, and then the ledger is as it was; otherwise it
returns success, the record under `id` is the old one with the question
appended at the end of `AnsweredQuestions`, and every other key is unchanged.
The same holds of `updateTheEvaluatedAnswers` and `EvaluatedAnswers` for an evaluator record stored
under its own id. -/
theorem update_lists_duplicate_check (l : Ledger) (id item : String)
    (hs : sanitize_arguments [id, item] = none) :
    (∀ st : Student, JSONtoStu (GetState l id) = .ok st →
      ((Students.updateAnsweredQuestions l [id, item]).1.Status ≠ shim.OK ↔
        item ∈ st.AnsweredQuestions) ∧
      (item ∈ st.AnsweredQuestions → (Students.updateAnsweredQuestions l [id, item]).2 = l) ∧
      (item ∉ st.AnsweredQuestions →
        (Students.updateAnsweredQuestions l [id, item]).1 = shim.Success Bytes.nil ∧
        stateOf (Students.updateAnsweredQuestions l [id, item]).2 id =
          some (StuToJSON { st with AnsweredQuestions := st.AnsweredQuestions ++ [item] }) ∧
        ∀ k, k ≠ id →
          stateOf (Students.updateAnsweredQuestions l [id, item]).2 k = stateOf l k)) ∧
    (∀ ev : Evaluator, JSONtoEval (GetState l id) = .ok ev → ev.EvaluatorID = id →
      ((Evaluators.updateTheEvaluatedAnswers l [id, item]).1.Status ≠ shim.OK ↔
        item ∈ ev.EvaluatedAnswers) ∧
      (item ∈ ev.EvaluatedAnswers →
        (Evaluators.updateTheEvaluatedAnswers l [id, item]).2 = l) ∧
      (item ∉ ev.EvaluatedAnswers →
        (Evaluators.updateTheEvaluatedAnswers l [id, item]).1 = shim.Success Bytes.nil ∧
        stateOf (Evaluators.updateTheEvaluatedAnswers l [id, item]).2 id =
          some (EvaltoJSON { ev with EvaluatedAnswers := ev.EvaluatedAnswers ++ [item] }) ∧
        ∀ k, k ≠ id →
          stateOf (Evaluators.updateTheEvaluatedAnswers l [id, item]).2 k = stateOf l k)) := by
  have hne := (sanitize_eq_none _).mp hs
  have hidne : id ≠ "" := hne id (by simp)
  constructor
  · intro st hst
    rw [updateAnsweredQuestions_eval l id item st hs hst]
    by_cases hin : item ∈ st.AnsweredQuestions
    · have hc := (contains_eq_true _ _).mpr hin
      simp only [hc, if_true]
      exact ⟨⟨fun _ => hin, fun _ => by decide⟩, fun _ => trivial, fun h => absurd hin h⟩
    · have hc := (contains_eq_false _ _).mpr hin
      simp only [hc, Bool.false_eq_true, if_false]
      refine ⟨⟨fun h => absurd rfl h, fun h => absurd h hin⟩, fun h => absurd h hin, fun _ => ?_⟩
      exact ⟨trivial, stateOf_writeKey_self _ _ _, fun k hk => stateOf_writeKey_ne _ _ _ _ hk⟩
  · intro ev hev hid
    rw [updateTheEvaluatedAnswers_eval l id item ev hs hev]
    by_cases hin : item ∈ ev.EvaluatedAnswers
    · have hc := (contains_eq_true _ _).mpr hin
      simp only [hc, if_true]
      exact ⟨⟨fun _ => hin, fun _ => by decide⟩, fun _ => trivial, fun h => absurd hin h⟩
    · have hc := (contains_eq_false _ _).mpr hin
      simp only [hc, Bool.false_eq_true, if_false, hid, hidne]
      refine ⟨⟨fun h => absurd rfl h, fun h => absurd h hin⟩, fun h => absurd h hin, fun _ => ?_⟩
      refine ⟨trivial, ?_, fun k hk => stateOf_writeKey_ne _ _ _ _ hk⟩
      rw [stateOf_writeKey_self]
      simp [withEvaluated, hid]

/-- Witness of C21: student `S1` answers `Q1` once, and is refused the second
time. -/
theorem update_lists_duplicate_check_witness :
    (Students.updateAnsweredQuestions ((scenarioStudent demoEnv "pw").ledger "students")
      ["S1", "Q1"]).1 = shim.Success Bytes.nil ∧
    (Students.updateAnsweredQuestions ((scenarioAnswer demoEnv "pw").2.ledger "students")
      ["S1", "Q1"]).1.Status ≠ shim.OK ∧
    (Evaluators.updateTheEvaluatedAnswers ((demoWorld 10).ledger "evaluators")
      ["E1", "A1"]).1 = shim.Success Bytes.nil :=
  ⟨((update_lists_duplicate_check ((scenarioStudent demoEnv "pw").ledger "students") "S1" "Q1"
      (by rfl)).1 ⟨"S1", "$2a$14$pw", [⟨"rust", 10, "20240101000000"⟩], [], "20240101000000"⟩
      (by rfl)).2.2 (by decide) |>.1,
   ((update_lists_duplicate_check ((scenarioAnswer demoEnv "pw").2.ledger "students") "S1" "Q1"
      (by rfl)).1 ⟨"S1", "$2a$14$pw", [⟨"rust", 10, "20240101000000"⟩], ["Q1"],
      "20240101000000"⟩ (by rfl)).1.mpr (by decide),
   ((update_lists_duplicate_check ((demoWorld 10).ledger "evaluators") "E1" "A1"
      (by rfl)).2 (demoEvaluator 10) (by rfl) (by rfl)).2.2 (by decide) |>.1⟩


/-! ## Reachable worlds: the lists of the student and evaluator records -/

theorem StuToJSON_injective {s1 s2 : Student} (h : StuToJSON s1 = StuToJSON s2) : s1 = s2 := by
  have h1 := JSONtoStu_StuToJSON s1
  rw [h, JSONtoStu_StuToJSON] at h1
  simpa using h1.symm

theorem bumpFirst_names (tech : String) (amount : Int) (repus new : List TechRepu)
    (h : bumpFirst tech amount repus = some new) :
    new.map TechRepu.UniqueTechName = repus.map TechRepu.UniqueTechName := by
  obtain ⟨pre, t, post, h1, -, -, h2⟩ := bumpFirst_some tech amount repus new h
  rw [h1, h2]
  simp

/-- In a ledger of well-formed student records, what decodes under a key is the
record stored there. -/
theorem StudentsNodup_decode {l : Ledger} (hwf : StudentsNodup l) {k : String} {st : Student}
    (h : JSONtoStu (GetState l k) = .ok st) :
    stateOf l k = some (StuToJSON st) ∧ st.StudentID = k ∧ st.AnsweredQuestions.Nodup ∧
      (st.StudentTechRepus.map TechRepu.UniqueTechName).Nodup := by
  obtain ⟨d, hd⟩ := JSONtoStu_ok_json h
  have hs := (GetState_eq_json _ _ _).mp hd
  obtain ⟨st0, rfl, hid, h1, h2⟩ := hwf k d hs
  rw [hd, JSONtoStu_StuToJSON] at h
  simp only [Except.ok.injEq] at h
  subst h
  exact ⟨hs, hid, h1, h2⟩

theorem EvaluatorsNodup_decode {l : Ledger} (hwf : EvaluatorsNodup l) {k : String}
    {ev : Evaluator} (h : JSONtoEval (GetState l k) = .ok ev) :
    stateOf l k = some (EvaltoJSON ev) ∧ ev.EvaluatorID = k ∧ ev.EvaluatedAnswers.Nodup ∧
      (ev.EvaluatorTechRepus.map TechRepu.UniqueTechName).Nodup := by
  obtain ⟨d, hd⟩ := JSONtoEval_ok_json h
  have hs := (GetState_eq_json _ _ _).mp hd
  obtain ⟨ev0, rfl, hid, h1, h2⟩ := hwf k d hs
  rw [hd, JSONtoEval_EvaltoJSON] at h
  simp only [Except.ok.injEq] at h
  subst h
  exact ⟨hs, hid, h1, h2⟩

theorem StudentsNodup_write {l : Ledger} (hwf : StudentsNodup l) (key : String) (st : Student)
    (hid : st.StudentID = key) (h1 : st.AnsweredQuestions.Nodup)
    (h2 : (st.StudentTechRepus.map TechRepu.UniqueTechName).Nodup) :
    StudentsNodup (writeKey l key (StuToJSON st)) := by
  intro k d hk
  rw [stateOf_writeKey] at hk
  by_cases hkk : k = key
  · simp only [hkk, if_true, Option.some.injEq] at hk
    exact ⟨st, hk.symm, by rw [hid, hkk], h1, h2⟩
  · simp only [hkk, if_false] at hk
    exact hwf k d hk

theorem EvaluatorsNodup_write {l : Ledger} (hwf : EvaluatorsNodup l) (key : String)
    (ev : Evaluator) (hid : ev.EvaluatorID = key) (h1 : ev.EvaluatedAnswers.Nodup)
    (h2 : (ev.EvaluatorTechRepus.map TechRepu.UniqueTechName).Nodup) :
    EvaluatorsNodup (writeKey l key (EvaltoJSON ev)) := by
  intro k d hk
  rw [stateOf_writeKey] at hk
  by_cases hkk : k = key
  · simp only [hkk, if_true, Option.some.injEq] at hk
    exact ⟨ev, hk.symm, by rw [hid, hkk], h1, h2⟩
  · simp only [hkk, if_false] at hk
    exact hwf k d hk

theorem StudentsAppend_refl (l : Ledger) : StudentsAppend l l :=
  fun _ st h => ⟨st, h, List.prefix_refl _⟩

theorem EvaluatorsAppend_refl (l : Ledger) : EvaluatorsAppend l l :=
  fun _ ev h => ⟨ev, h, List.prefix_refl _⟩

theorem StudentsAppend_write (l : Ledger) (key : String) (st' : Student)
    (hprev : ∀ st, stateOf l key = some (StuToJSON st) →
      st.AnsweredQuestions <+: st'.AnsweredQuestions) :
    StudentsAppend l (writeKey l key (StuToJSON st')) := by
  intro k st hk
  by_cases hkk : k = key
  · subst hkk
    exact ⟨st', stateOf_writeKey_self _ _ _, hprev st hk⟩
  · exact ⟨st, by rw [stateOf_writeKey_ne _ _ _ _ hkk]; exact hk, List.prefix_refl _⟩

theorem EvaluatorsAppend_write (l : Ledger) (key : String) (ev' : Evaluator)
    (hprev : ∀ ev, stateOf l key = some (EvaltoJSON ev) →
      ev.EvaluatedAnswers <+: ev'.EvaluatedAnswers) :
    EvaluatorsAppend l (writeKey l key (EvaltoJSON ev')) := by
  intro k ev hk
  by_cases hkk : k = key
  · subst hkk
    exact ⟨ev', stateOf_writeKey_self _ _ _, hprev ev hk⟩
  · exact ⟨ev, by rw [stateOf_writeKey_ne _ _ _ _ hkk]; exact hk, List.prefix_refl _⟩

/-- Appending a question that is not in the list of the record decoded under `s`
keeps a Student ledger well formed and only extends lists. -/
theorem StudentsNodup_answered {l : Ledger} (hwf : StudentsNodup l) (s q : String)
    (st : Student) (hst : JSONtoStu (GetState l s) = .ok st) (hq : q ∉ st.AnsweredQuestions) :
    StudentsNodup (writeKey l s (StuToJSON (withAnswered st q))) ∧
    StudentsAppend l (writeKey l s (StuToJSON (withAnswered st q))) := by
  obtain ⟨hstored, hid, h1, h2⟩ := StudentsNodup_decode hwf hst
  constructor
  · refine StudentsNodup_write hwf s _ hid ?_ h2
    simp only [withAnswered]
    rw [List.nodup_append]
    refine ⟨h1, List.nodup_singleton q, ?_⟩
    intro x hx hx'
    simp only [List.mem_singleton] at hx'
    subst hx'
    exact hq hx
  · refine StudentsAppend_write l s _ ?_
    intro st0 h0
    rw [hstored] at h0
    simp only [Option.some.injEq] at h0
    have := StuToJSON_injective h0
    subst this
    exact List.prefix_append _ _

/-- Appending an answer that is not in the list of the record decoded under `e`
keeps an Evaluator ledger well formed and only extends lists. -/
theorem EvaluatorsNodup_evaluated {l : Ledger} (hwf : EvaluatorsNodup l) (e a : String)
    (ev : Evaluator) (hev : JSONtoEval (GetState l e) = .ok ev)
    (ha : a ∉ ev.EvaluatedAnswers) :
    EvaluatorsNodup (writeKey l ev.EvaluatorID (EvaltoJSON (withEvaluated ev a))) ∧
    EvaluatorsAppend l (writeKey l ev.EvaluatorID (EvaltoJSON (withEvaluated ev a))) := by
  obtain ⟨hstored, hid, h1, h2⟩ := EvaluatorsNodup_decode hwf hev
  constructor
  · refine EvaluatorsNodup_write hwf _ _ rfl ?_ h2
    simp only [withEvaluated]
    rw [List.nodup_append]
    refine ⟨h1, List.nodup_singleton a, ?_⟩
    intro x hx hx'
    simp only [List.mem_singleton] at hx'
    subst hx'
    exact ha hx
  · refine EvaluatorsAppend_write l _ _ ?_
    intro ev0 h0
    rw [hid, hstored] at h0
    simp only [Option.some.injEq] at h0
    have := EvaltoJSON_injective h0
    subst this
    exact List.prefix_append _ _

theorem queryStudentById_ledger (l : Ledger) (args : List String) :
    (Students.queryStudentById l args).2 = l := by
  unfold Students.queryStudentById
  split
  · split <;> rfl
  · rfl

/-- Every command of the Student store keeps a Student ledger well formed and
only extends the answered lists. -/
theorem Students_Invoke_lists (env : Env) (l : Ledger) (function : String)
    (args : List String) (hwf : StudentsNodup l) :
    StudentsNodup (Students.Invoke env l function args).2 ∧
    StudentsAppend l (Students.Invoke env l function args).2 := by
  have hsame : ∀ l', l' = l → StudentsNodup l' ∧ StudentsAppend l l' := by
    intro l' h
    rw [h]
    exact ⟨hwf, StudentsAppend_refl l⟩
  unfold Students.Invoke
  split
  · rcases addAStudent_cases env l args with ⟨-, h⟩ | ⟨tech, id, secret, hh, -, hfree, -, hres⟩
    · exact hsame _ h
    · rw [hres]
      refine ⟨StudentsNodup_write hwf id _ rfl List.nodup_nil (by simp), ?_⟩
      refine StudentsAppend_write l id _ ?_
      intro st hst
      rw [hfree] at hst
      simp at hst
  · split
    · rcases bumpUpStudentRepu_cases l args with ⟨-, h⟩ |
        ⟨id, tech, st, repus, -, -, hst, hb, -, hres⟩
      · exact hsame _ h
      · obtain ⟨hstored, hid, h1, h2⟩ := StudentsNodup_decode hwf hst
        rw [hres]
        refine ⟨StudentsNodup_write hwf _ _ rfl h1 ?_, ?_⟩
        · simp only
          rw [bumpFirst_names tech 10 _ _ hb]
          exact h2
        · refine StudentsAppend_write l _ _ ?_
          intro st0 h0
          rw [hid, hstored] at h0
          simp only [Option.some.injEq] at h0
          have := StuToJSON_injective h0
          subst this
          exact List.prefix_refl _
    · split
      · exact hsame _ (queryStudentById_ledger l args)
      · split
        · rcases updateAnsweredQuestions_cases l args with ⟨-, h⟩ |
            ⟨s, q, st, -, -, hst, hq, hres⟩
          · exact hsame _ h
          · rw [hres]
            exact StudentsNodup_answered hwf s q st hst hq
        · exact hsame _ rfl

/-- Every command of the Evaluator store keeps an Evaluator ledger well formed
and only extends the evaluated lists. -/
theorem Evaluators_Invoke_lists (env : Env) (l : Ledger) (function : String)
    (args : List String) (hwf : EvaluatorsNodup l) :
    EvaluatorsNodup (Evaluators.Invoke env l function args).2 ∧
    EvaluatorsAppend l (Evaluators.Invoke env l function args).2 := by
  have hsame : ∀ l', l' = l → EvaluatorsNodup l' ∧ EvaluatorsAppend l l' := by
    intro l' h
    rw [h]
    exact ⟨hwf, EvaluatorsAppend_refl l⟩
  unfold Evaluators.Invoke
  split
  · rcases addAnEvaluator_cases env l args with ⟨-, h⟩ |
      ⟨tech, id, secret, hh, -, hfree, -, hres⟩
    · exact hsame _ h
    · rw [hres]
      refine ⟨EvaluatorsNodup_write hwf id _ rfl List.nodup_nil (by simp), ?_⟩
      refine EvaluatorsAppend_write l id _ ?_
      intro ev hev
      rw [hfree] at hev
      simp at hev
  · split
    · rcases bumpUpEvaluatorRepu_cases l args with ⟨-, h⟩ |
        ⟨id, tech, amount, ev, repus, -, -, hev, hb, -, hres⟩
      · exact hsame _ h
      · obtain ⟨hstored, hid, h1, h2⟩ := EvaluatorsNodup_decode hwf hev
        rw [hres]
        refine ⟨EvaluatorsNodup_write hwf _ _ rfl h1 ?_, ?_⟩
        · simp only
          rw [bumpFirst_names tech _ _ _ hb]
          exact h2
        · refine EvaluatorsAppend_write l _ _ ?_
          intro ev0 h0
          rw [hid, hstored] at h0
          simp only [Option.some.injEq] at h0
          have := EvaltoJSON_injective h0
          subst this
          exact List.prefix_refl _
    · split
      · exact hsame _ (getEvaluatorById_ledger l args)
      · split
        · exact hsame _ (queryEvaluatorById_ledger l args)
        · split
          · rcases updateTheEvaluatedAnswers_cases l args with ⟨-, h⟩ |
              ⟨e, a, ev, -, -, hev, ha, -, hres⟩
            · exact hsame _ h
            · rw [hres]
              exact EvaluatorsNodup_evaluated hwf e a ev hev ha
          · exact hsame _ rfl


/-- One dispatched command keeps the Student and Evaluator ledgers well formed and
only extends the answered and evaluated lists. -/
theorem lists_step {dep : Deployment} (hd : dep.distinct) {w w' : World}
    (hs : StudentsNodup (w.ledger dep.students))
    (he : EvaluatorsNodup (w.ledger dep.evaluators)) (hstep : Step dep w w') :
    StudentsNodup (w'.ledger dep.students) ∧ EvaluatorsNodup (w'.ledger dep.evaluators) ∧
    StudentsAppend (w.ledger dep.students) (w'.ledger dep.students) ∧
    EvaluatorsAppend (w.ledger dep.evaluators) (w'.ledger dep.evaluators) := by
  obtain ⟨h1, h2, h3, h4, h5, h6⟩ := hd
  have hsame : ∀ w1 : World, w1.ledger dep.students = w.ledger dep.students →
      w1.ledger dep.evaluators = w.ledger dep.evaluators →
      StudentsNodup (w1.ledger dep.students) ∧ EvaluatorsNodup (w1.ledger dep.evaluators) ∧
      StudentsAppend (w.ledger dep.students) (w1.ledger dep.students) ∧
      EvaluatorsAppend (w.ledger dep.evaluators) (w1.ledger dep.evaluators) := by
    intro w1 e1 e2
    rw [e1, e2]
    exact ⟨hs, he, StudentsAppend_refl _, EvaluatorsAppend_refl _⟩
  cases hstep with
  | questions env _ function args =>
    exact hsame _ (by simp [World.setLedger_ledger, h1.symm])
      (by simp [World.setLedger_ledger, h2.symm])
  | students env _ function args =>
    obtain ⟨a1, a2⟩ := Students_Invoke_lists env (w.ledger dep.students) function args hs
    have hls : ∀ l, (w.setLedger dep.students l).ledger dep.students = l :=
      fun l => by simp [World.setLedger_ledger]
    have hle : ∀ l, (w.setLedger dep.students l).ledger dep.evaluators =
        w.ledger dep.evaluators := fun l => by simp [World.setLedger_ledger, h4.symm]
    rw [hls, hle]
    exact ⟨a1, he, a2, EvaluatorsAppend_refl _⟩
  | evaluators env _ function args =>
    obtain ⟨a1, a2⟩ := Evaluators_Invoke_lists env (w.ledger dep.evaluators) function args he
    have hle : ∀ l, (w.setLedger dep.evaluators l).ledger dep.evaluators = l :=
      fun l => by simp [World.setLedger_ledger]
    have hls : ∀ l, (w.setLedger dep.evaluators l).ledger dep.students =
        w.ledger dep.students := fun l => by simp [World.setLedger_ledger, h4]
    rw [hls, hle]
    exact ⟨hs, a1, StudentsAppend_refl _, a2⟩
  | answers env _ function args hnames =>
    unfold Answers.Invoke
    split
    · rename_i hf
      subst hf
      rcases submitAnswer_cases env w dep.answers args with ⟨-, hw⟩ |
        ⟨qcc, scc, id, cid, author, qid, q, st, hargs, -, -, -, -, -, hst, hcon, hres⟩
      · rw [hw]
        exact hsame w rfl rfl
      · obtain ⟨-, rfl⟩ := hnames.1 rfl qcc scc _ hargs
        have hq : qid ∉ st.AnsweredQuestions := (contains_eq_false _ _).mp hcon
        obtain ⟨a1, a2⟩ := StudentsNodup_answered hs author qid st hst hq
        have hls : (Answers.submitAnswer env w dep.answers args).2.ledger dep.students =
            writeKey (w.ledger dep.students) author (StuToJSON (withAnswered st qid)) := by
          rw [hres]
          simp [World.setLedger_ledger, h5]
        have hle : (Answers.submitAnswer env w dep.answers args).2.ledger dep.evaluators =
            w.ledger dep.evaluators := by
          rw [hres]
          simp [World.setLedger_ledger, h6, h4.symm]
        rw [hls, hle]
        exact ⟨a1, he, a2, EvaluatorsAppend_refl _⟩
    · split
      · rename_i hf
        subst hf
        rcases thumbsUp_cases env w dep.answers args with ⟨-, hw⟩ |
          ⟨qcc, ecc, a, e, secret, dat, q, ev, hargs, -, -, -, -, -, hev, -, -, hcon, -, hres⟩
        · rw [hw]
          exact hsame w rfl rfl
        · obtain ⟨-, rfl⟩ := hnames.2 rfl qcc ecc _ hargs
          have ha : a ∉ ev.EvaluatedAnswers := (contains_eq_false _ _).mp hcon
          obtain ⟨a1, a2⟩ := EvaluatorsNodup_evaluated he e a ev hev ha
          have hle : (Answers.thumbsUpToAnswer env w dep.answers args).2.ledger dep.evaluators =
              writeKey (w.ledger dep.evaluators) ev.EvaluatorID
                (EvaltoJSON (withEvaluated ev a)) := by
            rw [hres]
            simp [World.setLedger_ledger, h6]
          have hls : (Answers.thumbsUpToAnswer env w dep.answers args).2.ledger dep.students =
              w.ledger dep.students := by
            rw [hres]
            simp [World.setLedger_ledger, h5, h4]
          rw [hls, hle]
          exact ⟨hs, a1, StudentsAppend_refl _, a2⟩
      · split
        · rw [queryAnswersByThumsUpCount_world]
          exact hsame w rfl rfl
        · split
          · rw [queryAnswerByAnswerHashId_world]
            exact hsame w rfl rfl
          · exact hsame w rfl rfl

/-- Every reachable world has well-formed Student and Evaluator ledgers. -/
theorem lists_reachable {dep : Deployment} (hd : dep.distinct) {w : World}
    (hr : Reachable dep w) :
    StudentsNodup (w.ledger dep.students) ∧ EvaluatorsNodup (w.ledger dep.evaluators) := by
  induction hr with
  | refl =>
    constructor
    · intro k d h
      simp [initialWorld, stateOf] at h
    · intro k d h
      simp [initialWorld, stateOf] at h
  | step _ hstep ih =>
    obtain ⟨a1, a2, -, -⟩ := lists_step hd ih.1 ih.2 hstep
    exact ⟨a1, a2⟩

/-- C22. In every world reachable from empty stores by dispatched commands, every
record of the Student store is a student whose `AnsweredQuestions` has no duplicate and every
record of the Evaluator store is an evaluator whose `EvaluatedAnswers` has no duplicate; and
each further command keeps every such record stored, with the previous content
of its list as a prefix of the new content. -/
theorem reachable_lists_append_only (dep : Deployment) (hd : dep.distinct) (w : World)
    (hr : Reachable dep w) :
    (∀ k d, stateOf (w.ledger dep.students) k = some d →
      ∃ st, d = StuToJSON st ∧ st.AnsweredQuestions.Nodup) ∧
    (∀ k d, stateOf (w.ledger dep.evaluators) k = some d →
      ∃ ev, d = EvaltoJSON ev ∧ ev.EvaluatedAnswers.Nodup) ∧
    (∀ w', Step dep w w' →
      (∀ k st, stateOf (w.ledger dep.students) k = some (StuToJSON st) →
        ∃ st', stateOf (w'.ledger dep.students) k = some (StuToJSON st') ∧
          st.AnsweredQuestions <+: st'.AnsweredQuestions) ∧
      (∀ k ev, stateOf (w.ledger dep.evaluators) k = some (EvaltoJSON ev) →
        ∃ ev', stateOf (w'.ledger dep.evaluators) k = some (EvaltoJSON ev') ∧
          ev.EvaluatedAnswers <+: ev'.EvaluatedAnswers)) := by
  obtain ⟨hs, he⟩ := lists_reachable hd hr
  refine ⟨?_, ?_, ?_⟩
  · intro k d h
    obtain ⟨st, h1, -, h2, -⟩ := hs k d h
    exact ⟨st, h1, h2⟩
  · intro k d h
    obtain ⟨ev, h1, -, h2, -⟩ := he k d h
    exact ⟨ev, h1, h2⟩
  · intro w' hstep
    obtain ⟨-, -, a3, a4⟩ := lists_step hd hs he hstep
    exact ⟨a3, a4⟩

/-- Witness of C22: at the end of the scenario the record of `E1` has the evaluated
list `["A1"]`, without duplicate, and the last endorsement left the answered
list of `S1` a prefix of itself. -/
theorem reachable_lists_append_only_witness :
    (∃ ev, EvaltoJSON ⟨"E1", "$2a$14$secret", ["A1"], [⟨"rust", 1010, "20240101000000"⟩],
        "20240101000000"⟩ = EvaltoJSON ev ∧ ev.EvaluatedAnswers.Nodup) ∧
    (∃ st', stateOf ((scenarioSecondThumbsUp demoEnv "pw" "secret").2.ledger "students") "S1"
        = some (StuToJSON st') ∧ ["Q1"] <+: st'.AnsweredQuestions) :=
  ⟨(reachable_lists_append_only demoDeployment demoDeployment_distinct
      (scenarioSecondThumbsUp demoEnv "pw" "secret").2
      (scenarioSecondThumbsUp_reachable demoEnv "pw" "secret")).2.1 "E1"
      (EvaltoJSON ⟨"E1", "$2a$14$secret", ["A1"], [⟨"rust", 1010, "20240101000000"⟩],
        "20240101000000"⟩) (by rfl),
   ((reachable_lists_append_only demoDeployment demoDeployment_distinct
      (scenarioBump demoEnv "pw" "secret") (scenarioBump_reachable demoEnv "pw" "secret")).2.2
      (scenarioSecondThumbsUp demoEnv "pw" "secret").2
      (Step.answers demoEnv _ "thumbsUpToAnswer" ["questions", "evaluators", "A1", "E1", "secret"]
        (namesStores_thumbsUp demoDeployment _))).1 "S1"
      ⟨"S1", "$2a$14$pw", [⟨"rust", 10, "20240101000000"⟩], ["Q1"], "20240101000000"⟩
      (by rfl)⟩

/-- C23. In every world reachable from empty stores by dispatched commands, every
record of the Student store is a student and every record of the Evaluator
store an evaluator whose reputation entries have pairwise different tech
names: no record holds two entries for the same tech area. -/
theorem reachable_tech_names_distinct (dep : Deployment) (hd : dep.distinct) (w : World)
    (hr : Reachable dep w) :
    (∀ k d, stateOf (w.ledger dep.students) k = some d →
      ∃ st, d = StuToJSON st ∧
        st.StudentTechRepus.Pairwise (fun t u => t.UniqueTechName ≠ u.UniqueTechName)) ∧
    (∀ k d, stateOf (w.ledger dep.evaluators) k = some d →
      ∃ ev, d = EvaltoJSON ev ∧
        ev.EvaluatorTechRepus.Pairwise (fun t u => t.UniqueTechName ≠ u.UniqueTechName)) := by
  obtain ⟨hs, he⟩ := lists_reachable hd hr
  constructor
  · intro k d h
    obtain ⟨st, h1, -, -, h2⟩ := hs k d h
    exact ⟨st, h1, (List.pairwise_map).mp h2⟩
  · intro k d h
    obtain ⟨ev, h1, -, -, h2⟩ := he k d h
    exact ⟨ev, h1, (List.pairwise_map).mp h2⟩

/-- Witness of C23: the record of `E1` at the end of the scenario. -/
theorem reachable_tech_names_distinct_witness :
    ∃ ev, EvaltoJSON ⟨"E1", "$2a$14$secret", ["A1"], [⟨"rust", 1010, "20240101000000"⟩],
        "20240101000000"⟩ = EvaltoJSON ev ∧
      ev.EvaluatorTechRepus.Pairwise (fun t u => t.UniqueTechName ≠ u.UniqueTechName) :=
  (reachable_tech_names_distinct demoDeployment demoDeployment_distinct
    (scenarioSecondThumbsUp demoEnv "pw" "secret").2
    (scenarioSecondThumbsUp_reachable demoEnv "pw" "secret")).2 "E1"
    (EvaltoJSON ⟨"E1", "$2a$14$secret", ["A1"], [⟨"rust", 1010, "20240101000000"⟩],
      "20240101000000"⟩) (by rfl)


/-! ## Records that do not change: questions and answers -/

theorem submitQuestion_ledger (env : Env) (l : Ledger) (args : List String) :
    (Questions.submitQuestion env l args).2 = l ∨
    ∃ id q, stateOf l id = none ∧
      (Questions.submitQuestion env l args).2 = writeKey l id (QuestoJSON q) := by
  unfold Questions.submitQuestion
  split
  · rename_i id a1 a2 a3 a4
    split
    · exact Or.inl rfl
    · split
      · rename_i hnil
        simp only [Questions.CreateQuestionObject, PutState]
        by_cases hid : id = ""
        · simp [hid]
        · simp only [hid, if_false]
          exact Or.inr ⟨id, _, (GetState_eq_nil _ _).mp hnil, rfl⟩
      · exact Or.inl rfl
  · exact Or.inl rfl

theorem getQuestionById_ledger (l : Ledger) (args : List String) :
    (Questions.getQuestionById l args).2 = l := by
  unfold Questions.getQuestionById
  split
  · split <;> rfl
  · rfl

theorem queryQuestionById_ledger (l : Ledger) (args : List String) :
    (Questions.queryQuestionById l args).2 = l := by
  unfold Questions.queryQuestionById
  split
  · split <;> rfl
  · rfl

/-- Every command of the Question store leaves the ledger as it was or adds one
encoded question under a key that held nothing. -/
theorem Questions_Invoke_ledger (env : Env) (l : Ledger) (function : String)
    (args : List String) :
    (Questions.Invoke env l function args).2 = l ∨
    ∃ id q, stateOf l id = none ∧
      (Questions.Invoke env l function args).2 = writeKey l id (QuestoJSON q) := by
  unfold Questions.Invoke
  split
  · exact submitQuestion_ledger env l args
  · split
    · exact Or.inl (queryQuestionById_ledger l args)
    · split
      · exact Or.inl (getQuestionById_ledger l args)
      · exact Or.inl rfl

/-- C24. Questions are immutable after creation: whatever command the Question store
dispatches (`submitQuestion`, `getQuestionById`, `queryQuestionById`, or an unknown function name), with
any arguments, a key that held a record before the call holds the identical
record after it. -/
theorem questions_immutable (env : Env) (l : Ledger) (function : String) (args : List String)
    (k : String) (d : Doc) (h : stateOf l k = some d) :
    stateOf (Questions.Invoke env l function args).2 k = some d := by
  rcases Questions_Invoke_ledger env l function args with hl | ⟨id, q, hfree, hl⟩
  · rw [hl]
    exact h
  · rw [hl, stateOf_writeKey_ne _ _ _ _ ?_]
    · exact h
    · intro hk
      rw [hk, hfree] at h
      simp at h

/-- Witness of C24: a second `submitQuestion` under the id `Q1`, with other content, leaves
the record of `Q1` as stored. -/
theorem questions_immutable_witness :
    stateOf (Questions.Invoke demoEnv ((demoWorld 10).ledger "questions") "submitQuestion"
      ["Q1", "otherCid", "S2", "go", "5"]).2 "Q1" = some (QuestoJSON demoQuestion) :=
  questions_immutable demoEnv ((demoWorld 10).ledger "questions") "submitQuestion"
    ["Q1", "otherCid", "S2", "go", "5"] "Q1" (QuestoJSON demoQuestion) (by rfl)


/-- Every command of the Answer store leaves its own ledger as it was, or adds a
new answer under a key that held nothing, or replaces the answer decoded under
a key by that answer with one more endorser and the count raised by one (Go
addition). -/
theorem Answers_Invoke_ledger (env : Env) (w : World) (self function : String)
    (args : List String) (hself : w.kind self = some Kind.answers) :
    (Answers.Invoke env w self function args).2.ledger self = w.ledger self ∨
    (∃ id ans, stateOf (w.ledger self) id = none ∧
      (Answers.Invoke env w self function args).2.ledger self =
        writeKey (w.ledger self) id (AnsToJSON ans)) ∨
    (∃ a e dat, JSONtoAns (GetState (w.ledger self) a) = .ok dat ∧
      (Answers.Invoke env w self function args).2.ledger self =
        writeKey (w.ledger self) a (AnsToJSON (withThumbsUp dat e))) := by
  unfold Answers.Invoke
  split
  · rcases submitAnswer_cases env w self args with ⟨-, hw⟩ |
      ⟨qcc, scc, id, cid, author, qid, q, st, -, -, -, hs, -, hfree, -, -, hres⟩
    · exact Or.inl (by rw [hw])
    · have hne : self ≠ scc := by
        intro h
        rw [h, hs] at hself
        simp at hself
      refine Or.inr (Or.inl ⟨id, ⟨id, cid, author, qid, [], 0, env.now⟩,
        (GetState_eq_nil _ _).mp hfree, ?_⟩)
      rw [hres]
      simp [World.setLedger_ledger, hne]
  · split
    · rcases thumbsUp_cases env w self args with ⟨-, hw⟩ |
        ⟨qcc, ecc, a, e, secret, dat, q, ev, -, -, -, he, hdat, -, -, -, -, -, -, hres⟩
      · exact Or.inl (by rw [hw])
      · have hne : self ≠ ecc := by
          intro h
          rw [h, he] at hself
          simp at hself
        refine Or.inr (Or.inr ⟨a, e, dat, hdat, ?_⟩)
        rw [hres]
        simp [World.setLedger_ledger, hne]
    · split
      · exact Or.inl (by rw [queryAnswersByThumsUpCount_world])
      · split
        · exact Or.inl (by rw [queryAnswerByAnswerHashId_world])
        · exact Or.inl rfl

/-- C25. Answer records mutate monotonically: whatever command the Answer store dispatches,
with any arguments, an answer record present before the call (with a count
that is a Go `int` below the largest one) is present afterwards, its previous
`EvaluatedBy` is a prefix of the new one, its count is not smaller, and its id, content
reference, author, question and time are unchanged. -/
theorem answers_monotone (env : Env) (w : World) (self function : String) (args : List String)
    (k : String) (dat : Answer)
    (hself : w.kind self = some Kind.answers)
    (hdat : JSONtoAns (GetState (w.ledger self) k) = .ok dat)
    (hfit : minInt ≤ dat.AttainedEvaluatorThumbsUp ∧ dat.AttainedEvaluatorThumbsUp < maxInt) :
    ∃ dat', JSONtoAns (GetState ((Answers.Invoke env w self function args).2.ledger self) k)
        = .ok dat' ∧
      dat.EvaluatedBy <+: dat'.EvaluatedBy ∧
      dat.AttainedEvaluatorThumbsUp ≤ dat'.AttainedEvaluatorThumbsUp ∧
      dat'.AnswerHashID = dat.AnswerHashID ∧ dat'.AnswerCID = dat.AnswerCID ∧
      dat'.AnsweredBy = dat.AnsweredBy ∧ dat'.QuestionID = dat.QuestionID ∧
      dat'.AnsweredOn = dat.AnsweredOn := by
  have hsame : ∀ l', GetState l' k = GetState (w.ledger self) k →
      ∃ dat', JSONtoAns (GetState l' k) = .ok dat' ∧
        dat.EvaluatedBy <+: dat'.EvaluatedBy ∧
        dat.AttainedEvaluatorThumbsUp ≤ dat'.AttainedEvaluatorThumbsUp ∧
        dat'.AnswerHashID = dat.AnswerHashID ∧ dat'.AnswerCID = dat.AnswerCID ∧
        dat'.AnsweredBy = dat.AnsweredBy ∧ dat'.QuestionID = dat.QuestionID ∧
        dat'.AnsweredOn = dat.AnsweredOn := by
    intro l' hl'
    exact ⟨dat, by rw [hl', hdat], List.prefix_refl _, le_refl _, rfl, rfl, rfl, rfl, rfl⟩
  obtain ⟨d, hd⟩ := JSONtoAns_ok_json hdat
  have hstored : stateOf (w.ledger self) k = some d := (GetState_eq_json _ _ _).mp hd
  rcases Answers_Invoke_ledger env w self function args hself with hl |
    ⟨id, ans, hfree, hl⟩ | ⟨a, e, dat0, hdat0, hl⟩
  · exact hsame _ (by rw [hl])
  · have hk : k ≠ id := by
      intro h
      rw [h, hfree] at hstored
      simp at hstored
    exact hsame _ (by rw [hl, GetState_writeKey_ne _ _ _ _ hk])
  · by_cases hk : k = a
    · subst hk
      rw [hdat] at hdat0
      simp only [Except.ok.injEq] at hdat0
      subst hdat0
      have hw : wrapInt (dat.AttainedEvaluatorThumbsUp + 1) = dat.AttainedEvaluatorThumbsUp + 1 :=
        wrapInt_of_fits _ (by have := hfit.1; omega) (by have := hfit.2; omega)
      refine ⟨withThumbsUp dat e, by rw [hl, GetState_writeKey_self, JSONtoAns_AnsToJSON],
        ?_, ?_, rfl, rfl, rfl, rfl, rfl⟩
      · exact List.prefix_append _ _
      · simp only [withThumbsUp, hw]
        omega
    · exact hsame _ (by rw [hl, GetState_writeKey_ne _ _ _ _ hk])

/-- Witness of C25: the endorsement of `A1` by `E1` holding 1001 points keeps the
record of `A1`, with `EvaluatedBy` extended and the count not smaller. -/
theorem answers_monotone_witness :
    ∃ dat', JSONtoAns (GetState ((Answers.Invoke demoEnv (demoWorld 1001) "answers"
        "thumbsUpToAnswer" ["questions", "evaluators", "A1", "E1", "secret"]).2.ledger "answers")
        "A1") = .ok dat' ∧
      demoAnswer.EvaluatedBy <+: dat'.EvaluatedBy ∧
      demoAnswer.AttainedEvaluatorThumbsUp ≤ dat'.AttainedEvaluatorThumbsUp ∧
      dat'.AnswerHashID = demoAnswer.AnswerHashID ∧ dat'.AnswerCID = demoAnswer.AnswerCID ∧
      dat'.AnsweredBy = demoAnswer.AnsweredBy ∧ dat'.QuestionID = demoAnswer.QuestionID ∧
      dat'.AnsweredOn = demoAnswer.AnsweredOn :=
  answers_monotone demoEnv (demoWorld 1001) "answers" "thumbsUpToAnswer"
    ["questions", "evaluators", "A1", "E1", "secret"] "A1" demoAnswer (by decide) (by rfl)
    (by decide)


/-! ## Argument checks: empty arguments and arity -/

theorem sanitizeFrom_eq_some (i : Nat) (strs : List String) (msg : String)
    (h : sanitizeFrom i strs = some msg) :
    ∃ pre post, strs = pre ++ "" :: post ∧ (∀ s ∈ pre, s ≠ "") ∧
      msg = "Argument " ++ toString (i + pre.length) ++ " must be a non-empty string" := by
  induction strs generalizing i with
  | nil => simp [sanitizeFrom] at h
  | cons s rest ih =>
    by_cases hs : s = ""
    · subst hs
      simp only [sanitizeFrom, String.length_empty, le_refl, if_true, Option.some.injEq] at h
      exact ⟨[], rest, rfl, by simp, by simp [← h]⟩
    · have hl : ¬ s.length ≤ 0 := fun hl => hs ((length_le_zero_iff s).mp hl)
      simp only [sanitizeFrom, hl, if_false] at h
      obtain ⟨pre, post, hsplit, hpre, hmsg⟩ := ih (i + 1) h
      refine ⟨s :: pre, post, by rw [hsplit]; rfl, ?_, ?_⟩
      · intro x hx
        rcases List.mem_cons.mp hx with rfl | hx
        · exact hs
        · exact hpre x hx
      · rw [hmsg, List.length_cons]
        congr 3
        omega

theorem sanitize_ne_none (strs : List String) :
    sanitize_arguments strs ≠ none ↔ "" ∈ strs := by
  rw [Ne, sanitize_eq_none]
  constructor
  · intro h
    by_contra hn
    exact h (fun s hs e => hn (e ▸ hs))
  · intro h hall
    exact hall "" h rfl

/-- C26. On any argument list `sanitize_arguments` returns an error exactly when an element is the
empty string, and the message names the zero-based index of the first empty
element (the number of elements in front of it). Hence `submitAnswer` with six arguments and
`thumbsUpToAnswer` with five, one of them empty, return an error response that does not depend
on the world, and leave the world as it was. -/
theorem sanitize_arguments_first_empty (args : List String) :
    (sanitize_arguments args ≠ none ↔ "" ∈ args) ∧
    (∀ msg, sanitize_arguments args = some msg →
      ∃ pre post, args = pre ++ "" :: post ∧ (∀ s ∈ pre, s ≠ "") ∧
        msg = "Argument " ++ toString pre.length ++ " must be a non-empty string") ∧
    (∀ (env : Env) (w : World) (self : String), args.length = 6 → "" ∈ args →
      Answers.submitAnswer env w self args =
        (Outcome.returned (shim.Error "Cannot sanitize arguments"), w)) ∧
    (∀ (env : Env) (w : World) (self : String), args.length = 5 → "" ∈ args →
      ∃ msg, sanitize_arguments args = some msg ∧
        Answers.thumbsUpToAnswer env w self args = (Outcome.returned (shim.Error msg), w)) := by
  refine ⟨sanitize_ne_none args, ?_, ?_, ?_⟩
  · intro msg h
    obtain ⟨pre, post, h1, h2, h3⟩ := sanitizeFrom_eq_some 0 args msg h
    exact ⟨pre, post, h1, h2, by simpa using h3⟩
  · intro env w self hlen hmem
    have hne := (sanitize_ne_none args).mpr hmem
    match args, hlen with
    | [a0, a1, a2, a3, a4, a5], _ =>
      cases hs : sanitize_arguments [a0, a1, a2, a3, a4, a5] with
      | none => exact absurd hs hne
      | some err => simp [Answers.submitAnswer, hs]
  · intro env w self hlen hmem
    have hne := (sanitize_ne_none args).mpr hmem
    match args, hlen with
    | [a0, a1, a2, a3, a4], _ =>
      cases hs : sanitize_arguments [a0, a1, a2, a3, a4] with
      | none => exact absurd hs hne
      | some err => exact ⟨err, rfl, by simp [Answers.thumbsUpToAnswer, hs]⟩

/-- Witness of C26: an endorsement whose fourth argument is empty is refused with the
message naming index 3. -/
theorem sanitize_arguments_first_empty_witness :
    sanitize_arguments ["questions", "evaluators", "A1", "", "secret"] =
      some "Argument 3 must be a non-empty string" ∧
    ∃ msg, sanitize_arguments ["questions", "evaluators", "A1", "", "secret"] = some msg ∧
      Answers.thumbsUpToAnswer demoEnv (demoWorld 1001) "answers"
        ["questions", "evaluators", "A1", "", "secret"] =
        (Outcome.returned (shim.Error msg), demoWorld 1001) :=
  ⟨by decide,
   (sanitize_arguments_first_empty ["questions", "evaluators", "A1", "", "secret"]).2.2.2
     demoEnv (demoWorld 1001) "answers" (by decide) (by decide)⟩


/-- C27 (failing inputs). The three query handlers that test `len(args) < 1` accept extra arguments and run
the query: `queryStudentById` with two arguments returns the stored record of `S1`, and the same
call on an empty ledger returns "[]", so the ledger was read; `queryEvaluatorById` and
`queryAnswersByThumsUpCount` with two arguments succeed as well. In general the three handlers
ignore every argument after the first, whereas `queryQuestionById` and `queryAnswerByAnswerHashId` refuse
a second argument. -/
theorem query_arity_not_enforced :
    (Students.Invoke demoEnv ((scenarioStudent demoEnv "pw").ledger "students")
      "queryStudentById" ["S1", "extra"]).1 =
      shim.Success (Bytes.text ("[" ++ queryItem ("S1", StuToJSON
        ⟨"S1", "$2a$14$pw", [⟨"rust", 10, "20240101000000"⟩], [], "20240101000000"⟩) ++ "]")) ∧
    (Students.Invoke demoEnv [] "queryStudentById" ["S1", "extra"]).1 =
      shim.Success (Bytes.text "[]") ∧
    (Evaluators.Invoke demoEnv ((demoWorld 10).ledger "evaluators")
      "queryEvaluatorById" ["E1", "extra"]).1 =
      shim.Success (Bytes.text ("[" ++ queryItem ("E1", EvaltoJSON (demoEvaluator 10)) ++ "]")) ∧
    (Answers.Invoke demoEnv (demoWorld 10) "answers"
      "queryAnswersByThumsUpCount" ["0", "extra"]).1.succeeded = true ∧
    (∀ (l : Ledger) (id : String) (extra : List String),
      Students.queryStudentById l (id :: extra) = Students.queryStudentById l [id] ∧
      Evaluators.queryEvaluatorById l (id :: extra) = Evaluators.queryEvaluatorById l [id]) ∧
    (∀ (w : World) (self n : String) (extra : List String),
      Answers.queryAnswersByThumsUpCount w self (n :: extra) =
        Answers.queryAnswersByThumsUpCount w self [n]) ∧
    (Questions.Invoke demoEnv ((demoWorld 10).ledger "questions")
      "queryQuestionById" ["Q1", "extra"]).1 =
      shim.Error "Incorrect number of arguments. Expecting 1" ∧
    (Answers.Invoke demoEnv (demoWorld 10) "answers"
      "queryAnswerByAnswerHashId" ["A1", "extra"]).1 =
      Outcome.returned (shim.Error "Incorrect number of arguments. Expecting 1") := by
  refine ⟨by rfl, by rfl, by rfl, by rfl, ?_, ?_, by rfl, by rfl⟩
  · intro l id extra
    exact ⟨rfl, rfl⟩
  · intro w self n extra
    rfl


/-! ## Query results -/

theorem intercalate_go_queryItems (acc : String) (rs : List (String × Doc)) :
    String.intercalate.go acc "," (rs.map queryItem) = acc ++ queryItems true rs := by
  induction rs generalizing acc with
  | nil => simp [String.intercalate.go, queryItems]
  | cons kv rest ih =>
    obtain ⟨k, v⟩ := kv
    simp only [List.map_cons, String.intercalate.go, ih, queryItems, queryItem, if_true,
      String.append_assoc]

theorem queryItems_eq_intercalate (rs : List (String × Doc)) :
    queryItems false rs = ",".intercalate (rs.map queryItem) := by
  cases rs with
  | nil => rfl
  | cons kv rest =>
    obtain ⟨k, v⟩ := kv
    simp only [List.map_cons, String.intercalate, intercalate_go_queryItems, queryItems,
      queryItem, String.append_assoc]
    simp

/-- C28. The buffer loop of `getQueryResultForQueryString` writes, for every sequence of pairs
yielded by the selector query, the items `\x7b"Key":"k", "Record":v\x7d` in the
same order separated by single commas, and the handler returns them between
"[" and "]" with no error; there are as many items as pairs, and when nothing
matches the result is the text "[]". -/
theorem getQueryResultForQueryString_text :
    (∀ rs : List (String × Doc),
      queryItems false rs = ",".intercalate (rs.map queryItem) ∧
      (rs.map queryItem).length = rs.length) ∧
    (∀ (l : Ledger) (q : Selector),
      getQueryResultForQueryString l q =
        (Bytes.text ("[" ++ ",".intercalate ((GetQueryResult l q).map queryItem) ++ "]"),
          none)) ∧
    (∀ (l : Ledger) (q : Selector), GetQueryResult l q = [] →
      getQueryResultForQueryString l q = (Bytes.text "[]", none)) := by
  refine ⟨fun rs => ⟨queryItems_eq_intercalate rs, List.length_map _ _⟩, ?_, ?_⟩
  · intro l q
    simp only [getQueryResultForQueryString, queryItems_eq_intercalate]
  · intro l q h
    simp only [getQueryResultForQueryString, h, queryItems]
    rfl

/-- Witness of C28: no question matches `Q9`, and the result is "[]". -/
theorem getQueryResultForQueryString_text_witness :
    getQueryResultForQueryString ((demoWorld 10).ledger "questions") ⟨"QuestionHashID", "Q9"⟩ =
      (Bytes.text "[]", none) :=
  getQueryResultForQueryString_text.2.2 ((demoWorld 10).ledger "questions")
    ⟨"QuestionHashID", "Q9"⟩ (by rfl)

/-- C29 (failing input). After the successful `submitAnswer` of the scenario the record of `A1` is
stored under `A1`, yet `queryAnswerByAnswerHashId` for `A1` returns the empty sequence "[]": the id
of an answer is encoded under the tag `AnswerHashDigest`, so no encoded answer has
a field `AnswerHashID`, the field the query selects on. A selector on `AnswerHashDigest` does
yield the pair. -/
theorem queryAnswerByAnswerHashId_misses_record :
    (scenarioAnswer demoEnv "pw").1 = Outcome.returned (shim.Success Bytes.nil) ∧
    stateOf ((scenarioAnswer demoEnv "pw").2.ledger "answers") "A1" =
      some (AnsToJSON demoAnswer) ∧
    (Answers.Invoke demoEnv (scenarioAnswer demoEnv "pw").2 "answers"
      "queryAnswerByAnswerHashId" ["A1"]).1 =
      Outcome.returned (shim.Success (Bytes.text "[]")) ∧
    (∀ a : Answer, fieldOf "AnswerHashID" (AnsToJSON a) = none) ∧
    GetQueryResult ((scenarioAnswer demoEnv "pw").2.ledger "answers")
      ⟨"AnswerHashDigest", "A1"⟩ = [("A1", AnsToJSON demoAnswer)] := by
  refine ⟨by rfl, by rfl, by rfl, ?_, by rfl⟩
  intro a
  simp [AnsToJSON, fieldOf]


/-! ## One encoding per record type -/

/-- The codecs compiled in the single files are the codecs used throughout. -/
theorem per_store_codecs :
    Questions.QuestoJSON = QuestoJSON ∧ Answers.JSONtoQues = JSONtoQues ∧
    Evaluators.EvaltoJSON = EvaltoJSON ∧ Answers.JSONtoEval = JSONtoEval := by
  refine ⟨rfl, ?_, rfl, ?_⟩
  · funext b
    cases b <;> rfl
  · funext b
    cases b <;> rfl

/-- C30. Records decode independently of the store that wrote them: the decoder `JSONtoEval` of
Answers.go applied to the bytes that `EvaltoJSON` of Evauators.go produces for an evaluator `e`
returns `e` (id, secret hash, evaluated answers, reputation entries, creation
time), and the decoder `JSONtoQues` of Answers.go applied to the bytes that `QuestoJSON` of
Questions.go produces for a question `q` returns `q`. -/
theorem decode_across_stores (e : Evaluator) (q : Question) :
    Answers.JSONtoEval (Bytes.json (Evaluators.EvaltoJSON e)) = .ok e ∧
    Answers.JSONtoQues (Bytes.json (Questions.QuestoJSON q)) = .ok q := by
  obtain ⟨h1, h2, h3, h4⟩ := per_store_codecs
  rw [h1, h2, h3, h4]
  exact ⟨JSONtoEval_EvaltoJSON e, JSONtoQues_QuestoJSON q⟩


/-! ## Credentials -/

theorem AnswersKeyed_write {l : Ledger} (hwf : AnswersKeyed l) (key : String) (a : Answer)
    (hid : a.AnswerHashID = key) : AnswersKeyed (writeKey l key (AnsToJSON a)) := by
  intro k d hk
  rw [stateOf_writeKey] at hk
  by_cases hkk : k = key
  · simp only [hkk, if_true, Option.some.injEq] at hk
    exact ⟨a, hk.symm, by rw [hid, hkk]⟩
  · simp only [hkk, if_false] at hk
    exact hwf k d hk

theorem AnswersKeyed_decode {l : Ledger} (hwf : AnswersKeyed l) {k : String} {dat : Answer}
    (h : JSONtoAns (GetState l k) = .ok dat) : dat.AnswerHashID = k := by
  obtain ⟨d, hd⟩ := JSONtoAns_ok_json h
  obtain ⟨a0, rfl, hid⟩ := hwf k d ((GetState_eq_json _ _ _).mp hd)
  rw [hd, JSONtoAns_AnsToJSON] at h
  simp only [Except.ok.injEq] at h
  subst h
  exact hid

/-- One dispatched command keeps every answer record under its own id. -/
theorem keyed_step {dep : Deployment} (hd : dep.distinct) {w w' : World}
    (hk : AnswersKeyed (w.ledger dep.answers)) (hstep : Step dep w w') :
    AnswersKeyed (w'.ledger dep.answers) := by
  obtain ⟨h1, h2, h3, h4, h5, h6⟩ := hd
  cases hstep with
  | questions env _ function args =>
    simpa [World.setLedger_ledger, h3.symm] using hk
  | students env _ function args =>
    simpa [World.setLedger_ledger, h5.symm] using hk
  | evaluators env _ function args =>
    simpa [World.setLedger_ledger, h6.symm] using hk
  | answers env _ function args hnames =>
    unfold Answers.Invoke
    split
    · rename_i hf
      subst hf
      rcases submitAnswer_cases env w dep.answers args with ⟨-, hw⟩ |
        ⟨qcc, scc, id, cid, author, qid, q, st, hargs, -, -, -, -, -, -, -, hres⟩
      · rw [hw]
        exact hk
      · obtain ⟨-, rfl⟩ := hnames.1 rfl qcc scc _ hargs
        rw [hres]
        simp only [World.setLedger_ledger, if_true, h5.symm, if_false]
        exact AnswersKeyed_write hk id _ rfl
    · split
      · rename_i hf
        subst hf
        rcases thumbsUp_cases env w dep.answers args with ⟨-, hw⟩ |
          ⟨qcc, ecc, a, e, secret, dat, q, ev, hargs, -, -, -, hdat, -, -, -, -, -, -, hres⟩
        · rw [hw]
          exact hk
        · obtain ⟨-, rfl⟩ := hnames.2 rfl qcc ecc _ hargs
          rw [hres]
          simp only [World.setLedger_ledger, if_true, h6.symm, if_false]
          have hida : dat.AnswerHashID = a := AnswersKeyed_decode hk hdat
          exact AnswersKeyed_write hk a (withThumbsUp dat e) hida
      · split
        · rw [queryAnswersByThumsUpCount_world]
          exact hk
        · split
          · rw [queryAnswerByAnswerHashId_world]
            exact hk
          · exact hk

theorem keyed_reachable {dep : Deployment} (hd : dep.distinct) {w : World}
    (hr : Reachable dep w) : AnswersKeyed (w.ledger dep.answers) := by
  induction hr with
  | refl =>
    intro k d h
    simp [initialWorld, stateOf] at h
  | step _ hstep ih => exact keyed_step hd ih hstep

/-- C32. In every world reachable from empty stores by dispatched commands that
name the deployed stores, an answer stored in the Answer store carries its key
as id, and for every evaluator id `e` in its `EvaluatedBy` the Evaluator store holds under `e` a
record of `e` whose `EvaluatedAnswers` contains the id of the answer. -/
theorem reachable_endorsers_recorded (dep : Deployment) (hd : dep.distinct) (w : World)
    (hr : Reachable dep w) (k : String) (ans : Answer)
    (hstored : JSONtoAns (GetState (w.ledger dep.answers) k) = .ok ans) :
    ans.AnswerHashID = k ∧
    ∀ e ∈ ans.EvaluatedBy, ∃ ev, stateOf (w.ledger dep.evaluators) e = some (EvaltoJSON ev) ∧
      ev.EvaluatorID = e ∧ ans.AnswerHashID ∈ ev.EvaluatedAnswers := by
  have hinv : Inv dep w := Inv_later hd (Inv_initial dep) hr
  have hid := AnswersKeyed_decode (keyed_reachable hd hr) hstored
  obtain ⟨-, -, -, hmem⟩ := AnswersWF_decode hinv.answers_wf hstored
  refine ⟨hid, fun e he => ?_⟩
  obtain ⟨ev, hev, hin⟩ := hmem e he
  obtain ⟨ev0, h0, hid0⟩ := hinv.evaluators_wf e _ hev
  have := EvaltoJSON_injective h0
  subst this
  exact ⟨ev, hev, hid0, by rw [hid]; exact hin⟩

/-- Witness of C32: at the end of the scenario `A1` lists `E1`, whose record lists
`A1`. -/
theorem reachable_endorsers_recorded_witness :
    ∃ ev, stateOf ((scenarioSecondThumbsUp demoEnv "pw" "secret").2.ledger "evaluators") "E1"
        = some (EvaltoJSON ev) ∧ ev.EvaluatorID = "E1" ∧ "A1" ∈ ev.EvaluatedAnswers :=
  (reachable_endorsers_recorded demoDeployment demoDeployment_distinct
    (scenarioSecondThumbsUp demoEnv "pw" "secret").2
    (scenarioSecondThumbsUp_reachable demoEnv "pw" "secret") "A1" demoEndorsedAnswer
    (by rfl)).2 "E1" (by decide)

/-- C33. In every world reachable from empty stores by dispatched commands, a record
of the Student store under key `k` is a student with `StudentID = k` and a record of the
Evaluator store under `k` an evaluator with `EvaluatorID = k`; hence `bumpUpStudentRepu`,
`bumpUpEvaluatorRepu` and `updateTheEvaluatedAnswers`, which write under the id field of the decoded record,
change no key other than the id they were called with. -/
theorem reachable_records_keyed (dep : Deployment) (hd : dep.distinct) (w : World)
    (hr : Reachable dep w) :
    (∀ k d, stateOf (w.ledger dep.students) k = some d →
      ∃ st, d = StuToJSON st ∧ st.StudentID = k) ∧
    (∀ k d, stateOf (w.ledger dep.evaluators) k = some d →
      ∃ ev, d = EvaltoJSON ev ∧ ev.EvaluatorID = k) ∧
    (∀ id tech k, k ≠ id →
      stateOf (Students.bumpUpStudentRepu (w.ledger dep.students) [id, tech]).2 k =
        stateOf (w.ledger dep.students) k) ∧
    (∀ id tech amount k, k ≠ id →
      stateOf (Evaluators.bumpUpEvaluatorRepu (w.ledger dep.evaluators) [id, tech, amount]).2 k =
        stateOf (w.ledger dep.evaluators) k) ∧
    (∀ id a k, k ≠ id →
      stateOf (Evaluators.updateTheEvaluatedAnswers (w.ledger dep.evaluators) [id, a]).2 k =
        stateOf (w.ledger dep.evaluators) k) := by
  obtain ⟨hs, he⟩ := lists_reachable hd hr
  refine ⟨?_, ?_, ?_, ?_, ?_⟩
  · intro k d h
    obtain ⟨st, h1, h2, -⟩ := hs k d h
    exact ⟨st, h1, h2⟩
  · intro k d h
    obtain ⟨ev, h1, h2, -⟩ := he k d h
    exact ⟨ev, h1, h2⟩
  · intro id tech k hk
    rcases bumpUpStudentRepu_cases (w.ledger dep.students) [id, tech] with ⟨-, h⟩ |
      ⟨i, t, st, r, ha, -, hst, -, -, hres⟩
    · rw [h]
    · simp only [List.cons.injEq, and_true] at ha
      obtain ⟨rfl, rfl⟩ := ha
      obtain ⟨-, hid, -⟩ := StudentsNodup_decode hs hst
      rw [hres, hid]
      exact stateOf_writeKey_ne _ _ _ _ hk
  · intro id tech amount k hk
    rcases bumpUpEvaluatorRepu_cases (w.ledger dep.evaluators) [id, tech, amount] with
      ⟨-, h⟩ | ⟨i, t, a, ev, r, ha, -, hev, -, -, hres⟩
    · rw [h]
    · simp only [List.cons.injEq, and_true] at ha
      obtain ⟨rfl, rfl, rfl⟩ := ha
      obtain ⟨-, hid, -⟩ := EvaluatorsNodup_decode he hev
      rw [hres, hid]
      exact stateOf_writeKey_ne _ _ _ _ hk
  · intro id a k hk
    rcases updateTheEvaluatedAnswers_cases (w.ledger dep.evaluators) [id, a] with ⟨-, h⟩ |
      ⟨e, a', ev, ha, -, hev, -, -, hres⟩
    · rw [h]
    · simp only [List.cons.injEq, and_true] at ha
      obtain ⟨rfl, rfl⟩ := ha
      obtain ⟨-, hid, -⟩ := EvaluatorsNodup_decode he hev
      rw [hres, hid]
      exact stateOf_writeKey_ne _ _ _ _ hk

/-- Witness of C33: at the end of the scenario the record under `E1` has id `E1`. -/
theorem reachable_records_keyed_witness :
    ∃ ev, EvaltoJSON ⟨"E1", "$2a$14$secret", ["A1"], [⟨"rust", 1010, "20240101000000"⟩],
        "20240101000000"⟩ = EvaltoJSON ev ∧ ev.EvaluatorID = "E1" :=
  (reachable_records_keyed demoDeployment demoDeployment_distinct
    (scenarioSecondThumbsUp demoEnv "pw" "secret").2
    (scenarioSecondThumbsUp_reachable demoEnv "pw" "secret")).2.1 "E1"
    (EvaltoJSON ⟨"E1", "$2a$14$secret", ["A1"], [⟨"rust", 1010, "20240101000000"⟩],
      "20240101000000"⟩) (by rfl)


/-! ## Reachable worlds: one reputation entry per record -/

theorem single_of_names {old new : List TechRepu} {t : TechRepu}
    (h : new.map TechRepu.UniqueTechName = old.map TechRepu.UniqueTechName) (ho : old = [t]) :
    ∃ u, new = [u] ∧ u.UniqueTechName = t.UniqueTechName := by
  subst ho
  cases new with
  | nil => simp at h
  | cons u rest =>
    cases rest with
    | nil => exact ⟨u, rfl, by simpa using h⟩
    | cons v rest2 => simp at h

theorem StudentsSingle_write {l : Ledger} (hwf : StudentsSingle l) (key : String)
    (st : Student) (t : TechRepu) (h : st.StudentTechRepus = [t]) :
    StudentsSingle (writeKey l key (StuToJSON st)) := by
  intro k d hk
  rw [stateOf_writeKey] at hk
  by_cases hkk : k = key
  · simp only [hkk, if_true, Option.some.injEq] at hk
    exact ⟨st, t, hk.symm, h⟩
  · simp only [hkk, if_false] at hk
    exact hwf k d hk

theorem EvaluatorsSingle_write {l : Ledger} (hwf : EvaluatorsSingle l) (key : String)
    (ev : Evaluator) (t : TechRepu) (h : ev.EvaluatorTechRepus = [t]) :
    EvaluatorsSingle (writeKey l key (EvaltoJSON ev)) := by
  intro k d hk
  rw [stateOf_writeKey] at hk
  by_cases hkk : k = key
  · simp only [hkk, if_true, Option.some.injEq] at hk
    exact ⟨ev, t, hk.symm, h⟩
  · simp only [hkk, if_false] at hk
    exact hwf k d hk

theorem StudentsKeepTech_refl (l : Ledger) : StudentsKeepTech l l :=
  fun _ st h => ⟨st, h, rfl⟩

theorem EvaluatorsKeepTech_refl (l : Ledger) : EvaluatorsKeepTech l l :=
  fun _ ev h => ⟨ev, h, rfl⟩

theorem StudentsKeepTech_write (l : Ledger) (key : String) (st' : Student)
    (hprev : ∀ st, stateOf l key = some (StuToJSON st) →
      st'.StudentTechRepus.map TechRepu.UniqueTechName =
        st.StudentTechRepus.map TechRepu.UniqueTechName) :
    StudentsKeepTech l (writeKey l key (StuToJSON st')) := by
  intro k st hk
  by_cases hkk : k = key
  · subst hkk
    exact ⟨st', stateOf_writeKey_self _ _ _, hprev st hk⟩
  · exact ⟨st, by rw [stateOf_writeKey_ne _ _ _ _ hkk]; exact hk, rfl⟩

theorem EvaluatorsKeepTech_write (l : Ledger) (key : String) (ev' : Evaluator)
    (hprev : ∀ ev, stateOf l key = some (EvaltoJSON ev) →
      ev'.EvaluatorTechRepus.map TechRepu.UniqueTechName =
        ev.EvaluatorTechRepus.map TechRepu.UniqueTechName) :
    EvaluatorsKeepTech l (writeKey l key (EvaltoJSON ev')) := by
  intro k ev hk
  by_cases hkk : k = key
  · subst hkk
    exact ⟨ev', stateOf_writeKey_self _ _ _, hprev ev hk⟩
  · exact ⟨ev, by rw [stateOf_writeKey_ne _ _ _ _ hkk]; exact hk, rfl⟩

/-- Rewriting the record decoded under a key with reputation entries named as
before keeps a Student ledger single-entry. -/
theorem StudentsSingle_update {l : Ledger} (hwf : StudentsNodup l) (hsg : StudentsSingle l)
    (s : String) (st st' : Student) (hst : JSONtoStu (GetState l s) = .ok st)
    (hn : st'.StudentTechRepus.map TechRepu.UniqueTechName =
      st.StudentTechRepus.map TechRepu.UniqueTechName) :
    StudentsSingle (writeKey l s (StuToJSON st')) ∧
    StudentsKeepTech l (writeKey l s (StuToJSON st')) := by
  obtain ⟨hstored, -⟩ := StudentsNodup_decode hwf hst
  obtain ⟨st0, t, h0, ht⟩ := hsg s _ hstored
  have := StuToJSON_injective h0
  subst this
  obtain ⟨u, hu, -⟩ := single_of_names hn ht
  refine ⟨StudentsSingle_write hsg s st' u hu, StudentsKeepTech_write l s st' ?_⟩
  intro st1 h1
  rw [hstored] at h1
  simp only [Option.some.injEq] at h1
  have := StuToJSON_injective h1
  subst this
  exact hn

theorem EvaluatorsSingle_update {l : Ledger} (hwf : EvaluatorsNodup l)
    (hsg : EvaluatorsSingle l) (e : String) (ev ev' : Evaluator)
    (hev : JSONtoEval (GetState l e) = .ok ev)
    (hn : ev'.EvaluatorTechRepus.map TechRepu.UniqueTechName =
      ev.EvaluatorTechRepus.map TechRepu.UniqueTechName) :
    EvaluatorsSingle (writeKey l e (EvaltoJSON ev')) ∧
    EvaluatorsKeepTech l (writeKey l e (EvaltoJSON ev')) := by
  obtain ⟨hstored, -⟩ := EvaluatorsNodup_decode hwf hev
  obtain ⟨ev0, t, h0, ht⟩ := hsg e _ hstored
  have := EvaltoJSON_injective h0
  subst this
  obtain ⟨u, hu, -⟩ := single_of_names hn ht
  refine ⟨EvaluatorsSingle_write hsg e ev' u hu, EvaluatorsKeepTech_write l e ev' ?_⟩
  intro ev1 h1
  rw [hstored] at h1
  simp only [Option.some.injEq] at h1
  have := EvaltoJSON_injective h1
  subst this
  exact hn

/-- Every command of the Student store keeps one reputation entry per record,
named as before. -/
theorem Students_Invoke_techs (env : Env) (l : Ledger) (function : String)
    (args : List String) (hwf : StudentsNodup l) (hsg : StudentsSingle l) :
    StudentsSingle (Students.Invoke env l function args).2 ∧
    StudentsKeepTech l (Students.Invoke env l function args).2 := by
  have hsame : ∀ l', l' = l → StudentsSingle l' ∧ StudentsKeepTech l l' := by
    intro l' h
    rw [h]
    exact ⟨hsg, StudentsKeepTech_refl l⟩
  unfold Students.Invoke
  split
  · rcases addAStudent_cases env l args with ⟨-, h⟩ | ⟨tech, id, secret, hh, -, hfree, -, hres⟩
    · exact hsame _ h
    · rw [hres]
      refine ⟨StudentsSingle_write hsg id _ _ rfl, StudentsKeepTech_write l id _ ?_⟩
      intro st hst
      rw [hfree] at hst
      simp at hst
  · split
    · rcases bumpUpStudentRepu_cases l args with ⟨-, h⟩ |
        ⟨id, tech, st, repus, -, -, hst, hb, -, hres⟩
      · exact hsame _ h
      · obtain ⟨-, hid, -⟩ := StudentsNodup_decode hwf hst
        rw [hres, hid]
        exact StudentsSingle_update hwf hsg id st _ hst (bumpFirst_names tech 10 _ _ hb)
    · split
      · exact hsame _ (queryStudentById_ledger l args)
      · split
        · rcases updateAnsweredQuestions_cases l args with ⟨-, h⟩ |
            ⟨s, q, st, -, -, hst, -, hres⟩
          · exact hsame _ h
          · rw [hres]
            exact StudentsSingle_update hwf hsg s st _ hst rfl
        · exact hsame _ rfl

/-- Every command of the Evaluator store keeps one reputation entry per record,
named as before. -/
theorem Evaluators_Invoke_techs (env : Env) (l : Ledger) (function : String)
    (args : List String) (hwf : EvaluatorsNodup l) (hsg : EvaluatorsSingle l) :
    EvaluatorsSingle (Evaluators.Invoke env l function args).2 ∧
    EvaluatorsKeepTech l (Evaluators.Invoke env l function args).2 := by
  have hsame : ∀ l', l' = l → EvaluatorsSingle l' ∧ EvaluatorsKeepTech l l' := by
    intro l' h
    rw [h]
    exact ⟨hsg, EvaluatorsKeepTech_refl l⟩
  unfold Evaluators.Invoke
  split
  · rcases addAnEvaluator_cases env l args with ⟨-, h⟩ |
      ⟨tech, id, secret, hh, -, hfree, -, hres⟩
    · exact hsame _ h
    · rw [hres]
      refine ⟨EvaluatorsSingle_write hsg id _ _ rfl, EvaluatorsKeepTech_write l id _ ?_⟩
      intro ev hev
      rw [hfree] at hev
      simp at hev
  · split
    · rcases bumpUpEvaluatorRepu_cases l args with ⟨-, h⟩ |
        ⟨id, tech, amount, ev, repus, -, -, hev, hb, -, hres⟩
      · exact hsame _ h
      · obtain ⟨-, hid, -⟩ := EvaluatorsNodup_decode hwf hev
        rw [hres, hid]
        exact EvaluatorsSingle_update hwf hsg id ev _ hev (bumpFirst_names tech _ _ _ hb)
    · split
      · exact hsame _ (getEvaluatorById_ledger l args)
      · split
        · exact hsame _ (queryEvaluatorById_ledger l args)
        · split
          · rcases updateTheEvaluatedAnswers_cases l args with ⟨-, h⟩ |
              ⟨e, a, ev, -, -, hev, -, -, hres⟩
            · exact hsame _ h
            · obtain ⟨-, hid, -⟩ := EvaluatorsNodup_decode hwf hev
              rw [hres, hid]
              exact EvaluatorsSingle_update hwf hsg e ev _ hev rfl
          · exact hsame _ rfl


/-- One dispatched command keeps one reputation entry per student and evaluator
record, named as before. -/
theorem techs_step {dep : Deployment} (hd : dep.distinct) {w w' : World}
    (hs : StudentsNodup (w.ledger dep.students))
    (he : EvaluatorsNodup (w.ledger dep.evaluators))
    (gs : StudentsSingle (w.ledger dep.students))
    (ge : EvaluatorsSingle (w.ledger dep.evaluators)) (hstep : Step dep w w') :
    StudentsSingle (w'.ledger dep.students) ∧ EvaluatorsSingle (w'.ledger dep.evaluators) ∧
    StudentsKeepTech (w.ledger dep.students) (w'.ledger dep.students) ∧
    EvaluatorsKeepTech (w.ledger dep.evaluators) (w'.ledger dep.evaluators) := by
  obtain ⟨h1, h2, h3, h4, h5, h6⟩ := hd
  have hsame : ∀ w1 : World, w1.ledger dep.students = w.ledger dep.students →
      w1.ledger dep.evaluators = w.ledger dep.evaluators →
      StudentsSingle (w1.ledger dep.students) ∧ EvaluatorsSingle (w1.ledger dep.evaluators) ∧
      StudentsKeepTech (w.ledger dep.students) (w1.ledger dep.students) ∧
      EvaluatorsKeepTech (w.ledger dep.evaluators) (w1.ledger dep.evaluators) := by
    intro w1 e1 e2
    rw [e1, e2]
    exact ⟨gs, ge, StudentsKeepTech_refl _, EvaluatorsKeepTech_refl _⟩
  cases hstep with
  | questions env _ function args =>
    exact hsame _ (by simp [World.setLedger_ledger, h1.symm])
      (by simp [World.setLedger_ledger, h2.symm])
  | students env _ function args =>
    obtain ⟨a1, a2⟩ := Students_Invoke_techs env (w.ledger dep.students) function args hs gs
    have hls : ∀ l, (w.setLedger dep.students l).ledger dep.students = l :=
      fun l => by simp [World.setLedger_ledger]
    have hle : ∀ l, (w.setLedger dep.students l).ledger dep.evaluators =
        w.ledger dep.evaluators := fun l => by simp [World.setLedger_ledger, h4.symm]
    rw [hls, hle]
    exact ⟨a1, ge, a2, EvaluatorsKeepTech_refl _⟩
  | evaluators env _ function args =>
    obtain ⟨a1, a2⟩ := Evaluators_Invoke_techs env (w.ledger dep.evaluators) function args
      he ge
    have hle : ∀ l, (w.setLedger dep.evaluators l).ledger dep.evaluators = l :=
      fun l => by simp [World.setLedger_ledger]
    have hls : ∀ l, (w.setLedger dep.evaluators l).ledger dep.students =
        w.ledger dep.students := fun l => by simp [World.setLedger_ledger, h4]
    rw [hls, hle]
    exact ⟨gs, a1, StudentsKeepTech_refl _, a2⟩
  | answers env _ function args hnames =>
    unfold Answers.Invoke
    split
    · rename_i hf
      subst hf
      rcases submitAnswer_cases env w dep.answers args with ⟨-, hw⟩ |
        ⟨qcc, scc, id, cid, author, qid, q, st, hargs, -, -, -, -, -, hst, -, hres⟩
      · rw [hw]
        exact hsame w rfl rfl
      · obtain ⟨-, rfl⟩ := hnames.1 rfl qcc scc _ hargs
        obtain ⟨a1, a2⟩ := StudentsSingle_update hs gs author st (withAnswered st qid) hst rfl
        have hls : (Answers.submitAnswer env w dep.answers args).2.ledger dep.students =
            writeKey (w.ledger dep.students) author (StuToJSON (withAnswered st qid)) := by
          rw [hres]
          simp [World.setLedger_ledger, h5]
        have hle : (Answers.submitAnswer env w dep.answers args).2.ledger dep.evaluators =
            w.ledger dep.evaluators := by
          rw [hres]
          simp [World.setLedger_ledger, h6, h4.symm]
        rw [hls, hle]
        exact ⟨a1, ge, a2, EvaluatorsKeepTech_refl _⟩
    · split
      · rename_i hf
        subst hf
        rcases thumbsUp_cases env w dep.answers args with ⟨-, hw⟩ |
          ⟨qcc, ecc, a, e, secret, dat, q, ev, hargs, -, -, -, -, -, hev, -, -, -, -, hres⟩
        · rw [hw]
          exact hsame w rfl rfl
        · obtain ⟨-, rfl⟩ := hnames.2 rfl qcc ecc _ hargs
          obtain ⟨-, hid, -⟩ := EvaluatorsNodup_decode he hev
          obtain ⟨a1, a2⟩ := EvaluatorsSingle_update he ge e ev (withEvaluated ev a) hev rfl
          have hle : (Answers.thumbsUpToAnswer env w dep.answers args).2.ledger dep.evaluators =
              writeKey (w.ledger dep.evaluators) e (EvaltoJSON (withEvaluated ev a)) := by
            rw [hres]
            simp [World.setLedger_ledger, h6, hid]
          have hls : (Answers.thumbsUpToAnswer env w dep.answers args).2.ledger dep.students =
              w.ledger dep.students := by
            rw [hres]
            simp [World.setLedger_ledger, h5, h4]
          rw [hls, hle]
          exact ⟨gs, a1, StudentsKeepTech_refl _, a2⟩
      · split
        · rw [queryAnswersByThumsUpCount_world]
          exact hsame w rfl rfl
        · split
          · rw [queryAnswerByAnswerHashId_world]
            exact hsame w rfl rfl
          · exact hsame w rfl rfl

/-- Along dispatched commands the records keep one reputation entry each, named
as before. -/
theorem techs_later {dep : Deployment} (hd : dep.distinct) {w w' : World}
    (hs : StudentsNodup (w.ledger dep.students))
    (he : EvaluatorsNodup (w.ledger dep.evaluators))
    (gs : StudentsSingle (w.ledger dep.students))
    (ge : EvaluatorsSingle (w.ledger dep.evaluators)) (h : Later dep w w') :
    (StudentsNodup (w'.ledger dep.students) ∧ EvaluatorsNodup (w'.ledger dep.evaluators)) ∧
    StudentsSingle (w'.ledger dep.students) ∧ EvaluatorsSingle (w'.ledger dep.evaluators) ∧
    StudentsKeepTech (w.ledger dep.students) (w'.ledger dep.students) ∧
    EvaluatorsKeepTech (w.ledger dep.evaluators) (w'.ledger dep.evaluators) := by
  induction h with
  | refl =>
    exact ⟨⟨hs, he⟩, gs, ge, StudentsKeepTech_refl _, EvaluatorsKeepTech_refl _⟩
  | step _ hstep ih =>
    obtain ⟨⟨n1, n2⟩, a1, a2, a3, a4⟩ := ih
    obtain ⟨m1, m2, -, -⟩ := lists_step hd n1 n2 hstep
    obtain ⟨b1, b2, b3, b4⟩ := techs_step hd n1 n2 a1 a2 hstep
    refine ⟨⟨m1, m2⟩, b1, b2, ?_, ?_⟩
    · intro k st hst
      obtain ⟨st1, h1, p1⟩ := a3 k st hst
      obtain ⟨st2, h2, p2⟩ := b3 k st1 h1
      exact ⟨st2, h2, p2.trans p1⟩
    · intro k ev hev
      obtain ⟨ev1, h1, p1⟩ := a4 k ev hev
      obtain ⟨ev2, h2, p2⟩ := b4 k ev1 h1
      exact ⟨ev2, h2, p2.trans p1⟩

theorem techs_reachable {dep : Deployment} (hd : dep.distinct) {w : World}
    (hr : Reachable dep w) :
    (StudentsNodup (w.ledger dep.students) ∧ EvaluatorsNodup (w.ledger dep.evaluators)) ∧
    StudentsSingle (w.ledger dep.students) ∧ EvaluatorsSingle (w.ledger dep.evaluators) := by
  obtain ⟨hn, a1, a2, -, -⟩ := techs_later hd
    (fun k d h => by simp [initialWorld, stateOf] at h)
    (fun k d h => by simp [initialWorld, stateOf] at h)
    (fun k d h => by simp [initialWorld, stateOf] at h)
    (fun k d h => by simp [initialWorld, stateOf] at h) hr
  exact ⟨hn, a1, a2⟩

theorem scanTechRepu_single (tech : String) (t : TechRepu) (h : t.UniqueTechName ≠ tech) :
    (Answers.scanTechRepu tech [t]).1 = false := by
  have h' : ¬ tech = t.UniqueTechName := fun e => h e.symm
  simp [Answers.scanTechRepu, h']

theorem Invoke_addAnEvaluator (env : Env) (l : Ledger) (args : List String) :
    Evaluators.Invoke env l "addAnEvaluator" args = Evaluators.addAnEvaluator env l args := by
  simp [Evaluators.Invoke]

theorem Invoke_addAStudent (env : Env) (l : Ledger) (args : List String) :
    Students.Invoke env l "addAStudent" args = Students.addAStudent env l args := by
  simp [Students.Invoke]

/-- C34. In every world reachable from empty stores by dispatched commands, every
student record and every evaluator record has exactly one reputation entry.
After a successful registration with tech area `tech`, and any further
dispatched commands, that entry is still the only one and is named `tech`.
Consequently `thumbsUpToAnswer` by a registered evaluator `e` on an answer whose question has a
tech area other than the one `e` registered with does not succeed, whatever
the points of `e`, the secret and the environment. -/
theorem single_reputation_entry (dep : Deployment) (hd : dep.distinct) (w0 : World)
    (hr : Reachable dep w0) :
    (∀ k d, stateOf (w0.ledger dep.students) k = some d →
      ∃ st t, d = StuToJSON st ∧ st.StudentTechRepus = [t]) ∧
    (∀ k d, stateOf (w0.ledger dep.evaluators) k = some d →
      ∃ ev t, d = EvaltoJSON ev ∧ ev.EvaluatorTechRepus = [t]) ∧
    (∀ (env : Env) (tech s secret : String) (w2 : World),
      (Students.Invoke env (w0.ledger dep.students) "addAStudent"
        [tech, s, secret]).1.Status = shim.OK →
      Later dep (w0.setLedger dep.students (Students.Invoke env (w0.ledger dep.students)
        "addAStudent" [tech, s, secret]).2) w2 →
      ∃ st t, stateOf (w2.ledger dep.students) s = some (StuToJSON st) ∧
        st.StudentTechRepus = [t] ∧ t.UniqueTechName = tech) ∧
    (∀ (env : Env) (tech e secret : String) (w2 : World),
      (Evaluators.Invoke env (w0.ledger dep.evaluators) "addAnEvaluator"
        [tech, e, secret]).1.Status = shim.OK →
      Later dep (w0.setLedger dep.evaluators (Evaluators.Invoke env (w0.ledger dep.evaluators)
        "addAnEvaluator" [tech, e, secret]).2) w2 →
      (∃ ev t, stateOf (w2.ledger dep.evaluators) e = some (EvaltoJSON ev) ∧
        ev.EvaluatorTechRepus = [t] ∧ t.UniqueTechName = tech) ∧
      ∀ (env' : Env) (a secret' : String) (dat : Answer) (q : Question),
        JSONtoAns (GetState (w2.ledger dep.answers) a) = .ok dat →
        JSONtoQues (GetState (w2.ledger dep.questions) dat.QuestionID) = .ok q →
        q.QuestionTech ≠ tech →
        (Answers.thumbsUpToAnswer env' w2 dep.answers
          [dep.questions, dep.evaluators, a, e, secret']).1.succeeded = false) := by
  obtain ⟨⟨hs0, he0⟩, gs0, ge0⟩ := techs_reachable hd hr
  have hne : shim.ERROR ≠ shim.OK := by decide
  refine ⟨gs0, ge0, ?_, ?_⟩
  · intro env tech s secret w2 hok hlater
    have hstep : Step dep w0 _ := Step.students env w0 "addAStudent" [tech, s, secret]
    obtain ⟨hs1, he1, -, -⟩ := lists_step hd hs0 he0 hstep
    obtain ⟨gs1, ge1, -, -⟩ := techs_step hd hs0 he0 gs0 ge0 hstep
    obtain ⟨-, -, -, hkeep, -⟩ := techs_later hd hs1 he1 gs1 ge1 hlater
    rw [Invoke_addAStudent] at hok hkeep
    rcases addAStudent_cases env (w0.ledger dep.students) [tech, s, secret] with ⟨hf, -⟩ |
      ⟨tech1, id1, secret1, h, hargs, -, -, hres⟩
    · rw [hf] at hok
      exact absurd hok hne
    · simp only [List.cons.injEq, and_true] at hargs
      obtain ⟨rfl, rfl, rfl⟩ := hargs
      rw [hres] at hkeep
      obtain ⟨st2, hst2, hn⟩ := hkeep s ⟨s, h, [⟨tech, 10, env.now⟩], [], env.now⟩
        (by simp [World.setLedger_ledger, stateOf_writeKey_self])
      obtain ⟨u, hu, hname⟩ := single_of_names hn rfl
      exact ⟨st2, u, hst2, hu, hname⟩
  · intro env tech e secret w2 hok hlater
    have hstep : Step dep w0 _ := Step.evaluators env w0 "addAnEvaluator" [tech, e, secret]
    obtain ⟨hs1, he1, -, -⟩ := lists_step hd hs0 he0 hstep
    obtain ⟨gs1, ge1, -, -⟩ := techs_step hd hs0 he0 gs0 ge0 hstep
    obtain ⟨⟨-, he2⟩, -, -, -, hkeep⟩ := techs_later hd hs1 he1 gs1 ge1 hlater
    rw [Invoke_addAnEvaluator] at hok hkeep
    rcases addAnEvaluator_cases env (w0.ledger dep.evaluators) [tech, e, secret] with
      ⟨hf, -⟩ | ⟨tech1, id1, secret1, h, hargs, -, -, hres⟩
    · rw [hf] at hok
      exact absurd hok hne
    · simp only [List.cons.injEq, and_true] at hargs
      obtain ⟨rfl, rfl, rfl⟩ := hargs
      rw [hres] at hkeep
      obtain ⟨ev2, hev2, hn⟩ := hkeep e ⟨e, h, [], [⟨tech, 10, env.now⟩], env.now⟩
        (by simp [World.setLedger_ledger, stateOf_writeKey_self])
      obtain ⟨u, hu, hname⟩ := single_of_names hn rfl
      refine ⟨⟨ev2, u, hev2, hu, hname⟩, ?_⟩
      intro env' a secret' dat q hdat hques htech
      rcases thumbsUp_cases env' w2 dep.answers [dep.questions, dep.evaluators, a, e, secret']
        with ⟨hf, -⟩ |
          ⟨qcc, ecc, a', e', s', dat', q', ev', hargs, -, -, -, hdat', hques', hev', -, hscan,
            -, -, -⟩
      · exact hf
      · simp only [List.cons.injEq, and_true] at hargs
        obtain ⟨rfl, rfl, rfl, rfl, rfl⟩ := hargs
        rw [hdat] at hdat'
        simp only [Except.ok.injEq] at hdat'
        subst hdat'
        rw [hques] at hques'
        simp only [Except.ok.injEq] at hques'
        subst hques'
        obtain ⟨hstored, -⟩ := EvaluatorsNodup_decode he2 hev'
        rw [hev2] at hstored
        simp only [Option.some.injEq] at hstored
        have := EvaltoJSON_injective hstored
        subst this
        rw [hu] at hscan
        have hno := scanTechRepu_single q.QuestionTech u (by rw [hname]; exact fun e => htech e.symm)
        rw [hno] at hscan
        exact absurd hscan.1 (by simp)

/-- Witness of C34: after the scenario `E1`, registered in "rust", still has its
single entry named "rust". -/
theorem single_reputation_entry_witness :
    ∃ ev t, stateOf ((scenarioSecondThumbsUp demoEnv "pw" "secret").2.ledger "evaluators") "E1"
        = some (EvaltoJSON ev) ∧ ev.EvaluatorTechRepus = [t] ∧ t.UniqueTechName = "rust" :=
  ((single_reputation_entry demoDeployment demoDeployment_distinct
    (scenarioAnswer demoEnv "pw").2
    (Later.step (Later.step (Later.step Later.refl
      (Step.students demoEnv _ "addAStudent" ["rust", "S1", "pw"]))
      (Step.questions demoEnv _ "submitQuestion" ["Q1", "cidQ", "S1", "rust", "1"]))
      (Step.answers demoEnv _ "submitAnswer" ["questions", "students", "A1", "cidA", "S1", "Q1"]
        (namesStores_submitAnswer demoDeployment _)))).2.2.2
    demoEnv "rust" "E1" "secret" (scenarioSecondThumbsUp demoEnv "pw" "secret").2 (by rfl)
    (Later.step (Later.step (Later.step Later.refl
      (Step.answers demoEnv _ "thumbsUpToAnswer" ["questions", "evaluators", "A1", "E1", "secret"]
        (namesStores_thumbsUp demoDeployment _)))
      (Step.evaluators demoEnv _ "bumpUpEvaluatorRepu" ["E1", "rust", "1000"]))
      (Step.answers demoEnv _ "thumbsUpToAnswer" ["questions", "evaluators", "A1", "E1", "secret"]
        (namesStores_thumbsUp demoDeployment _)))).1


/-! ## One answer per student and question -/

theorem lists_later {dep : Deployment} (hd : dep.distinct) {w w' : World}
    (hs : StudentsNodup (w.ledger dep.students))
    (he : EvaluatorsNodup (w.ledger dep.evaluators)) (h : Later dep w w') :
    StudentsNodup (w'.ledger dep.students) ∧ EvaluatorsNodup (w'.ledger dep.evaluators) ∧
    StudentsAppend (w.ledger dep.students) (w'.ledger dep.students) ∧
    EvaluatorsAppend (w.ledger dep.evaluators) (w'.ledger dep.evaluators) := by
  induction h with
  | refl => exact ⟨hs, he, StudentsAppend_refl _, EvaluatorsAppend_refl _⟩
  | step _ hstep ih =>
    obtain ⟨a1, a2, a3, a4⟩ := ih
    obtain ⟨b1, b2, b3, b4⟩ := lists_step hd a1 a2 hstep
    refine ⟨b1, b2, ?_, ?_⟩
    · intro k st hst
      obtain ⟨st1, h1, p1⟩ := a3 k st hst
      obtain ⟨st2, h2, p2⟩ := b3 k st1 h1
      exact ⟨st2, h2, p1.trans p2⟩
    · intro k ev hev
      obtain ⟨ev1, h1, p1⟩ := a4 k ev hev
      obtain ⟨ev2, h2, p2⟩ := b4 k ev1 h1
      exact ⟨ev2, h2, p1.trans p2⟩

theorem Invoke_submitAnswer (env : Env) (w : World) (self : String) (args : List String) :
    Answers.Invoke env w self "submitAnswer" args = Answers.submitAnswer env w self args := by
  simp [Answers.Invoke]

/-- C35. From a reachable world, once `submitAnswer` by student `s` for question `q` has succeeded,
every later `submitAnswer` by `s` for `q` against the same stores, after any dispatched commands
and with any answer id and content reference, does not succeed and leaves the
world as it was before that call, so that no answer is stored by it. -/
theorem submitAnswer_not_twice (dep : Deployment) (hd : dep.distinct) (env : Env) (w0 : World)
    (id cid s q : String) (hr : Reachable dep w0)
    (hfirst : (Answers.submitAnswer env w0 dep.answers
      [dep.questions, dep.students, id, cid, s, q]).1.succeeded = true)
    (w2 : World)
    (hlater : Later dep (Answers.submitAnswer env w0 dep.answers
      [dep.questions, dep.students, id, cid, s, q]).2 w2)
    (env' : Env) (id' cid' : String) :
    (Answers.submitAnswer env' w2 dep.answers
      [dep.questions, dep.students, id', cid', s, q]).1.succeeded = false ∧
    (Answers.submitAnswer env' w2 dep.answers
      [dep.questions, dep.students, id', cid', s, q]).2 = w2 := by
  obtain ⟨hs0, he0⟩ := lists_reachable hd hr
  have hstep : Step dep w0 (Answers.submitAnswer env w0 dep.answers
      [dep.questions, dep.students, id, cid, s, q]).2 := by
    have := Step.answers env w0 "submitAnswer" [dep.questions, dep.students, id, cid, s, q]
      (namesStores_submitAnswer dep _)
    rwa [Invoke_submitAnswer] at this
  obtain ⟨hs1, he1, -, -⟩ := lists_step hd hs0 he0 hstep
  have hans1 : ∃ st, stateOf ((Answers.submitAnswer env w0 dep.answers
      [dep.questions, dep.students, id, cid, s, q]).2.ledger dep.students) s =
      some (StuToJSON st) ∧ q ∈ st.AnsweredQuestions := by
    rcases submitAnswer_cases env w0 dep.answers [dep.questions, dep.students, id, cid, s, q]
      with ⟨hf, -⟩ | ⟨qcc, scc, i, c, author, qid, qu, st, hargs, -, -, -, -, -, -, -, hres⟩
    · rw [hf] at hfirst
      exact absurd hfirst (by simp)
    · simp only [List.cons.injEq, and_true] at hargs
      obtain ⟨rfl, rfl, rfl, rfl, rfl, rfl⟩ := hargs
      refine ⟨withAnswered st q, ?_, by simp [withAnswered]⟩
      rw [hres]
      simp [World.setLedger_ledger, hd.2.2.2.2.1, stateOf_writeKey_self]
  obtain ⟨hs2, -, happ, -⟩ := lists_later hd hs1 he1 hlater
  obtain ⟨st1, hst1, hin1⟩ := hans1
  obtain ⟨st2, hst2, hpre⟩ := happ s st1 hst1
  have hin2 : q ∈ st2.AnsweredQuestions := hpre.subset hin1
  rcases submitAnswer_cases env' w2 dep.answers [dep.questions, dep.students, id', cid', s, q]
    with hf | ⟨qcc, scc, i, c, author, qid, qu, st, hargs, -, -, -, -, -, hst, hcon, -⟩
  · exact hf
  · simp only [List.cons.injEq, and_true] at hargs
    obtain ⟨rfl, rfl, rfl, rfl, rfl, rfl⟩ := hargs
    obtain ⟨hstored, -⟩ := StudentsNodup_decode hs2 hst
    rw [hst2] at hstored
    simp only [Option.some.injEq] at hstored
    have := StuToJSON_injective hstored
    subst this
    exact absurd hin2 ((contains_eq_false _ _).mp hcon)

/-- Witness of C35: in the scenario, `S1` submits a second answer `A2` to `Q1` right after
the first one. -/
theorem submitAnswer_not_twice_witness :
    (Answers.submitAnswer demoEnv (scenarioAnswer demoEnv "pw").2 "answers"
      ["questions", "students", "A2", "cidA2", "S1", "Q1"]).1.succeeded = false :=
  (submitAnswer_not_twice demoDeployment demoDeployment_distinct demoEnv
    (scenarioQuestion demoEnv "pw") "A1" "cidA" "S1" "Q1"
    (Later.step (Later.step Later.refl
      (Step.students demoEnv _ "addAStudent" ["rust", "S1", "pw"]))
      (Step.questions demoEnv _ "submitQuestion" ["Q1", "cidQ", "S1", "rust", "1"]))
    (by rfl) (Answers.submitAnswer demoEnv (scenarioQuestion demoEnv "pw") "answers"
      ["questions", "students", "A1", "cidA", "S1", "Q1"]).2 Later.refl demoEnv "A2" "cidA2").1


/-! ## The mutating commands on absent records and on unparsable amounts -/

theorem JSONtoStu_absent {l : Ledger} {id : String} (h : stateOf l id = none) (st : Student) :
    JSONtoStu (GetState l id) ≠ .ok st := by
  rw [(GetState_eq_nil _ _).mpr h]
  simp [JSONtoStu]

theorem JSONtoEval_absent {l : Ledger} {id : String} (h : stateOf l id = none)
    (ev : Evaluator) : JSONtoEval (GetState l id) ≠ .ok ev := by
  rw [(GetState_eq_nil _ _).mpr h]
  simp [JSONtoEval]

/-- C36. The mutating commands never create a record: when no record is stored under
`id`, the handlers `bumpUpStudentRepu`, `updateAnsweredQuestions`, `bumpUpEvaluatorRepu` and
`updateTheEvaluatedAnswers` called with `id` and any other arguments return an error response
and the ledger as it was; and `submitAnswer` for an author without record in the named
Student chaincode does not succeed and leaves the world as it was. -/
theorem mutators_never_create (id : String) :
    (∀ (l : Ledger) (rest : List String), stateOf l id = none →
      ((Students.bumpUpStudentRepu l (id :: rest)).1.Status = shim.ERROR ∧
        (Students.bumpUpStudentRepu l (id :: rest)).2 = l) ∧
      ((Students.updateAnsweredQuestions l (id :: rest)).1.Status = shim.ERROR ∧
        (Students.updateAnsweredQuestions l (id :: rest)).2 = l) ∧
      ((Evaluators.bumpUpEvaluatorRepu l (id :: rest)).1.Status = shim.ERROR ∧
        (Evaluators.bumpUpEvaluatorRepu l (id :: rest)).2 = l) ∧
      ((Evaluators.updateTheEvaluatedAnswers l (id :: rest)).1.Status = shim.ERROR ∧
        (Evaluators.updateTheEvaluatedAnswers l (id :: rest)).2 = l)) ∧
    (∀ (env : Env) (w : World) (self qcc scc answer cid qid : String),
      stateOf (w.ledger scc) id = none →
      (Answers.submitAnswer env w self [qcc, scc, answer, cid, id, qid]).1.succeeded = false ∧
      (Answers.submitAnswer env w self [qcc, scc, answer, cid, id, qid]).2 = w) := by
  constructor
  · intro l rest h
    refine ⟨?_, ?_, ?_, ?_⟩
    · rcases bumpUpStudentRepu_cases l (id :: rest) with hf | ⟨i, t, st, r, ha, -, hst, -⟩
      · exact hf
      · simp only [List.cons.injEq] at ha
        obtain ⟨rfl, -⟩ := ha
        exact absurd hst (JSONtoStu_absent h st)
    · rcases updateAnsweredQuestions_cases l (id :: rest) with hf | ⟨s, q, st, ha, -, hst, -⟩
      · exact hf
      · simp only [List.cons.injEq] at ha
        obtain ⟨rfl, -⟩ := ha
        exact absurd hst (JSONtoStu_absent h st)
    · rcases bumpUpEvaluatorRepu_cases l (id :: rest) with hf | ⟨i, t, a, ev, r, ha, -, hev, -⟩
      · exact hf
      · simp only [List.cons.injEq] at ha
        obtain ⟨rfl, -⟩ := ha
        exact absurd hev (JSONtoEval_absent h ev)
    · rcases updateTheEvaluatedAnswers_cases l (id :: rest) with hf | ⟨e, a, ev, ha, -, hev, -⟩
      · exact hf
      · simp only [List.cons.injEq] at ha
        obtain ⟨rfl, -⟩ := ha
        exact absurd hev (JSONtoEval_absent h ev)
  · intro env w self qcc scc answer cid qid h
    rcases submitAnswer_cases env w self [qcc, scc, answer, cid, id, qid] with hf |
      ⟨qcc', scc', id', cid', author, qid', q, st, hargs, -, -, -, -, -, hst, -⟩
    · exact hf
    · simp only [List.cons.injEq, and_true] at hargs
      obtain ⟨rfl, rfl, rfl, rfl, rfl, rfl⟩ := hargs
      exact absurd hst (JSONtoStu_absent h st)

/-- Witness of C36: no evaluator `E2` is stored in the worked example, and no
student `S2` has registered when `S2` submits an answer. -/
theorem mutators_never_create_witness :
    ((Evaluators.bumpUpEvaluatorRepu ((demoWorld 10).ledger "evaluators")
        ["E2", "rust", "5"]).1.Status = shim.ERROR ∧
      (Evaluators.bumpUpEvaluatorRepu ((demoWorld 10).ledger "evaluators")
        ["E2", "rust", "5"]).2 = (demoWorld 10).ledger "evaluators") ∧
    (Answers.submitAnswer demoEnv (scenarioQuestion demoEnv "pw") "answers"
      ["questions", "students", "A2", "cidA2", "S2", "Q1"]).1.succeeded = false :=
  ⟨((mutators_never_create "E2").1 ((demoWorld 10).ledger "evaluators") ["rust", "5"]
      (by rfl)).2.2.1,
   ((mutators_never_create "S2").2 demoEnv (scenarioQuestion demoEnv "pw") "answers"
      "questions" "students" "A2" "cidA2" "Q1" (by rfl)).1⟩

theorem digitsValue_eq_none (acc : Nat) (cs : List Char) :
    digitsValue acc cs = none ↔ (cs.all fun d => decide ('0' ≤ d ∧ d ≤ '9')) = false := by
  induction cs generalizing acc with
  | nil => simp [digitsValue]
  | cons c rest ih =>
    by_cases hc : '0' ≤ c ∧ c ≤ '9'
    · simp only [digitsValue, hc, and_self, if_true, ih, List.all_cons, decide_True,
        Bool.true_and]
    · simp [digitsValue, hc]

/-- A string that is not a decimal integer is a syntax error for `Atoi`, which
then returns 0. -/
theorem Atoi_not_decimal (s : String) (h : isDecimalInteger s = false) : (Atoi s).1 = 0 := by
  unfold isDecimalInteger at h
  unfold Atoi
  cases hd : s.data with
  | nil => rfl
  | cons c rest =>
    simp only [hd] at h
    simp only
    have hp : parseDigits (if c = '-' ∨ c = '+' then rest else c :: rest) = none := by
      generalize (if c = '-' ∨ c = '+' then rest else c :: rest) = body at h
      cases body with
      | nil => rfl
      | cons b bs =>
        simp only [parseDigits]
        rw [digitsValue_eq_none]
        simpa using h
    rw [hp]


theorem bumpFirst_zero (tech : String) (repus : List TechRepu)
    (hentry : ∃ t ∈ repus, t.UniqueTechName = tech)
    (hfit : ∀ t ∈ repus, t.UniqueTechName = tech →
      minInt ≤ t.AttainedRepu ∧ t.AttainedRepu ≤ maxInt) :
    bumpFirst tech 0 repus = some repus := by
  cases hb : bumpFirst tech 0 repus with
  | none =>
    obtain ⟨t, ht, hn⟩ := hentry
    exact absurd hn ((bumpFirst_eq_none tech 0 repus).mp hb t ht)
  | some new =>
    obtain ⟨pre, t, post, h1, -, h3, h4⟩ := bumpFirst_some tech 0 repus new hb
    have ht : t ∈ repus := by rw [h1]; simp
    have hw : wrapInt (t.AttainedRepu + 0) = t.AttainedRepu := by
      rw [Int.add_zero]
      exact wrapInt_of_fits _ (hfit t ht h3).1 (hfit t ht h3).2
    rw [h4, h1, hw]

/-- C37. For an evaluator record stored under its id that has a reputation entry
for `tech` (its points a Go `int`), and a non-empty amount that is not a
decimal integer, `bumpUpEvaluatorRepu` returns success and writes the record back as it was:
every reputation entry keeps its points, and no other key changes. The parse
error of `Atoi` is discarded and the amount counts as 0. -/
theorem bumpUpEvaluatorRepu_invalid_amount (l : Ledger) (id tech amount : String)
    (ev : Evaluator)
    (hs : sanitize_arguments [id, tech, amount] = none)
    (hev : JSONtoEval (GetState l id) = .ok ev) (hid : ev.EvaluatorID = id)
    (hentry : ∃ t ∈ ev.EvaluatorTechRepus, t.UniqueTechName = tech)
    (hfit : ∀ t ∈ ev.EvaluatorTechRepus, t.UniqueTechName = tech →
      minInt ≤ t.AttainedRepu ∧ t.AttainedRepu ≤ maxInt)
    (hbad : isDecimalInteger amount = false) :
    (Atoi amount).1 = 0 ∧
    (Evaluators.bumpUpEvaluatorRepu l [id, tech, amount]).1 = shim.Success Bytes.nil ∧
    JSONtoEval (GetState (Evaluators.bumpUpEvaluatorRepu l [id, tech, amount]).2 id) = .ok ev ∧
    ∀ k, k ≠ id →
      stateOf (Evaluators.bumpUpEvaluatorRepu l [id, tech, amount]).2 k = stateOf l k := by
  have hne := (sanitize_eq_none _).mp hs
  have hidne : id ≠ "" := hne id (by simp)
  have h0 := Atoi_not_decimal amount hbad
  rw [bumpUpEvaluatorRepu_eval l id tech amount ev hs hev, h0,
    bumpFirst_zero tech _ hentry hfit]
  simp only [hid, hidne, if_false]
  refine ⟨trivial, trivial, ?_, fun k hk => stateOf_writeKey_ne _ _ _ _ hk⟩
  rw [GetState_writeKey_self]
  have : (⟨id, ev.EvaluatorSecret, ev.EvaluatedAnswers, ev.EvaluatorTechRepus,
      ev.CreatedON⟩ : Evaluator) = ev := by
    cases ev
    simp only at hid
    simp [hid]
  rw [this, JSONtoEval_EvaltoJSON]

/-- Witness of C37: the amount "ten" leaves the 10 points of `E1` as they are. -/
theorem bumpUpEvaluatorRepu_invalid_amount_witness :
    (Atoi "ten").1 = 0 ∧
    (Evaluators.bumpUpEvaluatorRepu ((demoWorld 10).ledger "evaluators")
      ["E1", "rust", "ten"]).1 = shim.Success Bytes.nil ∧
    JSONtoEval (GetState (Evaluators.bumpUpEvaluatorRepu ((demoWorld 10).ledger "evaluators")
      ["E1", "rust", "ten"]).2 "E1") = .ok (demoEvaluator 10) :=
  have h := bumpUpEvaluatorRepu_invalid_amount ((demoWorld 10).ledger "evaluators")
    "E1" "rust" "ten" (demoEvaluator 10) (by rfl) (by rfl) (by rfl)
    ⟨⟨"rust", 10, "20240101000000"⟩, by decide, rfl⟩ (by decide) (by decide)
  ⟨h.1, h.2.1, h.2.2.1⟩


/-! ## The required number of endorsements -/

/-- The handler `thumbsUpToAnswer` evaluated in a state where the answer and its question are
stored and the named Evaluator chaincode holds under `e` bytes that do not
decode. -/
theorem thumbsUp_undecodable (env : Env) (w : World) (self qcc ecc a e secret : String)
    (dat : Answer) (q : Question) (msg : String)
    (hs : sanitize_arguments [qcc, ecc, a, e, secret] = none)
    (hq : w.kind qcc = some Kind.questions) (he : w.kind ecc = some Kind.evaluators)
    (hdat : JSONtoAns (GetState (w.ledger self) a) = .ok dat)
    (hques : JSONtoQues (GetState (w.ledger qcc) dat.QuestionID) = .ok q)
    (hen : GetState (w.ledger ecc) e ≠ Bytes.nil)
    (hev : JSONtoEval (GetState (w.ledger ecc) e) = .error msg) :
    Answers.thumbsUpToAnswer env w self [qcc, ecc, a, e, secret] =
      (Outcome.returned (shim.Error ("Error in unmarshelling - " ++ e)), w) := by
  have hne := (sanitize_eq_none _).mp hs
  have ha : a ≠ "" := hne a (by simp)
  obtain ⟨dq, hdq⟩ := JSONtoQues_ok_json hques
  have hqn : GetState (w.ledger qcc) dat.QuestionID ≠ Bytes.nil := by rw [hdq]; simp
  obtain ⟨q1, -, q3⟩ := invoke_getQuestionById env w qcc dat.QuestionID
  obtain ⟨e1, -, e3⟩ := invoke_getEvaluatorById env w ecc e
  have hg : Answers.getAnswerLedgerState (w.ledger self) [a] = .ok dat := by
    rw [getAnswerLedgerState_eq _ _ ha, hdat]
  unfold Answers.thumbsUpToAnswer
  simp [hs, hg, q1, q3 hq hqn, e1, e3 he hen, shim.Success, hques, hev, shim.OK]

/-- The evaluator lookup answers alike in two worlds that differ in the ledger
of a Question chaincode only. -/
theorem invoke_getEvaluatorById_frame (env : Env) (w : World) (qcc ecc e : String)
    (lq : Ledger) (hq : w.kind qcc = some Kind.questions) :
    (InvokeChaincode env (w.setLedger qcc lq) ecc ["getEvaluatorById", e]).1 =
      (InvokeChaincode env w ecc ["getEvaluatorById", e]).1 := by
  by_cases hx : ecc = qcc
  · subst hx
    simp [InvokeChaincode, World.setLedger_kind, hq, Questions.Invoke]
  · simp only [InvokeChaincode, World.setLedger_kind, World.setLedger_ledger, hx, if_false]
    cases w.kind ecc with
    | none => rfl
    | some kd => cases kd <;> rfl

/-- C38. The outcome of `thumbsUpToAnswer` does not depend on `RequiredEvaluatorThumbsUp`: in two worlds that differ
only in that field of the question of the answer, the call with the same
arguments returns the same response (or panics alike) and leaves the same
ledgers in every chaincode other than the Question chaincode, which it leaves
as given. Hence the count of an answer can exceed the required number of its
question: in the worked example with two evaluators, `A1` ends with count 2 while `Q1`
requires 1. -/
theorem thumbsUp_ignores_required :
    (∀ (env : Env) (w : World) (self qcc ecc a e secret : String) (dat : Answer)
      (q : Question) (n : Int),
      w.kind self = some Kind.answers → w.kind qcc = some Kind.questions →
      JSONtoAns (GetState (w.ledger self) a) = .ok dat →
      stateOf (w.ledger qcc) dat.QuestionID = some (QuestoJSON q) →
      (Answers.thumbsUpToAnswer env (w.setLedger qcc (writeKey (w.ledger qcc) dat.QuestionID
          (QuestoJSON { q with RequiredEvaluatorThumbsUp := n }))) self
          [qcc, ecc, a, e, secret]).1 =
        (Answers.thumbsUpToAnswer env w self [qcc, ecc, a, e, secret]).1 ∧
      (∀ m, m ≠ qcc →
        (Answers.thumbsUpToAnswer env (w.setLedger qcc (writeKey (w.ledger qcc) dat.QuestionID
          (QuestoJSON { q with RequiredEvaluatorThumbsUp := n }))) self
          [qcc, ecc, a, e, secret]).2.ledger m =
        (Answers.thumbsUpToAnswer env w self [qcc, ecc, a, e, secret]).2.ledger m) ∧
      (Answers.thumbsUpToAnswer env (w.setLedger qcc (writeKey (w.ledger qcc) dat.QuestionID
          (QuestoJSON { q with RequiredEvaluatorThumbsUp := n }))) self
          [qcc, ecc, a, e, secret]).2.ledger qcc =
        writeKey (w.ledger qcc) dat.QuestionID
          (QuestoJSON { q with RequiredEvaluatorThumbsUp := n }) ∧
      (Answers.thumbsUpToAnswer env w self [qcc, ecc, a, e, secret]).2.ledger qcc =
        w.ledger qcc) ∧
    JSONtoQues (GetState (crowdWorld.ledger "questions") "Q1") = .ok demoQuestion ∧
    demoQuestion.RequiredEvaluatorThumbsUp = 1 ∧
    JSONtoAns (GetState ((Answers.thumbsUpToAnswer demoEnv
      (Answers.thumbsUpToAnswer demoEnv crowdWorld "answers"
        ["questions", "evaluators", "A1", "E1", "secret"]).2 "answers"
      ["questions", "evaluators", "A1", "E2", "secret2"]).2.ledger "answers") "A1") =
      .ok { demoAnswer with EvaluatedBy := ["E1", "E2"], AttainedEvaluatorThumbsUp := 2 } := by
  refine ⟨?_, by rfl, by rfl, by rfl⟩
  intro env w self qcc ecc a e secret dat q n hself hq hdat hstored
  have h1 : self ≠ qcc := by
    intro hx
    rw [hx, hq] at hself
    simp at hself
  have hq' : (w.setLedger qcc (writeKey (w.ledger qcc) dat.QuestionID
      (QuestoJSON { q with RequiredEvaluatorThumbsUp := n }))).kind qcc = some Kind.questions := hq
  have hdat' : JSONtoAns (GetState ((w.setLedger qcc (writeKey (w.ledger qcc) dat.QuestionID
      (QuestoJSON { q with RequiredEvaluatorThumbsUp := n }))).ledger self) a) = .ok dat := by
    simpa [World.setLedger_ledger, h1] using hdat
  have hques : JSONtoQues (GetState (w.ledger qcc) dat.QuestionID) = .ok q := by
    rw [(GetState_eq_json _ _ _).mpr hstored, JSONtoQues_QuestoJSON]
  have hques' : JSONtoQues (GetState ((w.setLedger qcc (writeKey (w.ledger qcc) dat.QuestionID
      (QuestoJSON { q with RequiredEvaluatorThumbsUp := n }))).ledger qcc) dat.QuestionID) =
      .ok { q with RequiredEvaluatorThumbsUp := n } := by
    simp [World.setLedger_ledger, GetState_writeKey_self, JSONtoQues_QuestoJSON]
  generalize hlq : writeKey (w.ledger qcc) dat.QuestionID
      (QuestoJSON { q with RequiredEvaluatorThumbsUp := n }) = lq at hq' hdat' hques' ⊢
  have hlqc : (w.setLedger qcc lq).ledger qcc = lq := by simp [World.setLedger_ledger]
  cases hs : sanitize_arguments [qcc, ecc, a, e, secret] with
  | some err =>
    simp only [Answers.thumbsUpToAnswer, hs]
    exact ⟨trivial, fun m hm => by simp [World.setLedger_ledger, hm], hlqc, trivial⟩
  | none =>
    have hresp := invoke_getEvaluatorById_frame env w qcc ecc e lq hq
    by_cases hst : (InvokeChaincode env w ecc ["getEvaluatorById", e]).1.Status = shim.OK
    · obtain ⟨he, hen, -⟩ := (invoke_getEvaluatorById env w ecc e).2.1 hst
      have hx : ecc ≠ qcc := by
        intro hx
        rw [hx, hq] at he
        simp at he
      have h2 : self ≠ ecc := by
        intro hy
        rw [hy, he] at hself
        simp at hself
      have hle : (w.setLedger qcc lq).ledger ecc = w.ledger ecc := by
        simp [World.setLedger_ledger, hx]
      have he' : (w.setLedger qcc lq).kind ecc = some Kind.evaluators := he
      cases hev : JSONtoEval (GetState (w.ledger ecc) e) with
      | error msg =>
        rw [thumbsUp_undecodable env w self qcc ecc a e secret dat q msg hs hq he hdat hques
            hen hev,
          thumbsUp_undecodable env (w.setLedger qcc lq) self qcc ecc a e secret dat _ msg hs
            hq' he' hdat' hques' (by rw [hle]; exact hen) (by rw [hle]; exact hev)]
        exact ⟨rfl, fun m hm => by simp [World.setLedger_ledger, hm], hlqc, rfl⟩
      | ok ev =>
        rw [thumbsUp_eval env w self qcc ecc a e secret dat q ev hs hq he hdat hques hev,
          thumbsUp_eval env (w.setLedger qcc lq) self qcc ecc a e secret dat _ ev hs
            hq' he' hdat' hques' (by rw [hle]; exact hev)]
        simp only []
        split
        · exact ⟨rfl, fun m hm => by simp [World.setLedger_ledger, hm], hlqc, rfl⟩
        · split
          · split
            · exact ⟨rfl, fun m hm => by simp [World.setLedger_ledger, hm], hlqc, rfl⟩
            · refine ⟨rfl, fun m hm => ?_, ?_, ?_⟩
              · by_cases hms : m = self
                · simp [World.setLedger_ledger, hms, h1, h2]
                · by_cases hme : m = ecc
                  · simp [World.setLedger_ledger, hme, hx, h2.symm]
                  · simp [World.setLedger_ledger, hme, hm, hms]
              · simp [World.setLedger_ledger, h1.symm, hx.symm]
              · simp [World.setLedger_ledger, h1.symm, hx.symm]
          · exact ⟨rfl, fun m hm => by simp [World.setLedger_ledger, hm], hlqc, rfl⟩
    · have hst' : (InvokeChaincode env (w.setLedger qcc lq) ecc
          ["getEvaluatorById", e]).1.Status ≠ shim.OK := by
        rw [hresp]
        exact hst
      rw [thumbsUp_lookup_failed env w self qcc ecc a e secret dat hs hdat
          (Or.inr ⟨⟨q, hques⟩, hq, hst⟩),
        thumbsUp_lookup_failed env (w.setLedger qcc lq) self qcc ecc a e secret dat hs hdat'
          (Or.inr ⟨⟨_, hques'⟩, hq', hst'⟩)]
      exact ⟨rfl, fun m hm => by simp [World.setLedger_ledger, hm], hlqc, rfl⟩

/-- Witness of C38: in the worked example the endorsement by `E1` gives the same
response whether `Q1` requires 1 endorsement or 7. -/
theorem thumbsUp_ignores_required_witness :
    (Answers.thumbsUpToAnswer demoEnv ((demoWorld 1001).setLedger "questions"
        (writeKey ((demoWorld 1001).ledger "questions") demoAnswer.QuestionID
          (QuestoJSON { demoQuestion with RequiredEvaluatorThumbsUp := 7 }))) "answers"
        ["questions", "evaluators", "A1", "E1", "secret"]).1 =
      (Answers.thumbsUpToAnswer demoEnv (demoWorld 1001) "answers"
        ["questions", "evaluators", "A1", "E1", "secret"]).1 :=
  (thumbsUp_ignores_required.1 demoEnv (demoWorld 1001) "answers" "questions" "evaluators"
    "A1" "E1" "secret" demoAnswer demoQuestion 7 (by decide) (by decide) (by rfl) (by rfl)).1


/-! ## The stores named by the caller -/

/-- C39. The handler `thumbsUpToAnswer` trusts the stores its first two arguments name. For every
world, every answer stored under `a` (with a non-empty question id), every
evaluator id `e` and secret `s` whose hash `h` verifies `s`: when the Question
chaincode `qcc` holds a question under the question id of the answer and the Evaluator
chaincode `ecc` holds under `e` a record with hash `h` and 1001 points in the
tech area of the question, whatever the other ledgers hold, the call succeeds
and stores the answer with `e` appended to `EvaluatedBy` and the count raised by one (Go
addition). With two Evaluator chaincodes both holding `E1`, two calls append `E1`
twice. -/
theorem thumbsUp_trusts_named_stores :
    (∀ (env : Env) (w : World) (self qcc ecc a e s h : String) (dat : Answer),
      w.kind self = some Kind.answers → w.kind qcc = some Kind.questions →
      w.kind ecc = some Kind.evaluators →
      sanitize_arguments [qcc, ecc, a, e, s] = none →
      JSONtoAns (GetState (w.ledger self) a) = .ok dat → dat.QuestionID ≠ "" →
      HashPassword env s = .ok h → CheckPasswordHash env s h = true →
      ∃ lq le,
        stateOf lq dat.QuestionID ≠ none ∧
        (∃ ev, stateOf le e = some (EvaltoJSON ev) ∧ ev.EvaluatorSecret = h) ∧
        (Answers.thumbsUpToAnswer env ((w.setLedger qcc lq).setLedger ecc le) self
          [qcc, ecc, a, e, s]).1 = Outcome.returned (shim.Success Bytes.nil) ∧
        JSONtoAns (GetState ((Answers.thumbsUpToAnswer env
          ((w.setLedger qcc lq).setLedger ecc le) self [qcc, ecc, a, e, s]).2.ledger self) a) =
          .ok { dat with
            EvaluatedBy := dat.EvaluatedBy ++ [e]
            AttainedEvaluatorThumbsUp := wrapInt (dat.AttainedEvaluatorThumbsUp + 1) }) ∧
    (Answers.thumbsUpToAnswer demoEnv twoStoresWorld "answers"
      ["questions", "evaluators", "A1", "E1", "secret"]).1 =
      Outcome.returned (shim.Success Bytes.nil) ∧
    (Answers.thumbsUpToAnswer demoEnv
      (Answers.thumbsUpToAnswer demoEnv twoStoresWorld "answers"
        ["questions", "evaluators", "A1", "E1", "secret"]).2 "answers"
      ["questions", "evaluators2", "A1", "E1", "secret"]).1 =
      Outcome.returned (shim.Success Bytes.nil) ∧
    JSONtoAns (GetState ((Answers.thumbsUpToAnswer demoEnv
      (Answers.thumbsUpToAnswer demoEnv twoStoresWorld "answers"
        ["questions", "evaluators", "A1", "E1", "secret"]).2 "answers"
      ["questions", "evaluators2", "A1", "E1", "secret"]).2.ledger "answers") "A1") =
      .ok { demoAnswer with EvaluatedBy := ["E1", "E1"], AttainedEvaluatorThumbsUp := 2 } := by
  refine ⟨?_, by rfl, by rfl, by rfl⟩
  intro env w self qcc ecc a e s h dat hself hq he hs hdat hqid hh hv
  have hne := (sanitize_eq_none _).mp hs
  have hee : e ≠ "" := hne e (by simp)
  have h1 : self ≠ qcc := by
    intro hx
    rw [hx, hq] at hself
    simp at hself
  have h2 : self ≠ ecc := by
    intro hx
    rw [hx, he] at hself
    simp at hself
  have h3 : qcc ≠ ecc := by
    intro hx
    rw [hx, he] at hq
    simp at hq
  refine ⟨[(dat.QuestionID, QuestoJSON ⟨dat.QuestionID, "cid", "author", "tech", 0, env.now⟩)],
    [(e, EvaltoJSON ⟨e, h, [], [⟨"tech", 1001, env.now⟩], env.now⟩)],
    by simp [stateOf],
    ⟨⟨e, h, [], [⟨"tech", 1001, env.now⟩], env.now⟩, by simp [stateOf], rfl⟩, ?_⟩
  have hev := thumbsUp_eval env
    ((w.setLedger qcc
      [(dat.QuestionID, QuestoJSON ⟨dat.QuestionID, "cid", "author", "tech", 0, env.now⟩)]).setLedger
      ecc [(e, EvaltoJSON ⟨e, h, [], [⟨"tech", 1001, env.now⟩], env.now⟩)])
    self qcc ecc a e s dat ⟨dat.QuestionID, "cid", "author", "tech", 0, env.now⟩
    ⟨e, h, [], [⟨"tech", 1001, env.now⟩], env.now⟩ hs hq he
    (by simpa [World.setLedger_ledger, h1, h2] using hdat)
    (by simp [World.setLedger_ledger, h3, GetState, stateOf, JSONtoQues_QuestoJSON])
    (by simp [World.setLedger_ledger, GetState, stateOf, JSONtoEval_EvaltoJSON])
  rw [hev]
  have hscan : Answers.scanTechRepu "tech" [(⟨"tech", 1001, env.now⟩ : TechRepu)] = (true, 1001) := by
    simp [Answers.scanTechRepu]
  simp only [hv, hscan, contains, hee, Bool.true_eq_false, Bool.false_eq_true, if_false, or_self]
  simp [World.setLedger_ledger, h2, GetState_writeKey_self, JSONtoAns_AnsToJSON, withThumbsUp]

/-- Witness of C39: in the worked example the Evaluator chaincode is given a record of
`E2` whose hash verifies "pw2", and `E2` endorses `A1`. -/
theorem thumbsUp_trusts_named_stores_witness :
    ∃ lq le,
      stateOf lq demoAnswer.QuestionID ≠ none ∧
      (∃ ev, stateOf le "E2" = some (EvaltoJSON ev) ∧ ev.EvaluatorSecret = "$2a$14$pw2") ∧
      (Answers.thumbsUpToAnswer demoEnv
        (((demoWorld 10).setLedger "questions" lq).setLedger "evaluators" le) "answers"
        ["questions", "evaluators", "A1", "E2", "pw2"]).1 =
        Outcome.returned (shim.Success Bytes.nil) ∧
      JSONtoAns (GetState ((Answers.thumbsUpToAnswer demoEnv
        (((demoWorld 10).setLedger "questions" lq).setLedger "evaluators" le) "answers"
        ["questions", "evaluators", "A1", "E2", "pw2"]).2.ledger "answers") "A1") =
        .ok { demoAnswer with
          EvaluatedBy := demoAnswer.EvaluatedBy ++ ["E2"]
          AttainedEvaluatorThumbsUp := wrapInt (demoAnswer.AttainedEvaluatorThumbsUp + 1) } :=
  thumbsUp_trusts_named_stores.1 demoEnv (demoWorld 10) "answers" "questions" "evaluators"
    "A1" "E2" "pw2" "$2a$14$pw2" demoAnswer (by decide) (by decide) (by decide) (by rfl)
    (by rfl) (by decide) (by rfl) (by rfl)

end QnA
